import Mathlib

/-!
# idk-game: grid, move resolution and entity decisions

A shallow embedding of `src/scripts/idk-level.js` and
`src/scripts/idk-level-entities.js`.

* A JavaScript `Map` is an association list in insertion order (`mapGet`,
  `mapSet`, `mapDelete`), a JavaScript `Set` a list in insertion order
  (`setAdd`, `setDelete`).
* Coordinates are integers.
* Every object literal `{x: x, y: y}` stored by `addLevelEntity` carries the
  reference `ref` under which it was allocated, so that `!==` between two such
  objects is a comparison of references.
* A call that mutates the grid returns a `Result`: the value or the exception,
  together with the grid as the call leaves it.
* The recursion of `processSingleRequest` is bounded by a fuel argument that
  counts nested calls; running out of it is the error `outOfFuel`.
-/

namespace IdkGame

/-! ## JavaScript `Map` and `Set` -/

/-- The method `Map.prototype.get`; `none` is `undefined`. -/
def mapGet {α β : Type} [DecidableEq α] : List (α × β) → α → Option β
  | [], _ => none
  | (k', v) :: m, k => if k' = k then some v else mapGet m k

/-- The method `Map.prototype.has`. -/
def mapHas {α β : Type} [DecidableEq α] (m : List (α × β)) (k : α) : Bool :=
  (mapGet m k).isSome

/-- The method `Map.prototype.set`: an existing key keeps its place, a new key goes
last. -/
def mapSet {α β : Type} [DecidableEq α] : List (α × β) → α → β → List (α × β)
  | [], k, v => [(k, v)]
  | (k', v') :: m, k, v => if k' = k then (k, v) :: m else (k', v') :: mapSet m k v

/-- The method `Map.prototype.delete`. -/
def mapDelete {α β : Type} [DecidableEq α] (m : List (α × β)) (k : α) : List (α × β) :=
  m.filter (fun p => decide (p.1 ≠ k))

/-- The method `Set.prototype.add`. -/
def setAdd {α : Type} [DecidableEq α] (s : List α) (a : α) : List α :=
  if a ∈ s then s else s ++ [a]

/-- The method `Set.prototype.delete`. -/
def setDelete {α : Type} [DecidableEq α] (s : List α) (a : α) : List α :=
  s.filter (fun b => decide (b ≠ a))

/-- The method `Set.prototype.has`. -/
def setHas {α : Type} [DecidableEq α] (s : List α) (a : α) : Bool :=
  decide (a ∈ s)

/-! ## Entities, positions, the grid -/

/-- The class of a level entity: `Player`, `BasicEnemy` or `Wall`. -/
inductive Kind where
  | player
  | basicEnemy
  | wall
deriving DecidableEq, Repr

/-- A level entity: an object identity together with its class. -/
structure LevelEntity where
  id : Nat
  kind : Kind
deriving DecidableEq, Repr

/-- The test `ent instanceof Player`. -/
def isPlayer (levelEntity : LevelEntity) : Bool :=
  decide (levelEntity.kind = Kind.player)

/-- The object `{x: x, y: y}` that `addLevelEntity` stores in
`levelEntityPositionMap`; `ref` is its identity. -/
structure Position where
  ref : Nat
  x : Int
  y : Int
deriving DecidableEq, Repr

/-- The object `{x: x, y: y}` that `addRequest` stores in `requests`. -/
structure Request where
  x : Int
  y : Int
deriving DecidableEq, Repr

/-- The exceptions a call can raise. -/
inductive Err where
  | outOfBounds
  | moveRequestError
  | typeError
  | outOfFuel
deriving DecidableEq, Repr

/-- The state of a `LevelGrid` with its `MoveRequestHandler`: `grid[x][y]` is the
set of entities in cell `(x, y)`, `requests` is `moveRequestHandler.requests`,
`alloc` is the reference the next position object gets. -/
structure LevelGrid where
  grid : List (List (List LevelEntity))
  levelEntityPositionMap : List (LevelEntity × Position)
  requests : List (LevelEntity × Request)
  alloc : Nat
deriving DecidableEq, Repr

/-- Outcome of a call: its value or the exception raised, and the grid as the
call leaves it. -/
inductive Result (α : Type) where
  | ok (value : α) (state : LevelGrid)
  | error (err : Err) (state : LevelGrid)
deriving DecidableEq, Repr

/-- The function `buildLevelGridArray`: `columns` arrays of `rows` empty sets. -/
def buildLevelGridArray (columns rows : Nat) : List (List (List LevelEntity)) :=
  List.replicate columns (List.replicate rows [])

/-- The constructor `new LevelGrid(columns, rows)`. -/
def LevelGrid.new (columns rows : Nat) : LevelGrid :=
  { grid := buildLevelGridArray columns rows
    levelEntityPositionMap := []
    requests := []
    alloc := 0 }

/-- The getter `columns`: `this.grid.length`. -/
def LevelGrid.columns (g : LevelGrid) : Nat :=
  g.grid.length

/-- The getter `rows`: `this.grid[0].length`; `none` when `this.grid[0]` is
`undefined`, where the getter raises a `TypeError`. -/
def LevelGrid.rows (g : LevelGrid) : Option Nat :=
  g.grid.head?.map List.length

/-- The expression `grid[x][y]`; `none` when it is `undefined` or raises. -/
def getCell (grid : List (List (List LevelEntity))) (x y : Int) : Option (List LevelEntity) :=
  if 0 ≤ x ∧ 0 ≤ y then
    match grid[x.toNat]? with
    | none => none
    | some column => column[y.toNat]?
  else none

/-- The grid after the set `grid[x][y]` has been mutated into `cell`. -/
def setCell (grid : List (List (List LevelEntity))) (x y : Int) (cell : List LevelEntity) :
    List (List (List LevelEntity)) :=
  match grid[x.toNat]? with
  | none => grid
  | some column => grid.set x.toNat (column.set y.toNat cell)

/-- The method `getPosition`; `none` is `null`. -/
def LevelGrid.getPosition (g : LevelGrid) (levelEntity : LevelEntity) : Option Position :=
  if mapHas g.levelEntityPositionMap levelEntity then mapGet g.levelEntityPositionMap levelEntity
  else none

/-- The method `entities`. -/
def LevelGrid.entities (g : LevelGrid) : List LevelEntity :=
  g.levelEntityPositionMap.map Prod.fst

/-- The method `addLevelEntity`. The getter `rows` is evaluated on every path
(in the test or in the message of the exception). -/
def LevelGrid.addLevelEntity (g : LevelGrid) (levelEntity : LevelEntity) (x y : Int) :
    Result Unit :=
  match g.rows with
  | none => Result.error Err.typeError g
  | some rows =>
    if x < 0 ∨ y < 0 ∨ x ≥ g.columns ∨ y ≥ rows then Result.error Err.outOfBounds g
    else
      match getCell g.grid x y with
      | none => Result.error Err.typeError g
      | some cell =>
        Result.ok ()
          { g with
            grid := setCell g.grid x y (setAdd cell levelEntity)
            levelEntityPositionMap :=
              mapSet g.levelEntityPositionMap levelEntity ⟨g.alloc, x, y⟩
            alloc := g.alloc + 1 }

/-- The method `removeLevelObject`. -/
def LevelGrid.removeLevelObject (g : LevelGrid) (levelEntity : LevelEntity) : Result Unit :=
  match g.getPosition levelEntity with
  | none => Result.ok () g
  | some pos =>
    match getCell g.grid pos.x pos.y with
    | none => Result.error Err.typeError g
    | some cell =>
      Result.ok ()
        { g with
          grid := setCell g.grid pos.x pos.y (setDelete cell levelEntity)
          levelEntityPositionMap := mapDelete g.levelEntityPositionMap levelEntity }

/-- The method `move`: `removeLevelObject`, then `addLevelEntity`. -/
def LevelGrid.move (g : LevelGrid) (levelEntity : LevelEntity) (x y : Int) : Result Unit :=
  match g.removeLevelObject levelEntity with
  | Result.error err g1 => Result.error err g1
  | Result.ok _ g1 => g1.addLevelEntity levelEntity x y

/-- The comparison `a != b` of a request object or `undefined` (`none`) with a
position object or `null` (`none`). The objects of `requests` are allocated by
`addRequest` and by the literal in `requestMove`, those of
`levelEntityPositionMap` by `addLevelEntity`, so two objects compared here are
never the same object; only `undefined != null` is false. -/
def looseNe (position : Option Request) (current : Option Position) : Bool :=
  match position, current with
  | none, none => false
  | _, _ => true

/-- The method `MoveRequestHandler.addRequest`. -/
def LevelGrid.addRequest (g : LevelGrid) (levelEntity : LevelEntity) (x y : Int) : LevelGrid :=
  { g with requests := mapSet g.requests levelEntity ⟨x, y⟩ }

/-- The method `requestMove`. -/
def LevelGrid.requestMove (g : LevelGrid) (levelEntity : LevelEntity) (x y : Int) :
    Result Unit :=
  match g.rows with
  | none => Result.error Err.typeError g
  | some rows =>
    if x ≥ 0 ∧ y ≥ 0 ∧ x < g.columns ∧ y < rows then
      if looseNe (some ⟨x, y⟩) (g.getPosition levelEntity) then
        Result.ok () (g.addRequest levelEntity x y)
      else Result.ok () g
    else Result.error Err.moveRequestError g

/-! ## The move request handler -/

/-- The array `Array.from(objects).filter(ent => !(ent instanceof Player))`. -/
def nonPlayers (objects : List LevelEntity) : List LevelEntity :=
  objects.filter (fun ent => !isPlayer ent)

/-- The loop of `_handleAnyMovementConflicts` over the blocking entities; `process`
is `processSingleRequest`, the value threaded through is the `visited` set. -/
def handleLoop (process : LevelGrid → LevelEntity → Option Request → List LevelEntity →
      Result (List LevelEntity)) :
    List LevelEntity → LevelGrid → List LevelEntity → Result (List LevelEntity)
  | [], g, visited => Result.ok visited g
  | blockingEntity :: rest, g, visited =>
    match process g blockingEntity (mapGet g.requests blockingEntity) visited with
    | Result.error err g1 => Result.error err g1
    | Result.ok visited1 g1 => handleLoop process rest g1 visited1

/-- The method `_handleAnyMovementConflicts`, with `processSingleRequest` passed
in as `process`. -/
def handleAnyMovementConflicts
    (process : LevelGrid → LevelEntity → Option Request → List LevelEntity →
      Result (List LevelEntity))
    (g : LevelGrid) (levelEntity : LevelEntity) (position : Request)
    (visited : List LevelEntity) : Result (List LevelEntity) :=
  match getCell g.grid position.x position.y with
  | none => Result.error Err.typeError g
  | some objectsInRequestedPosition =>
    match handleLoop process (nonPlayers objectsInRequestedPosition) g
        (setAdd visited levelEntity) with
    | Result.error err g1 => Result.error err g1
    | Result.ok visited1 g1 => Result.ok (setDelete visited1 levelEntity) g1

/-- The two statements `this.levelGrid.move(levelEntity, position.x, position.y);
this.requests.delete(levelEntity);`. -/
def moveAndDelete (g : LevelGrid) (levelEntity : LevelEntity) (position : Request)
    (visited : List LevelEntity) : Result (List LevelEntity) :=
  match g.move levelEntity position.x position.y with
  | Result.error err g1 => Result.error err g1
  | Result.ok _ g1 =>
    Result.ok visited { g1 with requests := mapDelete g1.requests levelEntity }

/-- The method `processSingleRequest`; the first argument bounds the depth of the
recursion through `_handleAnyMovementConflicts`. The value returned is the
`visited` set as the call leaves it. -/
def processSingleRequest : Nat → LevelGrid → LevelEntity → Option Request →
    List LevelEntity → Result (List LevelEntity)
  | 0, g, _, _, _ => Result.error Err.outOfFuel g
  | fuel + 1, g, levelEntity, position, visited =>
    if looseNe position (g.getPosition levelEntity) then
      match position with
      | none => Result.error Err.typeError g
      | some position =>
        match getCell g.grid position.x position.y with
        | none => Result.error Err.typeError g
        | some objectsInRequestedPosition =>
          let filteredGridPosition := nonPlayers objectsInRequestedPosition
          if filteredGridPosition.length = 0 ∨
              filteredGridPosition.all (fun ent => setHas visited ent) then
            moveAndDelete g levelEntity position visited
          else if filteredGridPosition.all (fun ent => mapHas g.requests ent) then
            match handleAnyMovementConflicts (processSingleRequest fuel) g levelEntity
                position visited with
            | Result.error err g1 => Result.error err g1
            | Result.ok visited1 g1 =>
              match getCell g1.grid position.x position.y with
              | none => Result.error Err.typeError g1
              | some objectsAfter =>
                if (nonPlayers objectsAfter).length = 0 then
                  moveAndDelete g1 levelEntity position visited1
                else Result.ok visited1 g1
          else Result.ok visited g
    else Result.ok visited g

/-- The loop of `processAllRequests` over the entries of `requests`: an entry
deleted before the iteration reaches it is not visited. -/
def processLoop (fuel : Nat) : List (LevelEntity × Request) → LevelGrid → Result Unit
  | [], g => Result.ok () g
  | (levelEntity, position) :: rest, g =>
    if mapHas g.requests levelEntity then
      match processSingleRequest fuel g levelEntity (some position) [] with
      | Result.error err g1 => Result.error err g1
      | Result.ok _ g1 => processLoop fuel rest g1
    else processLoop fuel rest g

/-- The method `processAllRequests`. -/
def processAllRequests (fuel : Nat) (g : LevelGrid) : Result Unit :=
  match processLoop fuel g.requests g with
  | Result.error err g1 => Result.error err g1
  | Result.ok _ g1 => Result.ok () { g1 with requests := [] }

/-! ## Entity decisions (`idk-level-entities.js`) -/

/-- The function `taxiCabDistance`. -/
def taxiCabDistance (x1 y1 x2 y2 : Int) : Int :=
  |x1 - x2| + |y1 - y2|

/-- The function `selectRandomMinimumElement`; `random` is the value returned by
`Math.random()`, taken as an exact rational number, and the product
`Math.random() * i` is taken exactly. `selectRandomMinimumElementDouble` below rounds
the product to a double as the source does; each of its results at a double draw in
`[0, 1)` is the result of this function at some draw in `[0, 1)`
(`select_double_draw`). `Array.prototype.sort` is a stable sort, here insertion sort;
the comparator `valueFunction(target1) - valueFunction(target2)` orders by value.
`none` is `null`. -/
def selectRandomMinimumElement {α : Type} (arr : List α) (valueFunction : α → Int)
    (random : ℚ) : Option α :=
  if arr.length = 0 then none
  else
    let sortedArr := arr.insertionSort
      (fun target1 target2 => valueFunction target1 ≤ valueFunction target2)
    match sortedArr with
    | [] => none
    | first :: rest =>
      let minimumValue := valueFunction first
      let i := 1 + (rest.takeWhile (fun t => decide (valueFunction t = minimumValue))).length
      sortedArr[(⌊random * i⌋).toNat]?

/-- The elements of `arr` of minimum value, in the order of the array. -/
def nearestTargets {α : Type} (arr : List α) (valueFunction : α → Int) : List α :=
  arr.filter (fun t => arr.all (fun u => decide (valueFunction t ≤ valueFunction u)))

/-- Three targets with the distances 5, 2 and 2. -/
def threeTargets : List LevelEntity :=
  [⟨0, Kind.player⟩, ⟨1, Kind.player⟩, ⟨2, Kind.player⟩]

/-- The distance of each of the three targets. -/
def threeDistances (target : LevelEntity) : Int :=
  if target.id = 0 then 5 else 2

/-- Rounding to the nearest integer, a tie going to the even one. -/
def roundHalfEven (y : ℚ) : ℤ :=
  if y - ⌊y⌋ < 1 / 2 then ⌊y⌋
  else if 1 / 2 < y - ⌊y⌋ then ⌊y⌋ + 1
  else if ⌊y⌋ % 2 = 0 then ⌊y⌋ else ⌊y⌋ + 1

/-- The distance between the doubles around `x`: `2 ^ (e - 52)` for
`2 ^ e ≤ |x| < 2 ^ (e + 1)`, and `2 ^ (-1074)` below `2 ^ (-1022)`. -/
def ulp (x : ℚ) : ℚ :=
  (2 : ℚ) ^ (max (Int.log 2 |x|) (-1022) - 52)

/-- The Number that a JavaScript arithmetic operation returns when its exact result
is `x`: the double nearest to `x`, a tie going to the even significand (IEEE-754
binary64, round to nearest even). `|x|` is taken to be below `2 ^ 1024`, where no
operation overflows to `Infinity`. -/
def roundDouble (x : ℚ) : ℚ :=
  roundHalfEven (x / ulp x) * ulp x

/-- A value of a JavaScript Number: `m * 2 ^ e` with `|m| < 2 ^ 53` and
`-1074 ≤ e ≤ 971`. -/
def IsDouble (x : ℚ) : Prop :=
  ∃ m e : ℤ, |m| < 2 ^ 53 ∧ -1074 ≤ e ∧ e ≤ 971 ∧ x = m * (2 : ℚ) ^ e

/-- The function `selectRandomMinimumElement` with the product `Math.random() * i`
rounded to a double before `Math.floor`, as the source computes it. -/
def selectRandomMinimumElementDouble {α : Type} (arr : List α) (valueFunction : α → Int)
    (random : ℚ) : Option α :=
  if arr.length = 0 then none
  else
    let sortedArr := arr.insertionSort
      (fun target1 target2 => valueFunction target1 ≤ valueFunction target2)
    match sortedArr with
    | [] => none
    | first :: rest =>
      let minimumValue := valueFunction first
      let i := 1 + (rest.takeWhile (fun t => decide (valueFunction t = minimumValue))).length
      sortedArr[(⌊roundDouble (random * i)⌋).toNat]?

/-- Six targets, used with one distance for all. -/
def sixTargets : List LevelEntity :=
  [⟨0, Kind.player⟩, ⟨1, Kind.player⟩, ⟨2, Kind.player⟩, ⟨3, Kind.player⟩,
    ⟨4, Kind.player⟩, ⟨5, Kind.player⟩]

/-- The double written `0.8333333333333333`, the largest below 5/6. -/
def belowFiveSixths : ℚ := 7505999378950826 / 2 ^ 53

/-- The double `⌈j * 2 ^ 53 / k⌉ / 2 ^ 53`, the least multiple of `2 ^ (-53)` that is at
least `j / k`. -/
def drawFor (j k : Nat) : ℚ := (⌈(j : ℚ) * (2 : ℚ) ^ (53 : ℕ) / (k : ℚ)⌉ : ℤ) / (2 : ℚ) ^ (53 : ℕ)

/-- The values `'x'` and `'y'` of `lastDirection`. -/
inductive Axis where
  | x
  | y
deriving DecidableEq, Repr

/-- The constant `BASIC_ENEMY_MOVE_PERIOD`. -/
def BASIC_ENEMY_MOVE_PERIOD : Int := 2

/-- The fields of a `BasicEnemy` object; `none` is `null`. -/
structure BasicEnemy where
  targetFunction : LevelEntity → Bool
  movePeriod : Int
  lastMoved : Int
  lastTicked : Int
  lastDirection : Option Axis
  lastPosition : Option Position

/-- The constructor of `BasicEnemy`. -/
def BasicEnemy.new (movePeriod : Int) (targetFunction : LevelEntity → Bool) : BasicEnemy :=
  { targetFunction := targetFunction
    movePeriod := movePeriod
    lastMoved := 0
    lastTicked := 0
    lastDirection := none
    lastPosition := none }

/-- The comparison `a !== b` of two position objects or `null`: two objects differ
when their references differ. -/
def strictNe (a b : Option Position) : Bool :=
  match a, b with
  | none, none => false
  | some p, some p2 => decide (p.ref ≠ p2.ref)
  | _, _ => true

/-- The statements of `BasicEnemy.tick` that make diagonal intent a step along one
axis: the pair `(deltaX, deltaY)` after them. `random` is the value of
`Math.random()`. -/
def collapseDiagonal (lastDirection : Option Axis) (random : ℚ) (deltaX deltaY : Int) :
    Int × Int :=
  if deltaX ≠ 0 ∧ deltaY ≠ 0 then
    match lastDirection with
    | none => if ⌊random * 2⌋ = 0 then (0, deltaY) else (deltaX, 0)
    | some Axis.y => (deltaX, 0)
    | some Axis.x => (0, deltaY)
  else (deltaX, deltaY)

/-- The value of `lastDirection` after the step `(deltaX, deltaY)` was chosen. -/
def nextDirection (lastDirection : Option Axis) (deltaX deltaY : Int) : Option Axis :=
  if deltaX ≠ 0 then some Axis.x
  else if deltaY ≠ 0 then some Axis.y
  else lastDirection

/-- The last two statements of `BasicEnemy.tick`. -/
def BasicEnemy.finish (this : BasicEnemy) (pos : Option Position) (tickCount : Int) :
    BasicEnemy :=
  { this with lastPosition := pos, lastTicked := tickCount }

/-- The first statement of `BasicEnemy.tick`: when the position object is not the
one seen last, `lastMoved` becomes `lastTicked`. -/
def BasicEnemy.observe (this : BasicEnemy) (pos : Option Position) : BasicEnemy :=
  if strictNe pos this.lastPosition then { this with lastMoved := this.lastTicked } else this

/-- The array `targets` of `BasicEnemy.tick`. -/
def BasicEnemy.targets (self : LevelEntity) (this : BasicEnemy) (g : LevelGrid) :
    List LevelEntity :=
  g.entities.filter (fun obj => decide (obj ≠ self) && this.targetFunction obj)

/-- The function `distanceFunction` of `BasicEnemy.tick`, for a target with a
position (for a target without one the call raises a `TypeError`, see
`BasicEnemy.tick`). -/
def distanceFunction (g : LevelGrid) (pos : Position) (target : LevelEntity) : Int :=
  match g.getPosition target with
  | some tPos => taxiCabDistance tPos.x tPos.y pos.x pos.y
  | none => 0

/-- The method `BasicEnemy.tick` of the object `self` with fields `this`;
`random1` and `random2` are the values that the first and the second call of
`Math.random()` return. The result is the fields after the call and the outcome
for the grid. `distanceFunction` raises a `TypeError` for a target without a
position, and so does the getter `rows` on a grid without a column. -/
def BasicEnemy.tick (self : LevelEntity) (this : BasicEnemy) (tickCount : Int)
    (g : LevelGrid) (random1 random2 : ℚ) : BasicEnemy × Result Unit :=
  let pos := g.getPosition self
  let this1 := this.observe pos
  match pos with
  | none => (this1.finish pos tickCount, Result.ok () g)
  | some p =>
    if tickCount - this1.lastMoved ≥ this1.movePeriod then
      let targets := BasicEnemy.targets self this1 g
      if targets.length > 0 then
        if targets.all (fun target => (g.getPosition target).isSome) then
          match selectRandomMinimumElement targets (distanceFunction g p) random1 with
          | none => (this1, Result.error Err.typeError g)
          | some closestTarget =>
            match g.getPosition closestTarget with
            | none => (this1, Result.error Err.typeError g)
            | some targetPos =>
              let delta := collapseDiagonal this1.lastDirection random2
                (Int.sign (targetPos.x - p.x)) (Int.sign (targetPos.y - p.y))
              let this2 : BasicEnemy :=
                { this1 with lastDirection := nextDirection this1.lastDirection delta.1 delta.2 }
              let newX := p.x + delta.1
              let newY := p.y + delta.2
              if newX ≥ 0 ∧ newY ≥ 0 ∧ newX < g.columns then
                match g.rows with
                | none => (this2, Result.error Err.typeError g)
                | some rows =>
                  if newY < rows then
                    match g.requestMove self newX newY with
                    | Result.error err g1 => (this2, Result.error err g1)
                    | Result.ok _ g1 => (this2.finish pos tickCount, Result.ok () g1)
                  else (this2.finish pos tickCount, Result.ok () g)
              else (this2.finish pos tickCount, Result.ok () g)
        else (this1, Result.error Err.typeError g)
      else (this1.finish pos tickCount, Result.ok () g)
    else (this1.finish pos tickCount, Result.ok () g)

/-- The direction that `Player.tick` chooses. -/
inductive Heading where
  | right
  | left
  | down
  | up
deriving DecidableEq, Repr

/-- The chain of tests of `Player.tick`; `keyPresses k` is the truth value of
`keyPresses.get(k)`. In JavaScript `&&` binds tighter than `||`. -/
def Player.heading (keyPresses : String → Bool) : Option Heading :=
  if keyPresses "d" || (keyPresses "ArrowRight" &&
      !(keyPresses "a" || keyPresses "ArrowLeft")) then some Heading.right
  else if keyPresses "a" || (keyPresses "ArrowLeft" &&
      !(keyPresses "d" || keyPresses "ArrowRight")) then some Heading.left
  else if keyPresses "s" || (keyPresses "ArrowDown" &&
      !(keyPresses "w" || keyPresses "ArrowUp")) then some Heading.down
  else if keyPresses "w" || (keyPresses "ArrowUp" &&
      !(keyPresses "s" || keyPresses "ArrowDown")) then some Heading.up
  else none

/-- The method `Player.tick`. Reading `pos.x` raises a `TypeError` when `pos` is
`null`, and so does the getter `rows` on a grid without a column. -/
def Player.tick (self : LevelEntity) (keyPresses : String → Bool) (g : LevelGrid) :
    Result Unit :=
  match Player.heading keyPresses with
  | none => Result.ok () g
  | some heading =>
    match g.getPosition self with
    | none => Result.error Err.typeError g
    | some pos =>
      match heading with
      | Heading.right =>
        if pos.x < (g.columns : Int) - 1 then g.requestMove self (pos.x + 1) pos.y
        else Result.ok () g
      | Heading.left =>
        if pos.x > 0 then g.requestMove self (pos.x - 1) pos.y else Result.ok () g
      | Heading.down =>
        match g.rows with
        | none => Result.error Err.typeError g
        | some rows =>
          if pos.y < (rows : Int) - 1 then g.requestMove self pos.x (pos.y + 1)
          else Result.ok () g
      | Heading.up =>
        if pos.y > 0 then g.requestMove self pos.x (pos.y - 1) else Result.ok () g

/-- A level while it runs: its grid and the fields of its `BasicEnemy` objects. -/
structure Level where
  levelGrid : LevelGrid
  fields : LevelEntity → BasicEnemy

/-- The call `levelEntity.tick(tickCount, keyPresses, this)`, dispatched on the
class of the entity; `draws` are the values of `Math.random()` during the call.
The result is the level after the call and the exception raised, if any. -/
def LevelEntity.tick (self : LevelEntity) (tickCount : Int) (keyPresses : String → Bool)
    (draws : ℚ × ℚ) (lv : Level) : Level × Option Err :=
  match self.kind with
  | Kind.wall => (lv, none)
  | Kind.player =>
    match Player.tick self keyPresses lv.levelGrid with
    | Result.ok _ g1 => ({ lv with levelGrid := g1 }, none)
    | Result.error err g1 => ({ lv with levelGrid := g1 }, some err)
  | Kind.basicEnemy =>
    match BasicEnemy.tick self (lv.fields self) tickCount lv.levelGrid draws.1 draws.2 with
    | (this1, Result.ok _ g1) =>
      ({ levelGrid := g1, fields := Function.update lv.fields self this1 }, none)
    | (this1, Result.error err g1) =>
      ({ levelGrid := g1, fields := Function.update lv.fields self this1 }, some err)

/-- The loop of `LevelGrid.tick` over the keys of `levelEntityPositionMap`. -/
def tickLoop (tickCount : Int) (keyPresses : String → Bool) (draws : LevelEntity → ℚ × ℚ) :
    List LevelEntity → Level → Level × Option Err
  | [], lv => (lv, none)
  | levelEntity :: rest, lv =>
    match levelEntity.tick tickCount keyPresses (draws levelEntity) lv with
    | (lv1, some err) => (lv1, some err)
    | (lv1, none) => tickLoop tickCount keyPresses draws rest lv1

/-- The method `LevelGrid.tick` (called by `Level.tick`): every entity decides, then
the requests are processed. `fuel` bounds the recursion of the resolver. -/
def Level.tick (lv : Level) (tickCount : Int) (keyPresses : String → Bool)
    (draws : LevelEntity → ℚ × ℚ) (fuel : Nat) : Level × Option Err :=
  match tickLoop tickCount keyPresses draws lv.levelGrid.entities lv with
  | (lv1, some err) => (lv1, some err)
  | (lv1, none) =>
    match processAllRequests fuel lv1.levelGrid with
    | Result.ok _ g2 => ({ lv1 with levelGrid := g2 }, none)
    | Result.error err g2 => ({ lv1 with levelGrid := g2 }, some err)

/-- The ticks of `IdkGame.tick`, numbered from 0: the level before tick `n` and the
exception that stopped the game before, if any. `keys`, `draws` and `fuel` give
the key state, the random values and the recursion budget of each tick. -/
def Level.run (lv : Level) (keys : Nat → String → Bool) (draws : Nat → LevelEntity → ℚ × ℚ)
    (fuel : Nat → Nat) : Nat → Level × Option Err
  | 0 => (lv, none)
  | n + 1 =>
    match Level.run lv keys draws fuel n with
    | (lv1, some err) => (lv1, some err)
    | (lv1, none) => lv1.tick n (keys n) (draws n) (fuel n)

/-- A tick of a `BasicEnemy`: the tick number, the grid of that moment and the two
values of `Math.random()`. -/
abbrev EnemyTick : Type := Int × LevelGrid × ℚ × ℚ

/-- The test of `BasicEnemy.tick` for reaching a decision: the enemy is on the grid,
its cooldown has elapsed and it has at least one target. -/
def BasicEnemy.decides (self : LevelEntity) (this : BasicEnemy) (tickCount : Int)
    (g : LevelGrid) : Bool :=
  match g.getPosition self with
  | none => false
  | some p =>
    decide (tickCount - (this.observe (some p)).lastMoved ≥ this.movePeriod) &&
      decide ((BasicEnemy.targets self (this.observe (some p)) g).length > 0)

/-- The fields of a `BasicEnemy` after a sequence of calls of `tick`. -/
def BasicEnemy.after (self : LevelEntity) : BasicEnemy → List EnemyTick → BasicEnemy
  | this, [] => this
  | this, (tickCount, g, random1, random2) :: rest =>
    BasicEnemy.after self (BasicEnemy.tick self this tickCount g random1 random2).1 rest

/-- None of a sequence of calls of `tick` reaches a decision. -/
def BasicEnemy.idle (self : LevelEntity) : BasicEnemy → List EnemyTick → Bool
  | _, [] => true
  | this, (tickCount, g, random1, random2) :: rest =>
    !BasicEnemy.decides self this tickCount g &&
      BasicEnemy.idle self (BasicEnemy.tick self this tickCount g random1 random2).1 rest

/-- The axis along which the cell `(x, y)` differs from the cell of `p`, if it
differs along exactly one. -/
def stepAxis (p : Position) (x y : Int) : Option Axis :=
  if x ≠ p.x ∧ y = p.y then some Axis.x
  else if x = p.x ∧ y ≠ p.y then some Axis.y
  else none

/-! ## Consistency of a grid -/

/-- The test `0 <= x < columns` and `0 <= y < rows`. -/
def LevelGrid.inBounds (g : LevelGrid) (x y : Int) : Bool :=
  match g.rows with
  | none => false
  | some rows => decide (0 ≤ x ∧ x < g.columns ∧ 0 ≤ y ∧ y < rows)

/-- A consistent grid: the array is rectangular, every cell is a set, every
recorded position is inside the grid, an entity is a member of a cell exactly
when its recorded position is that cell, every position object was allocated
before `alloc`, and the keys of `levelEntityPositionMap` are pairwise distinct. -/
structure LevelGrid.Consistent (g : LevelGrid) : Prop where
  rect : ∀ column ∈ g.grid, some column.length = g.rows
  nodup : ∀ x y cell, getCell g.grid x y = some cell → cell.Nodup
  posInBounds : ∀ e p, g.getPosition e = some p → g.inBounds p.x p.y = true
  mem_iff : ∀ e x y cell, getCell g.grid x y = some cell →
    (e ∈ cell ↔ ∃ p, g.getPosition e = some p ∧ p.x = x ∧ p.y = y)
  ref_lt : ∀ e p, g.getPosition e = some p → p.ref < g.alloc
  keysNodup : (g.levelEntityPositionMap.map Prod.fst).Nodup

/-- Every pending request asks for a cell inside the grid (`requestMove` stores no
other). -/
def LevelGrid.RequestsInBounds (g : LevelGrid) : Prop :=
  ∀ e q, mapGet g.requests e = some q → g.inBounds q.x q.y = true

/-- How a later grid `g2` relates to an earlier grid `g` when only granted requests
of `g` have been carried out in between: same dimensions, no new request, and
every entity either has the position object it had, or had a request in `g` that
is no longer pending and has a position object allocated since, at the requested
cell. -/
def Frame (g g2 : LevelGrid) : Prop :=
  g2.columns = g.columns ∧ g2.rows = g.rows ∧ g.alloc ≤ g2.alloc ∧
  (∀ f q, mapGet g2.requests f = some q → mapGet g.requests f = some q) ∧
  (∀ f, g2.getPosition f = g.getPosition f ∨
    ∃ q p, mapGet g.requests f = some q ∧ mapGet g2.requests f = none ∧
      g2.getPosition f = some p ∧ p.x = q.x ∧ p.y = q.y ∧ g.alloc ≤ p.ref)

/-- The request of `E`, if it is still pending, is for the cell `d`, and `d` holds
the entity `W`, which is not a Player and has no pending request. -/
def Blocked (g : LevelGrid) (E W : LevelEntity) (d : Request) : Prop :=
  isPlayer W = false ∧ mapGet g.requests W = none ∧
  (∃ p, g.getPosition W = some p ∧ p.x = d.x ∧ p.y = d.y) ∧
  (∀ q, mapGet g.requests E = some q → q = d)

/-- The coordinates recorded for an entity. -/
def LevelGrid.coords (g : LevelGrid) (levelEntity : LevelEntity) : Option Request :=
  (g.getPosition levelEntity).map (fun p => ⟨p.x, p.y⟩)

/-- The members of the cell `(x, y)`; empty outside the grid. -/
def LevelGrid.cell (g : LevelGrid) (x y : Int) : List LevelEntity :=
  (getCell g.grid x y).getD []

/-- How a later grid `s` relates to an earlier grid `g` during a resolution: every
entity either is untouched (same position object, same request) or has been
moved (it had a request in `g`, has none in `s`, and is recorded at the requested
cell). -/
def Progress (g s : LevelGrid) : Prop :=
  s.columns = g.columns ∧ s.rows = g.rows ∧ s.requests.length ≤ g.requests.length ∧
  ∀ f, (s.getPosition f = g.getPosition f ∧ mapGet s.requests f = mapGet g.requests f) ∨
    (∃ q p, mapGet g.requests f = some q ∧ mapGet s.requests f = none ∧
      s.getPosition f = some p ∧ p.x = q.x ∧ p.y = q.y)

/-- A grid whose pending requests never conflict: the grid is consistent, the
requests are in bounds, no two entities request the same cell, and a requested
cell holds at most one entity that is not a Player, which has a request itself. -/
def Resolvable (s : LevelGrid) : Prop :=
  s.Consistent ∧ s.RequestsInBounds ∧
  (∀ e1 e2 q, mapGet s.requests e1 = some q → mapGet s.requests e2 = some q → e1 = e2) ∧
  (∀ e q f p, mapGet s.requests e = some q → s.getPosition f = some p →
    p.x = q.x → p.y = q.y → isPlayer f = false →
    mapHas s.requests f = true ∧
    ∀ f2 p2, s.getPosition f2 = some p2 → p2.x = q.x → p2.y = q.y →
      isPlayer f2 = false → f2 = f)

/-- The number of pending requests of entities outside `visited`. -/
def pendingCount (s : LevelGrid) (visited : List LevelEntity) : Nat :=
  (s.requests.filter (fun p => decide (p.1 ∉ visited))).length

/-- The batch of a cycle `(E_0, c_0), ..., (E_(n-1), c_(n-1))` of entities with their
cells: `E_i` requests `c_((i+1) mod n)`. -/
def cycleBatch (cyc : List (LevelEntity × Request)) : List (LevelEntity × Request) :=
  (cyc.map Prod.fst).zip ((cyc.map Prod.snd).rotate 1)

/-- The batch of a chain `(E_1, c_1), ..., (E_n, c_n)` of entities with their cells
and a last cell `d`: `E_i` requests `c_(i+1)` and `E_n` requests `d`. -/
def chainBatch (chain : List (LevelEntity × Request)) (d : Request) :
    List (LevelEntity × Request) :=
  (chain.map Prod.fst).zip ((chain.map Prod.snd).tail ++ [d])

/-- Every entity that is not a Player and stands on a requested cell has a higher
rank than the entity that requests the cell. -/
def Ranked (rank : LevelEntity → Nat) (s : LevelGrid) : Prop :=
  ∀ e q f p, mapGet s.requests e = some q → s.getPosition f = some p → p.x = q.x → p.y = q.y →
    isPlayer f = false → rank e < rank f

/-- The order of the commits between an earlier grid `g` and a later grid `s`: when
the request of `e` in `g`, for a cell that held the entity `f`, not a Player, is no
longer pending, the request of `f` is not pending either, and the position object
of `f` was allocated since `g` and before the position object of `e`. -/
def CommitOrder (g s : LevelGrid) : Prop :=
  ∀ e q f pf, mapGet g.requests e = some q → g.getPosition f = some pf → pf.x = q.x →
    pf.y = q.y → isPlayer f = false → mapGet s.requests e = none →
    mapGet s.requests f = none ∧
    ∃ pe pf2, s.getPosition e = some pe ∧ s.getPosition f = some pf2 ∧
      g.alloc ≤ pf2.ref ∧ pf2.ref < pe.ref

/-- The state of a resolution that started in `g`: resolvable, ranked, and with the
commits made so far in downstream-first order. -/
def Ordered (rank : LevelEntity → Nat) (g s : LevelGrid) : Prop :=
  Resolvable s ∧ Ranked rank s ∧ Frame g s ∧ CommitOrder g s

/-- The grids agree except for the pending requests. -/
def GridSame (g g2 : LevelGrid) : Prop :=
  g2.grid = g.grid ∧ g2.levelEntityPositionMap = g.levelEntityPositionMap ∧ g2.alloc = g.alloc

/-- What a decision may do to the grid: nothing, or add one in-bounds request of
the deciding entity. -/
def Decides (self : LevelEntity) (g g2 : LevelGrid) : Prop :=
  g2 = g ∨ ∃ x y, g.inBounds x y = true ∧ g2 = g.addRequest self x y

/-- What the `tick` of the enemy `e` at tick `tickCount` has done when the level
went from `lv` to `lv1` during the decisions of that tick: the bookkeeping fields
are set, and while the cooldown has not elapsed the request of `e` is untouched. -/
def EnemyDecided (e : LevelEntity) (tickCount : Int) (lv lv1 : Level) : Prop :=
  (lv1.fields e).movePeriod = (lv.fields e).movePeriod ∧
  (lv1.fields e).lastTicked = tickCount ∧
  (lv1.fields e).lastPosition = lv.levelGrid.getPosition e ∧
  (lv1.fields e).lastMoved = ((lv.fields e).observe (lv.levelGrid.getPosition e)).lastMoved ∧
  (∀ p, lv.levelGrid.getPosition e = some p →
    tickCount - ((lv.fields e).observe (some p)).lastMoved < (lv.fields e).movePeriod →
    mapGet lv1.levelGrid.requests e = mapGet lv.levelGrid.requests e)

/-- An eligible decision with diagonal intent: on a consistent grid the enemy is
recorded at `p`, its cooldown has elapsed, it has a target, the draw `random1` is
in `[0, 1)`, and the target chosen differs from `p` on both axes. -/
def DiagonalIntent (self : LevelEntity) (this : BasicEnemy) (tickCount : Int) (g : LevelGrid)
    (random1 : ℚ) (p : Position) : Prop :=
  g.Consistent ∧ g.getPosition self = some p ∧
  tickCount - (this.observe (some p)).lastMoved ≥ this.movePeriod ∧
  BasicEnemy.targets self this g ≠ [] ∧ 0 ≤ random1 ∧ random1 < 1 ∧
  ∀ t tp, selectRandomMinimumElement (BasicEnemy.targets self this g) (distanceFunction g p)
      random1 = some t → g.getPosition t = some tp → tp.x ≠ p.x ∧ tp.y ≠ p.y

/-! ## Sequences of grid operations -/

/-- One call on a grid: `addLevelEntity` (place), `removeLevelObject` (remove) or
`move` (moveCommitted). -/
inductive GridOp where
  | place (e : LevelEntity) (x y : Int)
  | remove (e : LevelEntity)
  | moveCommitted (e : LevelEntity) (x y : Int)
deriving DecidableEq, Repr

/-- Performs one call. -/
def applyOp (g : LevelGrid) : GridOp → Result Unit
  | GridOp.place e x y => g.addLevelEntity e x y
  | GridOp.remove e => g.removeLevelObject e
  | GridOp.moveCommitted e x y => g.move e x y

/-- Performs a sequence of calls, stopping at the first exception. -/
def applyOps : List GridOp → LevelGrid → Result Unit
  | [], g => Result.ok () g
  | op :: ops, g =>
    match applyOp g op with
    | Result.error err g1 => Result.error err g1
    | Result.ok _ g1 => applyOps ops g1

/-- The coordinates of a call, if it has any, are inside the grid. -/
def opInBounds (g : LevelGrid) : GridOp → Bool
  | GridOp.place _ x y => g.inBounds x y
  | GridOp.remove _ => true
  | GridOp.moveCommitted _ x y => g.inBounds x y

/-- All coordinates of a sequence of calls are inside the grid. -/
def opsInBounds (g : LevelGrid) (ops : List GridOp) : Bool :=
  ops.all (opInBounds g)

/-- A call is a placement of an entity that is on the grid already. -/
def placesPresent (g : LevelGrid) : GridOp → Bool
  | GridOp.place e _ _ => (g.getPosition e).isSome
  | GridOp.remove _ => false
  | GridOp.moveCommitted _ _ _ => false

/-- In a sequence of calls, run from `g`, every coordinate is inside the grid and
`addLevelEntity` is only called for an entity that is not on the grid at that
moment. -/
def placesFresh : List GridOp → LevelGrid → Bool
  | [], _ => true
  | op :: ops, g =>
    opInBounds g op && !placesPresent g op &&
      match applyOp g op with
      | Result.error _ _ => false
      | Result.ok _ g1 => placesFresh ops g1

/-- The key state in which exactly the keys of `held` are down. -/
def heldKeys (held : List String) : String → Bool :=
  fun key => decide (key ∈ held)

/-- The precedence as claimed: with `R`, `L`, `D`, `U` the right-, left-, down- and
up-intent (a letter key or an arrow key of that direction is held), right if `R`
and not `L`, otherwise left if `L`, otherwise down if `D` and not `U`, otherwise up
if `U`, otherwise nothing. -/
def Player.claimedHeading (keyPresses : String → Bool) : Option Heading :=
  let R := keyPresses "d" || keyPresses "ArrowRight"
  let L := keyPresses "a" || keyPresses "ArrowLeft"
  let D := keyPresses "s" || keyPresses "ArrowDown"
  let U := keyPresses "w" || keyPresses "ArrowUp"
  if R && !L then some Heading.right
  else if L then some Heading.left
  else if D && !U then some Heading.down
  else if U then some Heading.up
  else none

/-- The cell that `Player.tick` asks for in the branch of a direction: the
arguments of its call of `requestMove`. -/
def Heading.cell (heading : Heading) (pos : Position) : Int × Int :=
  match heading with
  | Heading.right => (pos.x + 1, pos.y)
  | Heading.left => (pos.x - 1, pos.y)
  | Heading.down => (pos.x, pos.y + 1)
  | Heading.up => (pos.x, pos.y - 1)

/-- The grid after `Player.tick` has chosen the cell `(x, y)`: the request is issued
when the cell is inside the grid, and nothing is done otherwise. -/
def LevelGrid.attempt (g : LevelGrid) (self : LevelEntity) (x y : Int) : LevelGrid :=
  if g.inBounds x y then g.addRequest self x y else g

/-- The outcome of a decision of the Player: a move in the positive direction of
an axis (right, down), in the negative direction (left, up), or no move. -/
inductive Outcome where
  | positive
  | negative
  | noMove
deriving DecidableEq, Repr

/-- The outcome of the direction chosen. -/
def Heading.outcome : Option Heading → Outcome
  | some Heading.right => Outcome.positive
  | some Heading.down => Outcome.positive
  | some Heading.left => Outcome.negative
  | some Heading.up => Outcome.negative
  | none => Outcome.noMove

/-- The key that mirrors a key on the other axis: `'d'` and `'s'`, `'a'` and `'w'`,
`ArrowRight` and `ArrowDown`, `ArrowLeft` and `ArrowUp`. -/
def mirrorKey (key : String) : String :=
  if key = "d" then "s" else if key = "s" then "d"
  else if key = "a" then "w" else if key = "w" then "a"
  else if key = "ArrowRight" then "ArrowDown" else if key = "ArrowDown" then "ArrowRight"
  else if key = "ArrowLeft" then "ArrowUp" else if key = "ArrowUp" then "ArrowLeft"
  else key

/-- The mirrored key state: a key is held when its mirror key was. -/
def mirrorKeys (keyPresses : String → Bool) : String → Bool :=
  fun key => keyPresses (mirrorKey key)

/-- Only horizontal keys are held: none of `'s'`, `'w'`, `ArrowDown`, `ArrowUp`. -/
def onlyHorizontal (keyPresses : String → Bool) : Prop :=
  keyPresses "s" = false ∧ keyPresses "w" = false ∧ keyPresses "ArrowDown" = false ∧
    keyPresses "ArrowUp" = false

/-- The grid as a call leaves it, whether it returns or raises. -/
def Result.state {α : Type} : Result α → LevelGrid
  | Result.ok _ g => g
  | Result.error _ g => g

/-- What a call may do to a grid on behalf of `self`: nothing, or store one request
of `self`. The cells, the position index and the requests of other entities are
left as they are. -/
def OnlyRequests (self : LevelEntity) (g g2 : LevelGrid) : Prop :=
  g2 = g ∨ ∃ x y, g2 = g.addRequest self x y

/-- The record `optional` of a blueprint: `{targets?, movePeriod?}`; `none` is a
property the record does not have. -/
structure Optional where
  targets : Option String
  movePeriod : Option Int

/-- A blueprint of the level file: `{type, x, y, optional?}`. -/
structure Blueprint where
  type : String
  x : Int
  y : Int
  optional : Option Optional

/-- The record `stageData` of the level file. -/
structure StageData where
  columns : Nat
  rows : Nat
  levelType : String

/-- The level file: `{stageData, levelEntities}`. -/
structure LevelData where
  stageData : StageData
  levelEntities : List Blueprint

/-- The exception that `buildLevelObject` throws, with the type that is not
valid. -/
structure LevelBuildError where
  type : String
deriving DecidableEq, Repr

/-- The map `stringEntityMap`, from a name to a class; `none` is `undefined`. -/
def stringEntityMap (name : String) : Option Kind :=
  if name = "player" then some Kind.player
  else if name = "basicenemy" then some Kind.basicEnemy
  else if name = "wall" then some Kind.wall
  else none

/-- The function `buildBasicEnemy`: the fields of the new `BasicEnemy`. A parameter
of the constructor that is `undefined` takes its default. The function
`ent => ent instanceof stringEntityMap.get(...)` is not called while the level is
built; where the name is not in the map, it holds of no entity here (in
JavaScript a call of it, during a tick, raises a `TypeError`). `toLowerCase` is
`String.toLower`, which agrees with it on the letters of the three names. -/
def buildBasicEnemy (blueprint : Blueprint) : BasicEnemy :=
  let targetFunction : Option (LevelEntity → Bool) :=
    match blueprint.optional with
    | none => none
    | some optional =>
      match optional.targets with
      | none => none
      | some targets => some (fun ent =>
          match stringEntityMap targets.toLower with
          | some kind => decide (ent.kind = kind)
          | none => false)
  let movePeriod : Option Int :=
    match blueprint.optional with
    | none => none
    | some optional => optional.movePeriod
  BasicEnemy.new (movePeriod.getD BASIC_ENEMY_MOVE_PERIOD) (targetFunction.getD isPlayer)

/-- The function `buildLevelObject`; `id` is the identity of the object that `new`
creates. For a `BasicEnemy` the fields of the object are returned with it. -/
def buildLevelObject (id : Nat) (blueprint : Blueprint) :
    Except LevelBuildError (LevelEntity × Option BasicEnemy) :=
  if blueprint.type.toLower = "player" then Except.ok (⟨id, Kind.player⟩, none)
  else if blueprint.type.toLower = "basicenemy" then
    Except.ok (⟨id, Kind.basicEnemy⟩, some (buildBasicEnemy blueprint))
  else if blueprint.type.toLower = "wall" then Except.ok (⟨id, Kind.wall⟩, none)
  else Except.error ⟨blueprint.type⟩

/-- The fields of the `BasicEnemy` objects of a level once `levelObject` has been
created with `fields` (`none` for an object of another class). -/
def installFields (fields : Option BasicEnemy) (levelObject : LevelEntity)
    (old : LevelEntity → BasicEnemy) : LevelEntity → BasicEnemy :=
  match fields with
  | none => old
  | some this => Function.update old levelObject this

/-- The loop of `buildLevel` over the blueprints; `nextId` counts the objects
created so far. An exception of `buildLevelObject` or of `addLevelEntity` is
caught (and logged), and the loop goes on with the next blueprint. -/
def buildLoop : List Blueprint → Level → Nat → Level
  | [], level, _ => level
  | blueprint :: rest, level, nextId =>
    match buildLevelObject nextId blueprint with
    | Except.error _ => buildLoop rest level nextId
    | Except.ok (levelObject, fields) =>
      match level.levelGrid.addLevelEntity levelObject blueprint.x blueprint.y with
      | Result.error _ g1 => buildLoop rest { level with levelGrid := g1 } (nextId + 1)
      | Result.ok _ g1 =>
        buildLoop rest
          { levelGrid := g1, fields := installFields fields levelObject level.fields }
          (nextId + 1)

/-- The method `LevelBuilder.buildLevel`. Every exception raised in its loop is
caught there, so the method returns. -/
def buildLevel (levelData : LevelData) : Level :=
  buildLoop levelData.levelEntities
    { levelGrid := LevelGrid.new levelData.stageData.columns levelData.stageData.rows
      fields := fun _ => BasicEnemy.new BASIC_ENEMY_MOVE_PERIOD isPlayer }
    0

/-- The class that the type of a blueprint names, without regard to case. -/
def Blueprint.kind (blueprint : Blueprint) : Option Kind :=
  stringEntityMap blueprint.type.toLower

/-- A blueprint that yields an entity of a grid: its type names a class and its
cell is inside the grid. -/
def Blueprint.valid (g : LevelGrid) (blueprint : Blueprint) : Bool :=
  blueprint.kind.isSome && g.inBounds blueprint.x blueprint.y

/-- The class and the cell of every entity of a grid, in the order of its position
index. -/
def LevelGrid.census (g : LevelGrid) : List (Option Kind × Int × Int) :=
  g.levelEntityPositionMap.map (fun ep => (some ep.1.kind, ep.2.x, ep.2.y))

/-- Every cell holds at most one entity that is not a Player. -/
def SingleOccupancy (g : LevelGrid) : Prop :=
  ∀ x y cell, getCell g.grid x y = some cell → (nonPlayers cell).length ≤ 1

/-- Two entities that are not Players and are recorded at one cell are the same
entity, unless one of them is `c`: at most the cell of `c` holds two entities that
are not Players. -/
def SingleExcept (g : LevelGrid) (c : LevelEntity) : Prop :=
  ∀ e1 e2 p1 p2, g.getPosition e1 = some p1 → g.getPosition e2 = some p2 →
    p1.x = p2.x → p1.y = p2.y → isPlayer e1 = false → isPlayer e2 = false →
    e1 = e2 ∨ e1 = c ∨ e2 = c

/-- Two entities that are not Players and are recorded at one cell are the same
entity. -/
def SinglePos (g : LevelGrid) : Prop :=
  ∀ e1 e2 p1 p2, g.getPosition e1 = some p1 → g.getPosition e2 = some p2 →
    p1.x = p2.x → p1.y = p2.y → isPlayer e1 = false → isPlayer e2 = false → e1 = e2

/-- The cell that `e` held in `g`, if `e` is not a Player, holds only Players in
`g2`. -/
def Vacated (g g2 : LevelGrid) (e : LevelEntity) : Prop :=
  isPlayer e = false → ∀ p, g.getPosition e = some p →
    ∀ f p2, g2.getPosition f = some p2 → p2.x = p.x → p2.y = p.y → isPlayer f = true

/-- Every request of the batch is a request of an entity of the grid. -/
def LevelGrid.RequestersPresent (g : LevelGrid) : Prop :=
  ∀ e q, mapGet g.requests e = some q → (g.getPosition e).isSome = true

/-- What a call of `processSingleRequest` for `e` with the visited set `visited`
leaves behind when it started from a grid with single occupancy: single occupancy
again, or the chain has closed on an entity `c` of the visited set, whose cell
holds one more entity, while `e` has left its cell to those behind it. -/
def Settled (g g2 : LevelGrid) (e : LevelEntity) (visited : List LevelEntity) : Prop :=
  SinglePos g2 ∨
    ∃ c, c ∈ visited ∧ isPlayer c = false ∧ SingleExcept g2 c ∧ Vacated g g2 e

/-! ## Concrete scenes -/

/-- A 4 x 4 grid: enemy `⟨0, basicEnemy⟩` at `(2, 2)` requests the empty cell
`(3, 2)`. -/
def simpleScene : LevelGrid :=
  { grid := [[[], [], [], []], [[], [], [], []], [[], [], [⟨0, Kind.basicEnemy⟩], []],
      [[], [], [], []]]
    levelEntityPositionMap := [(⟨0, Kind.basicEnemy⟩, ⟨0, 2, 2⟩)]
    requests := [(⟨0, Kind.basicEnemy⟩, ⟨3, 2⟩)]
    alloc := 1 }

/-- A 4 x 4 grid: Player `⟨0, player⟩` at `(3, 3)`, enemy `⟨1, basicEnemy⟩` at
`(3, 2)` requests `(3, 3)`. -/
def pursuerScene : LevelGrid :=
  { grid := [[[], [], [], []], [[], [], [], []], [[], [], [], []],
      [[], [], [⟨1, Kind.basicEnemy⟩], [⟨0, Kind.player⟩]]]
    levelEntityPositionMap := [(⟨0, Kind.player⟩, ⟨0, 3, 3⟩), (⟨1, Kind.basicEnemy⟩, ⟨1, 3, 2⟩)]
    requests := [(⟨1, Kind.basicEnemy⟩, ⟨3, 3⟩)]
    alloc := 2 }

/-- A 4 x 4 grid: enemy `⟨0, basicEnemy⟩` at `(2, 2)` requests `(3, 2)`, which
holds the wall `⟨1, wall⟩`. -/
def blockedScene : LevelGrid :=
  { grid := [[[], [], [], []], [[], [], [], []], [[], [], [⟨0, Kind.basicEnemy⟩], []],
      [[], [], [⟨1, Kind.wall⟩], []]]
    levelEntityPositionMap := [(⟨0, Kind.basicEnemy⟩, ⟨0, 2, 2⟩), (⟨1, Kind.wall⟩, ⟨1, 3, 2⟩)]
    requests := [(⟨0, Kind.basicEnemy⟩, ⟨3, 2⟩)]
    alloc := 2 }

/-- A 3 x 2 grid with four enemies: `⟨0, _⟩` at `(0, 0)` requests `(1, 0)`; `⟨1, _⟩`
and `⟨2, _⟩` share the cell `(1, 0)` and request `(2, 0)` and `(1, 1)`; `⟨3, _⟩` at
`(2, 0)` requests `(1, 0)`. -/
def sharedCellScene : LevelGrid :=
  { grid := [[[⟨0, Kind.basicEnemy⟩], []],
      [[⟨1, Kind.basicEnemy⟩, ⟨2, Kind.basicEnemy⟩], []],
      [[⟨3, Kind.basicEnemy⟩], []]]
    levelEntityPositionMap := [(⟨0, Kind.basicEnemy⟩, ⟨0, 0, 0⟩),
      (⟨1, Kind.basicEnemy⟩, ⟨1, 1, 0⟩), (⟨2, Kind.basicEnemy⟩, ⟨2, 1, 0⟩),
      (⟨3, Kind.basicEnemy⟩, ⟨3, 2, 0⟩)]
    requests := [(⟨0, Kind.basicEnemy⟩, ⟨1, 0⟩), (⟨1, Kind.basicEnemy⟩, ⟨2, 0⟩),
      (⟨2, Kind.basicEnemy⟩, ⟨1, 1⟩), (⟨3, Kind.basicEnemy⟩, ⟨1, 0⟩)]
    alloc := 4 }

/-- A 2 x 1 grid: the enemies `⟨0, _⟩` and `⟨1, _⟩` share the cell `(0, 0)`; the
first requests its own cell `(0, 0)`, the second requests `(1, 0)`. -/
def ownCellScene : LevelGrid :=
  { grid := [[[⟨0, Kind.basicEnemy⟩, ⟨1, Kind.basicEnemy⟩]], [[]]]
    levelEntityPositionMap := [(⟨0, Kind.basicEnemy⟩, ⟨0, 0, 0⟩),
      (⟨1, Kind.basicEnemy⟩, ⟨1, 0, 0⟩)]
    requests := [(⟨0, Kind.basicEnemy⟩, ⟨0, 0⟩), (⟨1, Kind.basicEnemy⟩, ⟨1, 0⟩)]
    alloc := 2 }

/-- A 3 x 1 grid: the enemies `⟨0, _⟩`, `⟨1, _⟩`, `⟨2, _⟩` at `(0, 0)`, `(1, 0)`,
`(2, 0)` request `(1, 0)`, `(2, 0)`, `(0, 0)`. -/
def cycleScene : LevelGrid :=
  { grid := [[[⟨0, Kind.basicEnemy⟩]], [[⟨1, Kind.basicEnemy⟩]], [[⟨2, Kind.basicEnemy⟩]]]
    levelEntityPositionMap := [(⟨0, Kind.basicEnemy⟩, ⟨0, 0, 0⟩),
      (⟨1, Kind.basicEnemy⟩, ⟨1, 1, 0⟩), (⟨2, Kind.basicEnemy⟩, ⟨2, 2, 0⟩)]
    requests := [(⟨0, Kind.basicEnemy⟩, ⟨1, 0⟩), (⟨1, Kind.basicEnemy⟩, ⟨2, 0⟩),
      (⟨2, Kind.basicEnemy⟩, ⟨0, 0⟩)]
    alloc := 3 }

/-- A 3 x 1 grid: the enemies `⟨0, _⟩`, `⟨1, _⟩` at `(0, 0)`, `(1, 0)` request
`(1, 0)`, `(2, 0)`; the cell `(2, 0)` is empty. -/
def chainScene : LevelGrid :=
  { grid := [[[⟨0, Kind.basicEnemy⟩]], [[⟨1, Kind.basicEnemy⟩]], [[]]]
    levelEntityPositionMap := [(⟨0, Kind.basicEnemy⟩, ⟨0, 0, 0⟩),
      (⟨1, Kind.basicEnemy⟩, ⟨1, 1, 0⟩)]
    requests := [(⟨0, Kind.basicEnemy⟩, ⟨1, 0⟩), (⟨1, Kind.basicEnemy⟩, ⟨2, 0⟩)]
    alloc := 2 }

/-- A 3 x 1 grid: enemy `⟨0, _⟩` at `(0, 0)` requests `(1, 0)`, Player `⟨1, _⟩` at
`(1, 0)` requests `(2, 0)`, enemy `⟨2, _⟩` at `(2, 0)` requests `(1, 0)`, the cell
of the Player. -/
def playerChainScene : LevelGrid :=
  { grid := [[[⟨0, Kind.basicEnemy⟩]], [[⟨1, Kind.player⟩]], [[⟨2, Kind.basicEnemy⟩]]]
    levelEntityPositionMap := [(⟨0, Kind.basicEnemy⟩, ⟨0, 0, 0⟩),
      (⟨1, Kind.player⟩, ⟨1, 1, 0⟩), (⟨2, Kind.basicEnemy⟩, ⟨2, 2, 0⟩)]
    requests := [(⟨0, Kind.basicEnemy⟩, ⟨1, 0⟩), (⟨1, Kind.player⟩, ⟨2, 0⟩),
      (⟨2, Kind.basicEnemy⟩, ⟨1, 0⟩)]
    alloc := 3 }

/-- A 3 x 1 grid: enemy `⟨0, _⟩` at `(0, 0)` requests `(1, 0)`, Player `⟨1, _⟩` at
`(1, 0)` requests `(2, 0)`; the cell `(2, 0)` is empty. -/
def playerAheadScene : LevelGrid :=
  { grid := [[[⟨0, Kind.basicEnemy⟩]], [[⟨1, Kind.player⟩]], [[]]]
    levelEntityPositionMap := [(⟨0, Kind.basicEnemy⟩, ⟨0, 0, 0⟩),
      (⟨1, Kind.player⟩, ⟨1, 1, 0⟩)]
    requests := [(⟨0, Kind.basicEnemy⟩, ⟨1, 0⟩), (⟨1, Kind.player⟩, ⟨2, 0⟩)]
    alloc := 2 }

/-- A 4 x 4 grid without requests: Player `⟨0, player⟩` at `(3, 3)`, enemy
`⟨1, basicEnemy⟩` at `(1, 2)`. -/
def chaseScene : LevelGrid :=
  { grid := [[[], [], [], []], [[], [], [⟨1, Kind.basicEnemy⟩], []], [[], [], [], []],
      [[], [], [], [⟨0, Kind.player⟩]]]
    levelEntityPositionMap := [(⟨0, Kind.player⟩, ⟨0, 3, 3⟩), (⟨1, Kind.basicEnemy⟩, ⟨1, 1, 2⟩)]
    requests := []
    alloc := 2 }

/-- A level on `chaseScene` whose enemy has `movePeriod` 2 and has last moved on
tick 3: it is eligible again on tick 5. -/
def cooldownLevel : Level :=
  { levelGrid := chaseScene
    fields := fun _ =>
      { targetFunction := isPlayer
        movePeriod := 2
        lastMoved := 3
        lastTicked := 3
        lastDirection := none
        lastPosition := some ⟨1, 1, 2⟩ } }

/-- The grid `chaseScene` after the enemy has moved from `(1, 2)` to `(2, 2)`. -/
def chaseScene2 : LevelGrid :=
  { grid := [[[], [], [], []], [[], [], [], []], [[], [], [⟨1, Kind.basicEnemy⟩], []],
      [[], [], [], [⟨0, Kind.player⟩]]]
    levelEntityPositionMap := [(⟨0, Kind.player⟩, ⟨0, 3, 3⟩), (⟨1, Kind.basicEnemy⟩, ⟨2, 2, 2⟩)]
    requests := []
    alloc := 3 }

/-- The fields of an enemy with `movePeriod` 2 whose last step was along `y`. -/
def alternationFields : BasicEnemy :=
  { targetFunction := isPlayer
    movePeriod := 2
    lastMoved := 0
    lastTicked := 0
    lastDirection := some Axis.y
    lastPosition := none }

/-- A 3 x 3 grid with the Player `⟨0, player⟩` in the middle cell `(1, 1)`. -/
def playerScene : LevelGrid :=
  { grid := [[[], [], []], [[], [⟨0, Kind.player⟩], []], [[], [], []]]
    levelEntityPositionMap := [(⟨0, Kind.player⟩, ⟨0, 1, 1⟩)]
    requests := []
    alloc := 1 }

/-- The level `cooldownLevel` after its Player, with `'a'` held, has asked for the
cell `(2, 3)` to its left. -/
def decidedLevel : Level :=
  { cooldownLevel with levelGrid := chaseScene.addRequest ⟨0, Kind.player⟩ 2 3 }

/-- A level file with a 3 x 2 stage and four blueprints: a Player, an entity of an
unknown type, a wall outside the grid and an enemy. -/
def sampleLevelData : LevelData :=
  { stageData := { columns := 3, rows := 2, levelType := "sample" }
    levelEntities :=
      [{ type := "Player", x := 0, y := 0, optional := none },
       { type := "dragon", x := 1, y := 0, optional := none },
       { type := "wall", x := 3, y := 0, optional := none },
       { type := "BasicEnemy", x := 2, y := 1,
         optional := some { targets := some "player", movePeriod := some 3 } }] }

/-- A 2 x 2 grid without requests: the enemy `⟨0, basicEnemy⟩` has reached the
Player `⟨1, player⟩`, both are in the cell `(0, 0)`. -/
def caughtScene : LevelGrid :=
  { grid := [[[⟨0, Kind.basicEnemy⟩, ⟨1, Kind.player⟩], []], [[], []]]
    levelEntityPositionMap := [(⟨0, Kind.basicEnemy⟩, ⟨0, 0, 0⟩), (⟨1, Kind.player⟩, ⟨1, 0, 0⟩)]
    requests := []
    alloc := 2 }

/-- The grid `caughtScene` after the enemy has been moved from the cell `(0, 0)` to
the cell `(0, 0)`: it has a new position object and is the last entry of the cell
and of the position index. -/
def caughtSceneMoved : LevelGrid :=
  { grid := [[[⟨1, Kind.player⟩, ⟨0, Kind.basicEnemy⟩], []], [[], []]]
    levelEntityPositionMap := [(⟨1, Kind.player⟩, ⟨1, 0, 0⟩), (⟨0, Kind.basicEnemy⟩, ⟨2, 0, 0⟩)]
    requests := []
    alloc := 3 }

/-- A 3 x 1 grid: the enemies `⟨0, _⟩`, `⟨1, _⟩`, `⟨2, _⟩` at `(0, 0)`, `(1, 0)`,
`(2, 0)` request `(1, 0)`, `(2, 0)`, `(1, 0)`: the last two want to change places,
the first wants the cell of the second. -/
def swapScene : LevelGrid :=
  { grid := [[[⟨0, Kind.basicEnemy⟩]], [[⟨1, Kind.basicEnemy⟩]], [[⟨2, Kind.basicEnemy⟩]]]
    levelEntityPositionMap := [(⟨0, Kind.basicEnemy⟩, ⟨0, 0, 0⟩),
      (⟨1, Kind.basicEnemy⟩, ⟨1, 1, 0⟩), (⟨2, Kind.basicEnemy⟩, ⟨2, 2, 0⟩)]
    requests := [(⟨0, Kind.basicEnemy⟩, ⟨1, 0⟩), (⟨1, Kind.basicEnemy⟩, ⟨2, 0⟩),
      (⟨2, Kind.basicEnemy⟩, ⟨1, 0⟩)]
    alloc := 3 }

/-- The grid `swapScene` after `processAllRequests`: the last two enemies have
changed places, the first has stayed. -/
def swapSceneResolved : LevelGrid :=
  { grid := [[[⟨0, Kind.basicEnemy⟩]], [[⟨2, Kind.basicEnemy⟩]], [[⟨1, Kind.basicEnemy⟩]]]
    levelEntityPositionMap := [(⟨0, Kind.basicEnemy⟩, ⟨0, 0, 0⟩),
      (⟨2, Kind.basicEnemy⟩, ⟨3, 1, 0⟩), (⟨1, Kind.basicEnemy⟩, ⟨4, 2, 0⟩)]
    requests := []
    alloc := 5 }

/-! ## Maps and sets: basic facts -/

theorem mapGet_mapSet_self {α β : Type} [DecidableEq α] (m : List (α × β)) (k : α) (v : β) :
    mapGet (mapSet m k v) k = some v := by
  induction m with
  | nil => simp [mapSet, mapGet]
  | cons hd tl ih =>
    obtain ⟨k', v'⟩ := hd
    by_cases h : k' = k
    · simp [mapSet, mapGet, h]
    · simp [mapSet, mapGet, h, ih]

theorem mapGet_mapSet_ne {α β : Type} [DecidableEq α] (m : List (α × β)) (k k2 : α) (v : β)
    (h : k2 ≠ k) : mapGet (mapSet m k v) k2 = mapGet m k2 := by
  induction m with
  | nil => simp [mapSet, mapGet, Ne.symm h]
  | cons hd tl ih =>
    obtain ⟨k', v'⟩ := hd
    by_cases h1 : k' = k
    · subst h1
      simp [mapSet, mapGet, Ne.symm h]
    · by_cases h2 : k' = k2
      · subst h2
        simp [mapSet, mapGet, h1]
      · simp [mapSet, mapGet, h1, h2, ih]

theorem mapGet_mapDelete_self {α β : Type} [DecidableEq α] (m : List (α × β)) (k : α) :
    mapGet (mapDelete m k) k = none := by
  induction m with
  | nil => simp [mapDelete, mapGet]
  | cons hd tl ih =>
    obtain ⟨k', v'⟩ := hd
    by_cases h : k' = k
    · simpa [mapDelete, List.filter_cons, h] using ih
    · simpa [mapDelete, List.filter_cons, h, mapGet] using ih

theorem mapGet_mapDelete_ne {α β : Type} [DecidableEq α] (m : List (α × β)) (k k2 : α)
    (h : k2 ≠ k) : mapGet (mapDelete m k) k2 = mapGet m k2 := by
  induction m with
  | nil => simp [mapDelete, mapGet]
  | cons hd tl ih =>
    obtain ⟨k', v'⟩ := hd
    by_cases h1 : k' = k
    · subst h1
      have : ¬ k' = k2 := fun e => h e.symm
      simpa [mapDelete, List.filter_cons, mapGet, this] using ih
    · by_cases h2 : k' = k2
      · subst h2
        simp [mapDelete, List.filter_cons, h1, mapGet]
      · simpa [mapDelete, List.filter_cons, h1, mapGet, h2] using ih

theorem mapGet_eq_some_of_mem {α β : Type} [DecidableEq α] (m : List (α × β)) (k : α) (v : β)
    (hnd : (m.map Prod.fst).Nodup) (h : (k, v) ∈ m) : mapGet m k = some v := by
  induction m with
  | nil => simp at h
  | cons hd tl ih =>
    obtain ⟨k', v'⟩ := hd
    simp only [List.map_cons, List.nodup_cons] at hnd
    rcases List.mem_cons.1 h with h1 | h1
    · cases h1
      simp [mapGet]
    · have hk : k' ≠ k := by
        rintro rfl
        exact hnd.1 (List.mem_map.2 ⟨(k', v), h1, rfl⟩)
      simp [mapGet, hk, ih hnd.2 h1]

theorem mem_of_mapGet_eq_some {α β : Type} [DecidableEq α] (m : List (α × β)) (k : α) (v : β)
    (h : mapGet m k = some v) : (k, v) ∈ m := by
  induction m with
  | nil => simp [mapGet] at h
  | cons hd tl ih =>
    obtain ⟨k', v'⟩ := hd
    by_cases h1 : k' = k
    · simp [mapGet, h1] at h
      simp [h1, h]
    · simp [mapGet, h1] at h
      exact List.mem_cons_of_mem _ (ih h)

theorem nodup_keys_mapSet {α β : Type} [DecidableEq α] (m : List (α × β)) (k : α) (v : β)
    (h : (m.map Prod.fst).Nodup) : ((mapSet m k v).map Prod.fst).Nodup := by
  have hkeys : (mapSet m k v).map Prod.fst =
      if k ∈ m.map Prod.fst then m.map Prod.fst else m.map Prod.fst ++ [k] := by
    clear h
    induction m with
    | nil => simp [mapSet]
    | cons hd tl ih =>
      obtain ⟨k', v'⟩ := hd
      by_cases h1 : k' = k
      · subst h1
        simp [mapSet]
      · have h2 : ¬ k = k' := fun e => h1 e.symm
        simp only [mapSet, h1, if_false, List.map_cons, ih, List.mem_cons, h2, false_or]
        split <;> simp
  rw [hkeys]
  split
  · exact h
  · rename_i hn
    exact List.Nodup.append h (List.nodup_singleton k) (by simpa using hn)

theorem nodup_keys_mapDelete {α β : Type} [DecidableEq α] (m : List (α × β)) (k : α)
    (h : (m.map Prod.fst).Nodup) : ((mapDelete m k).map Prod.fst).Nodup :=
  List.Nodup.sublist (List.Sublist.map Prod.fst (List.filter_sublist m)) h

theorem mem_setAdd {α : Type} [DecidableEq α] (s : List α) (a b : α) :
    b ∈ setAdd s a ↔ b ∈ s ∨ b = a := by
  unfold setAdd
  split
  · constructor
    · exact Or.inl
    · rintro (h | rfl) <;> assumption
  · simp

theorem mem_setDelete {α : Type} [DecidableEq α] (s : List α) (a b : α) :
    b ∈ setDelete s a ↔ b ∈ s ∧ b ≠ a := by
  simp [setDelete]

theorem nodup_setAdd {α : Type} [DecidableEq α] (s : List α) (a : α) (h : s.Nodup) :
    (setAdd s a).Nodup := by
  unfold setAdd
  split
  · exact h
  · rename_i hn
    exact List.Nodup.append h (List.nodup_singleton a) (by simpa using hn)

theorem nodup_setDelete {α : Type} [DecidableEq α] (s : List α) (a : α) (h : s.Nodup) :
    (setDelete s a).Nodup :=
  List.Nodup.filter _ h

theorem setDelete_setAdd {α : Type} [DecidableEq α] (s : List α) (a : α) (h : a ∉ s) :
    setDelete (setAdd s a) a = s := by
  unfold setAdd setDelete
  rw [if_neg h, List.filter_append]
  simp only [ne_eq, decide_not, List.filter_cons, decide_True, Bool.not_true, Bool.false_eq_true,
    ↓reduceIte, List.filter_nil, List.append_nil, List.filter_eq_self, Bool.not_eq_eq_eq_not,
    Bool.not_true, decide_eq_false_iff_not]
  intro b hb e
  exact h (e ▸ hb)

/-! ## Cells: basic facts -/

theorem getCell_setCell_self (grid : List (List (List LevelEntity))) (x y : Int)
    (c c2 : List LevelEntity) (h : getCell grid x y = some c) :
    getCell (setCell grid x y c2) x y = some c2 := by
  unfold getCell at h ⊢
  split at h
  · rename_i hxy
    rw [if_pos hxy]
    unfold setCell
    cases hcol : grid[x.toNat]? with
    | none => simp [hcol] at h
    | some column =>
      simp only [hcol] at h
      have hx : x.toNat < grid.length := by
        by_contra hlt
        rw [List.getElem?_eq_none (by omega)] at hcol
        cases hcol
      have hy : y.toNat < column.length := by
        by_contra hlt
        rw [List.getElem?_eq_none (by omega)] at h
        cases h
      simp [List.getElem?_set, hx, hy]
  · cases h

theorem getCell_setCell_ne (grid : List (List (List LevelEntity))) (x y x2 y2 : Int)
    (c2 : List LevelEntity) (hx : 0 ≤ x) (hy : 0 ≤ y) (hne : ¬ (x2 = x ∧ y2 = y)) :
    getCell (setCell grid x y c2) x2 y2 = getCell grid x2 y2 := by
  unfold getCell
  by_cases hxy : 0 ≤ x2 ∧ 0 ≤ y2
  · rw [if_pos hxy, if_pos hxy]
    unfold setCell
    cases hcol : grid[x.toNat]? with
    | none => rfl
    | some column =>
      by_cases hxx : x2 = x
      · subst hxx
        have hyy : y.toNat ≠ y2.toNat := by
          intro e
          apply hne
          refine ⟨rfl, ?_⟩
          omega
        have hx : x2.toNat < grid.length := by
          by_contra hlt
          rw [List.getElem?_eq_none (by omega)] at hcol
          cases hcol
        simp [List.getElem?_set, hx, hcol, hyy]
      · have hxn : x.toNat ≠ x2.toNat := by omega
        simp [List.getElem?_set, hxn]
  · rw [if_neg hxy, if_neg hxy]

theorem setCell_length (grid : List (List (List LevelEntity))) (x y : Int)
    (c2 : List LevelEntity) : (setCell grid x y c2).length = grid.length := by
  unfold setCell
  split <;> simp

theorem setCell_head_length (grid : List (List (List LevelEntity))) (x y : Int)
    (c2 : List LevelEntity) :
    (setCell grid x y c2).head?.map List.length = grid.head?.map List.length := by
  unfold setCell
  cases hcol : grid[x.toNat]? with
  | none => rfl
  | some column =>
    cases grid with
    | nil => simp at hcol
    | cons hd tl =>
      cases hn : x.toNat with
      | zero =>
        rw [hn] at hcol
        simp at hcol
        simp [hcol]
      | succ n => simp

/-! ## Consistency is kept by the grid operations -/

theorem getPosition_eq (g : LevelGrid) (e : LevelEntity) :
    g.getPosition e = mapGet g.levelEntityPositionMap e := by
  unfold LevelGrid.getPosition mapHas
  cases mapGet g.levelEntityPositionMap e <;> simp

theorem setCell_rect (grid : List (List (List LevelEntity))) (x y : Int)
    (c2 : List LevelEntity) (r : Option Nat)
    (h : ∀ column ∈ grid, some column.length = r) :
    ∀ column ∈ setCell grid x y c2, some column.length = r := by
  unfold setCell
  cases hcol : grid[x.toNat]? with
  | none => exact h
  | some column0 =>
    intro column hmem
    rcases List.mem_or_eq_of_mem_set hmem with h1 | h1
    · exact h column h1
    · subst h1
      rw [List.length_set]
      exact h column0 (List.getElem?_mem hcol)

theorem getCell_some_of_inBounds (g : LevelGrid) (x y : Int)
    (hrect : ∀ column ∈ g.grid, some column.length = g.rows)
    (h : g.inBounds x y = true) : ∃ cell, getCell g.grid x y = some cell := by
  unfold LevelGrid.inBounds at h
  cases hr : g.rows with
  | none => simp [hr] at h
  | some rows =>
    simp only [hr, decide_eq_true_eq] at h
    obtain ⟨hx0, hx1, hy0, hy1⟩ := h
    have hx : x.toNat < g.grid.length := by
      unfold LevelGrid.columns at hx1
      omega
    have hlen : (g.grid[x.toNat]).length = rows := by
      have := hrect _ (List.getElem_mem hx)
      rw [hr] at this
      exact Option.some.inj this
    have hy : y.toNat < (g.grid[x.toNat]).length := by omega
    refine ⟨(g.grid[x.toNat])[y.toNat], ?_⟩
    unfold getCell
    rw [if_pos ⟨hx0, hy0⟩, List.getElem?_eq_getElem hx]
    simp [List.getElem?_eq_getElem hy]

theorem inBounds_of_getCell_some (g : LevelGrid) (x y : Int) (cell : List LevelEntity)
    (hrect : ∀ column ∈ g.grid, some column.length = g.rows)
    (h : getCell g.grid x y = some cell) : g.inBounds x y = true := by
  unfold getCell at h
  split at h
  · rename_i hxy
    cases hcol : g.grid[x.toNat]? with
    | none => simp [hcol] at h
    | some column =>
      simp only [hcol] at h
      have hx : x.toNat < g.grid.length := by
        by_contra hlt
        rw [List.getElem?_eq_none (by omega)] at hcol
        cases hcol
      have hy : y.toNat < column.length := by
        by_contra hlt
        rw [List.getElem?_eq_none (by omega)] at h
        cases h
      have hlen := hrect column (List.getElem?_mem hcol)
      unfold LevelGrid.inBounds
      rw [← hlen]
      simp only [decide_eq_true_eq]
      unfold LevelGrid.columns
      omega
  · cases h

theorem inBounds_congr (g g2 : LevelGrid) (x y : Int) (hc : g2.columns = g.columns)
    (hr : g2.rows = g.rows) : g2.inBounds x y = g.inBounds x y := by
  unfold LevelGrid.inBounds
  rw [hc, hr]

/-- What `addLevelEntity` does on a consistent grid for an absent entity and a
cell inside the grid. -/
theorem addLevelEntity_spec (g : LevelGrid) (e : LevelEntity) (x y : Int)
    (hc : g.Consistent) (habs : g.getPosition e = none) (hb : g.inBounds x y = true) :
    ∃ g2, g.addLevelEntity e x y = Result.ok () g2 ∧ g2.Consistent ∧
      g2.requests = g.requests ∧ g2.alloc = g.alloc + 1 ∧
      g2.getPosition e = some ⟨g.alloc, x, y⟩ ∧
      (∀ f, f ≠ e → g2.getPosition f = g.getPosition f) ∧
      g2.columns = g.columns ∧ g2.rows = g.rows := by
  obtain ⟨cell, hcell⟩ := getCell_some_of_inBounds g x y hc.rect hb
  have hb2 := hb
  unfold LevelGrid.inBounds at hb2
  cases hr : g.rows with
  | none => simp [hr] at hb2
  | some rows =>
    simp only [hr, decide_eq_true_eq] at hb2
    obtain ⟨hx0, hx1, hy0, hy1⟩ := hb2
    have hcond : ¬ (x < 0 ∨ y < 0 ∨ x ≥ g.columns ∨ y ≥ rows) := by omega
    have hpe : ∀ g2 : LevelGrid, g2.levelEntityPositionMap =
        mapSet g.levelEntityPositionMap e ⟨g.alloc, x, y⟩ →
        g2.getPosition e = some ⟨g.alloc, x, y⟩ := by
      intro g2 h2
      rw [getPosition_eq, h2, mapGet_mapSet_self]
    have hpf : ∀ g2 : LevelGrid, g2.levelEntityPositionMap =
        mapSet g.levelEntityPositionMap e ⟨g.alloc, x, y⟩ →
        ∀ f, f ≠ e → g2.getPosition f = g.getPosition f := by
      intro g2 h2 f hf
      rw [getPosition_eq, getPosition_eq, h2, mapGet_mapSet_ne _ _ _ _ hf]
    refine ⟨{ g with
            grid := setCell g.grid x y (setAdd cell e)
            levelEntityPositionMap := mapSet g.levelEntityPositionMap e ⟨g.alloc, x, y⟩
            alloc := g.alloc + 1 }, ?_, ?_, rfl, rfl, hpe _ rfl, hpf _ rfl, ?_, ?_⟩
    · unfold LevelGrid.addLevelEntity
      simp only [hr, hcell, if_neg hcond]
    · have hrows : LevelGrid.rows { g with
            grid := setCell g.grid x y (setAdd cell e)
            levelEntityPositionMap := mapSet g.levelEntityPositionMap e ⟨g.alloc, x, y⟩
            alloc := g.alloc + 1 } = g.rows := by
        unfold LevelGrid.rows
        exact setCell_head_length _ _ _ _
      have hcols : LevelGrid.columns { g with
            grid := setCell g.grid x y (setAdd cell e)
            levelEntityPositionMap := mapSet g.levelEntityPositionMap e ⟨g.alloc, x, y⟩
            alloc := g.alloc + 1 } = g.columns := by
        unfold LevelGrid.columns
        exact setCell_length _ _ _ _
      constructor
      · rw [hrows]
        exact setCell_rect _ _ _ _ _ hc.rect
      · intro x2 y2 c2 h2
        by_cases hxy : x2 = x ∧ y2 = y
        · obtain ⟨rfl, rfl⟩ := hxy
          simp only [getCell_setCell_self _ _ _ _ _ hcell] at h2
          cases h2
          exact nodup_setAdd _ _ (hc.nodup _ _ _ hcell)
        · simp only [getCell_setCell_ne _ _ _ _ _ _ hx0 hy0 hxy] at h2
          exact hc.nodup _ _ _ h2
      · intro f p hp
        rw [inBounds_congr g _ _ _ hcols hrows]
        by_cases hf : f = e
        · subst hf
          rw [hpe _ rfl] at hp
          cases hp
          exact hb
        · rw [hpf _ rfl f hf] at hp
          exact hc.posInBounds f p hp
      · intro f x2 y2 c2 h2
        by_cases hxy : x2 = x ∧ y2 = y
        · obtain ⟨rfl, rfl⟩ := hxy
          simp only [getCell_setCell_self _ _ _ _ _ hcell] at h2
          cases h2
          rw [mem_setAdd]
          by_cases hf : f = e
          · subst hf
            rw [hpe _ rfl]
            simp
          · rw [hpf _ rfl f hf, hc.mem_iff f _ _ _ hcell]
            simp [hf]
        · simp only [getCell_setCell_ne _ _ _ _ _ _ hx0 hy0 hxy] at h2
          by_cases hf : f = e
          · subst hf
            rw [hpe _ rfl, hc.mem_iff f _ _ _ h2, habs]
            constructor
            · rintro ⟨p, hp, -⟩
              cases hp
            · rintro ⟨p, hp, h3, h4⟩
              cases hp
              exact absurd ⟨h3.symm, h4.symm⟩ hxy
          · rw [hpf _ rfl f hf, hc.mem_iff f _ _ _ h2]
      · intro f p hp
        by_cases hf : f = e
        · subst hf
          rw [hpe _ rfl] at hp
          cases hp
          exact Nat.lt_succ_self _
        · rw [hpf _ rfl f hf] at hp
          exact Nat.lt_succ_of_lt (hc.ref_lt f p hp)
      · exact nodup_keys_mapSet _ _ _ hc.keysNodup
    · unfold LevelGrid.columns
      exact setCell_length _ _ _ _
    · unfold LevelGrid.rows at hr ⊢
      exact (setCell_head_length _ _ _ _).trans hr

/-- What `removeLevelObject` does on a consistent grid. -/
theorem removeLevelObject_spec (g : LevelGrid) (e : LevelEntity) (hc : g.Consistent) :
    ∃ g2, g.removeLevelObject e = Result.ok () g2 ∧ g2.Consistent ∧
      g2.requests = g.requests ∧ g2.alloc = g.alloc ∧
      g2.getPosition e = none ∧
      (∀ f, f ≠ e → g2.getPosition f = g.getPosition f) ∧
      g2.columns = g.columns ∧ g2.rows = g.rows := by
  cases hpos : g.getPosition e with
  | none =>
    refine ⟨g, ?_, hc, rfl, rfl, hpos, fun _ _ => rfl, rfl, rfl⟩
    unfold LevelGrid.removeLevelObject
    simp only [hpos]
  | some pos =>
    have hb := hc.posInBounds e pos hpos
    obtain ⟨cell, hcell⟩ := getCell_some_of_inBounds g pos.x pos.y hc.rect hb
    have hb2 := hb
    unfold LevelGrid.inBounds at hb2
    cases hr : g.rows with
    | none => simp [hr] at hb2
    | some rows =>
      simp only [hr, decide_eq_true_eq] at hb2
      obtain ⟨hx0, hx1, hy0, hy1⟩ := hb2
      have hpe : ∀ g2 : LevelGrid, g2.levelEntityPositionMap =
          mapDelete g.levelEntityPositionMap e → g2.getPosition e = none := by
        intro g2 h2
        rw [getPosition_eq, h2, mapGet_mapDelete_self]
      have hpf : ∀ g2 : LevelGrid, g2.levelEntityPositionMap =
          mapDelete g.levelEntityPositionMap e →
          ∀ f, f ≠ e → g2.getPosition f = g.getPosition f := by
        intro g2 h2 f hf
        rw [getPosition_eq, getPosition_eq, h2, mapGet_mapDelete_ne _ _ _ hf]
      refine ⟨{ g with
            grid := setCell g.grid pos.x pos.y (setDelete cell e)
            levelEntityPositionMap := mapDelete g.levelEntityPositionMap e },
          ?_, ?_, rfl, rfl, hpe _ rfl, hpf _ rfl, ?_, ?_⟩
      · unfold LevelGrid.removeLevelObject
        simp only [hpos, hcell]
      · have hrows : LevelGrid.rows { g with
              grid := setCell g.grid pos.x pos.y (setDelete cell e)
              levelEntityPositionMap := mapDelete g.levelEntityPositionMap e } = g.rows := by
          unfold LevelGrid.rows
          exact setCell_head_length _ _ _ _
        have hcols : LevelGrid.columns { g with
              grid := setCell g.grid pos.x pos.y (setDelete cell e)
              levelEntityPositionMap := mapDelete g.levelEntityPositionMap e } = g.columns := by
          unfold LevelGrid.columns
          exact setCell_length _ _ _ _
        constructor
        · rw [hrows]
          exact setCell_rect _ _ _ _ _ hc.rect
        · intro x2 y2 c2 h2
          by_cases hxy : x2 = pos.x ∧ y2 = pos.y
          · obtain ⟨rfl, rfl⟩ := hxy
            simp only [getCell_setCell_self _ _ _ _ _ hcell] at h2
            cases h2
            exact nodup_setDelete _ _ (hc.nodup _ _ _ hcell)
          · simp only [getCell_setCell_ne _ _ _ _ _ _ hx0 hy0 hxy] at h2
            exact hc.nodup _ _ _ h2
        · intro f p hp
          rw [inBounds_congr g _ _ _ hcols hrows]
          by_cases hf : f = e
          · subst hf
            rw [hpe _ rfl] at hp
            cases hp
          · rw [hpf _ rfl f hf] at hp
            exact hc.posInBounds f p hp
        · intro f x2 y2 c2 h2
          by_cases hxy : x2 = pos.x ∧ y2 = pos.y
          · obtain ⟨rfl, rfl⟩ := hxy
            simp only [getCell_setCell_self _ _ _ _ _ hcell] at h2
            cases h2
            rw [mem_setDelete]
            by_cases hf : f = e
            · subst hf
              rw [hpe _ rfl]
              simp
            · rw [hpf _ rfl f hf, hc.mem_iff f _ _ _ hcell]
              simp [hf]
          · simp only [getCell_setCell_ne _ _ _ _ _ _ hx0 hy0 hxy] at h2
            by_cases hf : f = e
            · subst hf
              rw [hpe _ rfl, hc.mem_iff f _ _ _ h2, hpos]
              constructor
              · rintro ⟨p, hp, h3, h4⟩
                cases hp
                exact absurd ⟨h3.symm, h4.symm⟩ hxy
              · rintro ⟨p, hp, -⟩
                cases hp
            · rw [hpf _ rfl f hf, hc.mem_iff f _ _ _ h2]
        · intro f p hp
          by_cases hf : f = e
          · subst hf
            rw [hpe _ rfl] at hp
            cases hp
          · rw [hpf _ rfl f hf] at hp
            exact hc.ref_lt f p hp
        · exact nodup_keys_mapDelete _ _ hc.keysNodup
      · unfold LevelGrid.columns
        exact setCell_length _ _ _ _
      · unfold LevelGrid.rows at hr ⊢
        exact (setCell_head_length _ _ _ _).trans hr

/-- What `move` does on a consistent grid for a cell inside the grid. -/
theorem move_spec (g : LevelGrid) (e : LevelEntity) (x y : Int)
    (hc : g.Consistent) (hb : g.inBounds x y = true) :
    ∃ g2, g.move e x y = Result.ok () g2 ∧ g2.Consistent ∧
      g2.requests = g.requests ∧ g2.alloc = g.alloc + 1 ∧
      g2.getPosition e = some ⟨g.alloc, x, y⟩ ∧
      (∀ f, f ≠ e → g2.getPosition f = g.getPosition f) ∧
      g2.columns = g.columns ∧ g2.rows = g.rows := by
  obtain ⟨g1, h1, hc1, hreq1, hal1, hpe1, hpf1, hcol1, hrow1⟩ := removeLevelObject_spec g e hc
  have hb1 : g1.inBounds x y = true := by
    rw [inBounds_congr g g1 _ _ hcol1 hrow1]
    exact hb
  obtain ⟨g2, h2, hc2, hreq2, hal2, hpe2, hpf2, hcol2, hrow2⟩ :=
    addLevelEntity_spec g1 e x y hc1 hpe1 hb1
  refine ⟨g2, ?_, hc2, hreq2.trans hreq1, by rw [hal2, hal1], by rw [hpe2, hal1], ?_,
    hcol2.trans hcol1, hrow2.trans hrow1⟩
  · unfold LevelGrid.move
    rw [h1]
    exact h2
  · intro f hf
    rw [hpf2 f hf, hpf1 f hf]

theorem getCell_buildLevelGridArray (columns rows : Nat) (x y : Int) (cell : List LevelEntity)
    (h : getCell (buildLevelGridArray columns rows) x y = some cell) : cell = [] := by
  unfold getCell buildLevelGridArray at h
  split at h
  · cases hcol : (List.replicate columns (List.replicate rows ([] : List LevelEntity)))[x.toNat]? with
    | none => simp [hcol] at h
    | some column =>
      simp only [hcol] at h
      have h1 := List.getElem?_mem hcol
      have h2 := List.getElem?_mem h
      rw [List.mem_replicate] at h1
      rw [h1.2, List.mem_replicate] at h2
      exact h2.2
  · cases h

theorem consistent_new (columns rows : Nat) : (LevelGrid.new columns rows).Consistent := by
  constructor
  · intro column hmem
    unfold LevelGrid.new buildLevelGridArray at hmem
    simp only [List.mem_replicate] at hmem
    obtain ⟨h0, rfl⟩ := hmem
    unfold LevelGrid.rows LevelGrid.new buildLevelGridArray
    cases columns with
    | zero => exact absurd rfl h0
    | succ n => simp [List.replicate_succ]
  · intro x y cell h
    rw [getCell_buildLevelGridArray columns rows x y cell h]
    exact List.nodup_nil
  · intro e p h
    simp [getPosition_eq, LevelGrid.new, mapGet] at h
  · intro e x y cell h
    rw [getCell_buildLevelGridArray columns rows x y cell h]
    simp [getPosition_eq, LevelGrid.new, mapGet]
  · intro e p h
    simp [getPosition_eq, LevelGrid.new, mapGet] at h
  · exact List.nodup_nil

theorem applyOp_spec (g : LevelGrid) (op : GridOp) (hc : g.Consistent)
    (hb : opInBounds g op = true) (hf : placesPresent g op = false) :
    ∃ g2, applyOp g op = Result.ok () g2 ∧ g2.Consistent := by
  cases op with
  | place e x y =>
    have habs : g.getPosition e = none := by
      simpa [placesPresent] using hf
    obtain ⟨g2, h1, h2, -⟩ := addLevelEntity_spec g e x y hc habs hb
    exact ⟨g2, h1, h2⟩
  | remove e =>
    obtain ⟨g2, h1, h2, -⟩ := removeLevelObject_spec g e hc
    exact ⟨g2, h1, h2⟩
  | moveCommitted e x y =>
    obtain ⟨g2, h1, h2, -⟩ := move_spec g e x y hc hb
    exact ⟨g2, h1, h2⟩

theorem applyOps_consistent (ops : List GridOp) (g : LevelGrid) (hc : g.Consistent)
    (h : placesFresh ops g = true) :
    ∃ g2, applyOps ops g = Result.ok () g2 ∧ g2.Consistent := by
  induction ops generalizing g with
  | nil => exact ⟨g, rfl, hc⟩
  | cons op ops ih =>
    simp only [placesFresh, Bool.and_eq_true, Bool.not_eq_true'] at h
    obtain ⟨⟨hb, hf⟩, hrest⟩ := h
    obtain ⟨g1, h1, hc1⟩ := applyOp_spec g op hc hb hf
    rw [h1] at hrest
    obtain ⟨g2, h2, hc2⟩ := ih g1 hc1 hrest
    refine ⟨g2, ?_, hc2⟩
    simp only [applyOps, h1]
    exact h2

/-! ## The move request handler: basic facts -/

theorem Consistent.withRequests (g : LevelGrid) (hc : g.Consistent)
    (r : List (LevelEntity × Request)) : LevelGrid.Consistent { g with requests := r } :=
  ⟨hc.rect, hc.nodup, hc.posInBounds, hc.mem_iff, hc.ref_lt, hc.keysNodup⟩

/-- What the two statements `move` and `requests.delete` do on a consistent grid
for a cell inside the grid. -/
theorem moveAndDelete_spec (g : LevelGrid) (e : LevelEntity) (q : Request)
    (visited : List LevelEntity) (hc : g.Consistent) (hb : g.inBounds q.x q.y = true) :
    ∃ g2, moveAndDelete g e q visited = Result.ok visited g2 ∧ g2.Consistent ∧
      g2.requests = mapDelete g.requests e ∧ g2.alloc = g.alloc + 1 ∧
      g2.getPosition e = some ⟨g.alloc, q.x, q.y⟩ ∧
      (∀ f, f ≠ e → g2.getPosition f = g.getPosition f) ∧
      g2.columns = g.columns ∧ g2.rows = g.rows := by
  obtain ⟨g1, h1, hc1, hreq1, hal1, hpe1, hpf1, hcol1, hrow1⟩ := move_spec g e q.x q.y hc hb
  refine ⟨{ g1 with requests := mapDelete g1.requests e }, ?_, Consistent.withRequests g1 hc1 _,
    ?_, hal1, hpe1, hpf1, hcol1, hrow1⟩
  · unfold moveAndDelete
    rw [h1]
  · rw [hreq1]

theorem processSingleRequest_succ (fuel : Nat) (g : LevelGrid) (e : LevelEntity) (q : Request)
    (visited : List LevelEntity) (cell : List LevelEntity)
    (hcell : getCell g.grid q.x q.y = some cell) :
    processSingleRequest (fuel + 1) g e (some q) visited =
      if (nonPlayers cell).length = 0 ∨ (nonPlayers cell).all (fun ent => setHas visited ent) then
        moveAndDelete g e q visited
      else if (nonPlayers cell).all (fun ent => mapHas g.requests ent) then
        match handleAnyMovementConflicts (processSingleRequest fuel) g e q visited with
        | Result.error err g1 => Result.error err g1
        | Result.ok visited1 g1 =>
          match getCell g1.grid q.x q.y with
          | none => Result.error Err.typeError g1
          | some objectsAfter =>
            if (nonPlayers objectsAfter).length = 0 then moveAndDelete g1 e q visited1
            else Result.ok visited1 g1
      else Result.ok visited g := by
  simp only [processSingleRequest, looseNe, hcell, if_true]

theorem handleAnyMovementConflicts_eq
    (process : LevelGrid → LevelEntity → Option Request → List LevelEntity →
      Result (List LevelEntity))
    (g : LevelGrid) (e : LevelEntity) (q : Request) (visited : List LevelEntity)
    (cell : List LevelEntity) (hcell : getCell g.grid q.x q.y = some cell) :
    handleAnyMovementConflicts process g e q visited =
      match handleLoop process (nonPlayers cell) g (setAdd visited e) with
      | Result.error err g1 => Result.error err g1
      | Result.ok visited1 g1 => Result.ok (setDelete visited1 e) g1 := by
  simp only [handleAnyMovementConflicts, hcell]

/-- When no entity of the requested cell that is not a Player is outside `visited`,
the move is granted at once. -/
theorem processSingleRequest_grant (fuel : Nat) (g : LevelGrid) (e : LevelEntity) (q : Request)
    (visited : List LevelEntity) (cell : List LevelEntity)
    (hcell : getCell g.grid q.x q.y = some cell)
    (hfree : ∀ f ∈ cell, isPlayer f = false → f ∈ visited) :
    processSingleRequest (fuel + 1) g e (some q) visited = moveAndDelete g e q visited := by
  rw [processSingleRequest_succ fuel g e q visited cell hcell, if_pos]
  right
  rw [List.all_eq_true]
  intro f hf
  unfold nonPlayers at hf
  rw [List.mem_filter] at hf
  simp only [setHas, decide_eq_true_eq]
  exact hfree f hf.1 (by simpa using hf.2)

/-! ## The frame of the move request handler -/

theorem Frame.same (g : LevelGrid) : Frame g g :=
  ⟨rfl, rfl, le_refl _, fun _ _ h => h, fun _ => Or.inl rfl⟩

theorem Frame.comp {g g1 g2 : LevelGrid} (h1 : Frame g g1) (h2 : Frame g1 g2) : Frame g g2 := by
  obtain ⟨hc1, hr1, ha1, hs1, hp1⟩ := h1
  obtain ⟨hc2, hr2, ha2, hs2, hp2⟩ := h2
  refine ⟨hc2.trans hc1, hr2.trans hr1, le_trans ha1 ha2, fun f q h => hs1 f q (hs2 f q h), ?_⟩
  intro f
  rcases hp2 f with h | ⟨q, p, hq, hn, hp, hx, hy, hr⟩
  · rcases hp1 f with h' | ⟨q, p, hq, hn, hp, hx, hy, hr⟩
    · exact Or.inl (h.trans h')
    · right
      refine ⟨q, p, hq, ?_, h.trans hp, hx, hy, hr⟩
      cases hg : mapGet g2.requests f with
      | none => rfl
      | some q2 =>
        rw [hs2 f q2 hg] at hn
        cases hn
  · right
    exact ⟨q, p, hs1 f q hq, hn, hp, hx, hy, le_trans ha1 hr⟩

theorem Frame.keepsInBounds {g g2 : LevelGrid} (h : Frame g g2) (hb : g.RequestsInBounds) :
    g2.RequestsInBounds := by
  intro e q hq
  rw [inBounds_congr g g2 _ _ h.1 h.2.1]
  exact hb e q (h.2.2.2.1 e q hq)

/-- The frame of `move` followed by `requests.delete`, for an entity whose request
in the earlier grid `g` was `q`. -/
theorem moveAndDelete_frame (g g1 : LevelGrid) (e : LevelEntity) (q : Request)
    (visited visited2 : List LevelEntity) (g2 : LevelGrid)
    (hf : Frame g g1) (hc1 : g1.Consistent) (hb : g.RequestsInBounds)
    (hq : mapGet g.requests e = some q)
    (hrun : moveAndDelete g1 e q visited = Result.ok visited2 g2) :
    g2.Consistent ∧ Frame g g2 ∧ visited2 = visited := by
  have hb1 : g1.inBounds q.x q.y = true := by
    rw [inBounds_congr g g1 _ _ hf.1 hf.2.1]
    exact hb e q hq
  obtain ⟨g3, h3, hc3, hreq3, hal3, hpe3, hpf3, hcol3, hrow3⟩ :=
    moveAndDelete_spec g1 e q visited hc1 hb1
  rw [h3] at hrun
  cases hrun
  obtain ⟨hc, hr, ha, hs, hp⟩ := hf
  refine ⟨hc3, ⟨hcol3.trans hc, hrow3.trans hr, by omega, ?_, ?_⟩, rfl⟩
  · intro f q2 h
    rw [hreq3] at h
    by_cases hfe : f = e
    · subst hfe
      rw [mapGet_mapDelete_self] at h
      cases h
    · rw [mapGet_mapDelete_ne _ _ _ hfe] at h
      exact hs f q2 h
  · intro f
    by_cases hfe : f = e
    · subst hfe
      right
      refine ⟨q, _, hq, ?_, hpe3, rfl, rfl, ha⟩
      rw [hreq3]
      exact mapGet_mapDelete_self _ _
    · rw [hpf3 f hfe]
      rcases hp f with h | ⟨q2, p, hq2, hn, hp2, hx, hy, hr2⟩
      · exact Or.inl h
      · right
        refine ⟨q2, p, hq2, ?_, hp2, hx, hy, hr2⟩
        rw [hreq3, mapGet_mapDelete_ne _ _ _ hfe]
        exact hn

/-- The loop of `_handleAnyMovementConflicts` keeps what each single call keeps. -/
theorem handleLoop_frame
    (process : LevelGrid → LevelEntity → Option Request → List LevelEntity →
      Result (List LevelEntity))
    (hprocess : ∀ g e visited visited2 g2, g.Consistent → g.RequestsInBounds →
      process g e (mapGet g.requests e) visited = Result.ok visited2 g2 →
      g2.Consistent ∧ Frame g g2)
    (blockers : List LevelEntity) :
    ∀ g visited visited2 g2, g.Consistent → g.RequestsInBounds →
      handleLoop process blockers g visited = Result.ok visited2 g2 →
      g2.Consistent ∧ Frame g g2 := by
  induction blockers with
  | nil =>
    intro g visited visited2 g2 hc _ h
    simp only [handleLoop] at h
    cases h
    exact ⟨hc, Frame.same _⟩
  | cons b rest ih =>
    intro g visited visited2 g2 hc hb h
    simp only [handleLoop] at h
    cases h1 : process g b (mapGet g.requests b) visited with
    | error err g1 =>
      rw [h1] at h
      cases h
    | ok visited1 g1 =>
      rw [h1] at h
      obtain ⟨hc1, hf1⟩ := hprocess g b visited visited1 g1 hc hb h1
      obtain ⟨hc2, hf2⟩ := ih g1 visited1 visited2 g2 hc1 (hf1.keepsInBounds hb) h
      exact ⟨hc2, hf1.comp hf2⟩

/-- A call of `processSingleRequest` on an entity with its pending request (or
`undefined`) that returns keeps the grid consistent and moves only entities with a
request, each to the cell it requested. -/
theorem processSingleRequest_frame (fuel : Nat) :
    ∀ g e visited visited2 g2, g.Consistent → g.RequestsInBounds →
      processSingleRequest fuel g e (mapGet g.requests e) visited = Result.ok visited2 g2 →
      g2.Consistent ∧ Frame g g2 := by
  induction fuel with
  | zero =>
    intro g e visited visited2 g2 _ _ h
    simp only [processSingleRequest] at h
    cases h
  | succ fuel ih =>
    intro g e visited visited2 g2 hc hb h
    cases hq : mapGet g.requests e with
    | none =>
      rw [hq] at h
      simp only [processSingleRequest] at h
      split at h
      · cases h
      · cases h
        exact ⟨hc, Frame.same _⟩
    | some q =>
      rw [hq] at h
      obtain ⟨cell, hcell⟩ := getCell_some_of_inBounds g q.x q.y hc.rect (hb e q hq)
      rw [processSingleRequest_succ fuel g e q visited cell hcell] at h
      split at h
      · obtain ⟨h1, h2, -⟩ :=
          moveAndDelete_frame g g e q visited visited2 g2 (Frame.same g) hc hb hq h
        exact ⟨h1, h2⟩
      · split at h
        · rw [handleAnyMovementConflicts_eq _ g e q visited cell hcell] at h
          cases hl : handleLoop (processSingleRequest fuel) (nonPlayers cell) g
              (setAdd visited e) with
          | error err g1 =>
            rw [hl] at h
            cases h
          | ok visited1 g1 =>
            rw [hl] at h
            obtain ⟨hc1, hf1⟩ := handleLoop_frame (processSingleRequest fuel) ih
              (nonPlayers cell) g (setAdd visited e) visited1 g1 hc hb hl
            simp only at h
            cases hcell1 : getCell g1.grid q.x q.y with
            | none =>
              rw [hcell1] at h
              cases h
            | some objectsAfter =>
              rw [hcell1] at h
              simp only at h
              split at h
              · obtain ⟨h1, h2, -⟩ :=
                  moveAndDelete_frame g g1 e q _ visited2 g2 hf1 hc1 hb hq h
                exact ⟨h1, h2⟩
              · cases h
                exact ⟨hc1, hf1⟩
        · cases h
          exact ⟨hc, Frame.same _⟩

/-- The loop of `processAllRequests` keeps the grid consistent and moves only
entities with a request, each to the cell it requested. -/
theorem processLoop_frame (fuel : Nat) (l : List (LevelEntity × Request)) :
    ∀ g g2, g.Consistent → g.RequestsInBounds →
      (∀ e q, (e, q) ∈ l → ∀ q2, mapGet g.requests e = some q2 → q2 = q) →
      processLoop fuel l g = Result.ok () g2 → g2.Consistent ∧ Frame g g2 := by
  induction l with
  | nil =>
    intro g g2 hc _ _ h
    simp only [processLoop] at h
    cases h
    exact ⟨hc, Frame.same _⟩
  | cons hd rest ih =>
    obtain ⟨e, q⟩ := hd
    intro g g2 hc hb hagree h
    simp only [processLoop] at h
    have hrest : ∀ g1, Frame g g1 →
        ∀ e2 q2, (e2, q2) ∈ rest → ∀ q3, mapGet g1.requests e2 = some q3 → q3 = q2 := by
      intro g1 hf e2 q2 hmem q3 hq3
      exact hagree e2 q2 (List.mem_cons_of_mem _ hmem) q3 (hf.2.2.2.1 e2 q3 hq3)
    split at h
    · rename_i hhas
      have hq : mapGet g.requests e = some q := by
        unfold mapHas at hhas
        cases hg : mapGet g.requests e with
        | none => simp [hg] at hhas
        | some q2 => rw [hagree e q (List.mem_cons_self _ _) q2 hg]
      cases h1 : processSingleRequest fuel g e (some q) [] with
      | error err g1 =>
        rw [h1] at h
        cases h
      | ok visited1 g1 =>
        rw [h1] at h
        rw [← hq] at h1
        obtain ⟨hc1, hf1⟩ := processSingleRequest_frame fuel g e [] visited1 g1 hc hb h1
        obtain ⟨hc2, hf2⟩ := ih g1 g2 hc1 (hf1.keepsInBounds hb) (hrest g1 hf1) h
        exact ⟨hc2, hf1.comp hf2⟩
    · exact ih g g2 hc hb (hrest g (Frame.same g)) h

theorem requests_agree (g : LevelGrid) (hnd : (g.requests.map Prod.fst).Nodup) :
    ∀ e q, (e, q) ∈ g.requests → ∀ q2, mapGet g.requests e = some q2 → q2 = q := by
  intro e q hmem q2 hq2
  rw [mapGet_eq_some_of_mem g.requests e q hnd hmem] at hq2
  exact (Option.some.inj hq2).symm

/-- A run of `processAllRequests` that returns keeps the grid consistent, moves
only entities with a request, each to the cell it requested, and leaves no request
pending. -/
theorem processAllRequests_frame (fuel : Nat) (g g2 : LevelGrid) (hc : g.Consistent)
    (hb : g.RequestsInBounds) (hnd : (g.requests.map Prod.fst).Nodup)
    (h : processAllRequests fuel g = Result.ok () g2) :
    g2.Consistent ∧ Frame g g2 ∧ g2.requests = [] := by
  unfold processAllRequests at h
  cases h1 : processLoop fuel g.requests g with
  | error err g1 =>
    rw [h1] at h
    cases h
  | ok u g1 =>
    rw [h1] at h
    cases h
    obtain ⟨hc1, hf1⟩ := processLoop_frame fuel g.requests g g1 hc hb (requests_agree g hnd) h1
    refine ⟨Consistent.withRequests g1 hc1 _, ?_, rfl⟩
    obtain ⟨hcol, hrow, hal, hsub, hpos⟩ := hf1
    refine ⟨hcol, hrow, hal, ?_, ?_⟩
    · intro f q hq
      simp [mapGet] at hq
    · intro f
      rcases hpos f with h | ⟨q, p, hq, hn, hp, hx, hy, hr⟩
      · exact Or.inl h
      · exact Or.inr ⟨q, p, hq, rfl, hp, hx, hy, hr⟩

/-! ## A request into a cell held by an entity without a request -/

theorem Blocked.frame {g g1 : LevelGrid} {E W : LevelEntity} {d : Request}
    (hf : Frame g g1) (h : Blocked g E W d) : Blocked g1 E W d := by
  obtain ⟨hnp, hreq, ⟨p, hp, hx, hy⟩, hE⟩ := h
  obtain ⟨-, -, -, hsub, hpos⟩ := hf
  refine ⟨hnp, ?_, ⟨p, ?_, hx, hy⟩, fun q hq => hE q (hsub E q hq)⟩
  · cases hg : mapGet g1.requests W with
    | none => rfl
    | some q =>
      rw [hsub W q hg] at hreq
      cases hreq
  · rcases hpos W with h | ⟨q, p2, hq, -⟩
    · rw [h]
      exact hp
    · rw [hreq] at hq
      cases hq

theorem Blocked.blocker_mem {g : LevelGrid} {E W : LevelEntity} {d : Request}
    (h : Blocked g E W d) (hc : g.Consistent) (cell : List LevelEntity)
    (hcell : getCell g.grid d.x d.y = some cell) : W ∈ nonPlayers cell := by
  obtain ⟨hnp, -, ⟨p, hp, hx, hy⟩, -⟩ := h
  unfold nonPlayers
  rw [List.mem_filter]
  refine ⟨(hc.mem_iff W _ _ cell hcell).2 ⟨p, hp, hx, hy⟩, ?_⟩
  simp [hnp]

theorem handleLoop_blocked (fuel : Nat) (E W : LevelEntity) (d : Request)
    (hprocess : ∀ g e visited visited2 g2, g.Consistent → g.RequestsInBounds →
      Blocked g E W d → W ∉ visited →
      processSingleRequest fuel g e (mapGet g.requests e) visited = Result.ok visited2 g2 →
      g2.getPosition E = g.getPosition E ∧ W ∉ visited2)
    (blockers : List LevelEntity) :
    ∀ g visited visited2 g2, g.Consistent → g.RequestsInBounds →
      Blocked g E W d → W ∉ visited →
      handleLoop (processSingleRequest fuel) blockers g visited = Result.ok visited2 g2 →
      g2.getPosition E = g.getPosition E ∧ W ∉ visited2 := by
  induction blockers with
  | nil =>
    intro g visited visited2 g2 _ _ _ hW h
    simp only [handleLoop] at h
    cases h
    exact ⟨rfl, hW⟩
  | cons b rest ih =>
    intro g visited visited2 g2 hc hb hbl hW h
    simp only [handleLoop] at h
    cases h1 : processSingleRequest fuel g b (mapGet g.requests b) visited with
    | error err g1 =>
      rw [h1] at h
      cases h
    | ok visited1 g1 =>
      rw [h1] at h
      obtain ⟨hc1, hf1⟩ := processSingleRequest_frame fuel g b visited visited1 g1 hc hb h1
      obtain ⟨hE1, hW1⟩ := hprocess g b visited visited1 g1 hc hb hbl hW h1
      obtain ⟨hE2, hW2⟩ := ih g1 visited1 visited2 g2 hc1 (hf1.keepsInBounds hb)
        (hbl.frame hf1) hW1 h
      exact ⟨hE2.trans hE1, hW2⟩

/-- While `W` holds the cell that `E` requests and has no request, no call of
`processSingleRequest` moves `E`, and `W` never enters `visited`. -/
theorem processSingleRequest_blocked (E W : LevelEntity) (d : Request) (fuel : Nat) :
    ∀ g e visited visited2 g2, g.Consistent → g.RequestsInBounds →
      Blocked g E W d → W ∉ visited →
      processSingleRequest fuel g e (mapGet g.requests e) visited = Result.ok visited2 g2 →
      g2.getPosition E = g.getPosition E ∧ W ∉ visited2 := by
  induction fuel with
  | zero =>
    intro g e visited visited2 g2 _ _ _ _ h
    simp only [processSingleRequest] at h
    cases h
  | succ fuel ih =>
    intro g e visited visited2 g2 hc hb hbl hW h
    cases hq : mapGet g.requests e with
    | none =>
      rw [hq] at h
      simp only [processSingleRequest] at h
      split at h
      · cases h
      · cases h
        exact ⟨rfl, hW⟩
    | some q =>
      rw [hq] at h
      have hbq := hb e q hq
      obtain ⟨cell, hcell⟩ := getCell_some_of_inBounds g q.x q.y hc.rect hbq
      have hne : e = E → W ∈ nonPlayers cell := by
        intro heq
        subst heq
        have hd : q = d := hbl.2.2.2 q hq
        subst hd
        exact hbl.blocker_mem hc cell hcell
      have heW : e ≠ W := by
        intro heq
        subst heq
        rw [hbl.2.1] at hq
        cases hq
      rw [processSingleRequest_succ fuel g e q visited cell hcell] at h
      split at h
      · rename_i hcond
        have heE : e ≠ E := by
          intro heq
          have hmem := hne heq
          rcases hcond with h0 | hall
          · rw [List.length_eq_zero] at h0
            rw [h0] at hmem
            cases hmem
          · rw [List.all_eq_true] at hall
            have := hall W hmem
            simp only [setHas, decide_eq_true_eq] at this
            exact hW this
        obtain ⟨g3, h3, -, -, -, -, hpf3, -⟩ := moveAndDelete_spec g e q visited hc hbq
        rw [h3] at h
        cases h
        exact ⟨hpf3 E (Ne.symm heE), hW⟩
      · split at h
        · rename_i hall
          have heE : e ≠ E := by
            intro heq
            have hmem := hne heq
            rw [List.all_eq_true] at hall
            have := hall W hmem
            simp only [mapHas, hbl.2.1, Option.isSome_none] at this
            cases this
          rw [handleAnyMovementConflicts_eq _ g e q visited cell hcell] at h
          cases hl : handleLoop (processSingleRequest fuel) (nonPlayers cell) g
              (setAdd visited e) with
          | error err g1 =>
            rw [hl] at h
            cases h
          | ok visited1 g1 =>
            rw [hl] at h
            have hW0 : W ∉ setAdd visited e := by
              rw [mem_setAdd]
              rintro (h0 | h0)
              · exact hW h0
              · exact heW h0.symm
            obtain ⟨hc1, hf1⟩ := handleLoop_frame (processSingleRequest fuel)
              (processSingleRequest_frame fuel) (nonPlayers cell) g (setAdd visited e)
              visited1 g1 hc hb hl
            obtain ⟨hE1, hW1⟩ := handleLoop_blocked fuel E W d ih (nonPlayers cell) g
              (setAdd visited e) visited1 g1 hc hb hbl hW0 hl
            have hW2 : W ∉ setDelete visited1 e := by
              rw [mem_setDelete]
              exact fun h0 => hW1 h0.1
            simp only at h
            cases hcell1 : getCell g1.grid q.x q.y with
            | none =>
              rw [hcell1] at h
              cases h
            | some objectsAfter =>
              rw [hcell1] at h
              simp only at h
              have hbq1 : g1.inBounds q.x q.y = true := by
                rw [inBounds_congr g g1 _ _ hf1.1 hf1.2.1]
                exact hbq
              split at h
              · obtain ⟨g3, h3, -, -, -, -, hpf3, -⟩ :=
                  moveAndDelete_spec g1 e q (setDelete visited1 e) hc1 hbq1
                rw [h3] at h
                cases h
                exact ⟨(hpf3 E (Ne.symm heE)).trans hE1, hW2⟩
              · cases h
                exact ⟨hE1, hW2⟩
        · cases h
          exact ⟨rfl, hW⟩

theorem processLoop_blocked (E W : LevelEntity) (d : Request) (fuel : Nat)
    (l : List (LevelEntity × Request)) :
    ∀ g g2, g.Consistent → g.RequestsInBounds → Blocked g E W d →
      (∀ e q, (e, q) ∈ l → ∀ q2, mapGet g.requests e = some q2 → q2 = q) →
      processLoop fuel l g = Result.ok () g2 → g2.getPosition E = g.getPosition E := by
  induction l with
  | nil =>
    intro g g2 _ _ _ _ h
    simp only [processLoop] at h
    cases h
    rfl
  | cons hd rest ih =>
    obtain ⟨e, q⟩ := hd
    intro g g2 hc hb hbl hagree h
    simp only [processLoop] at h
    have hrest : ∀ g1, Frame g g1 →
        ∀ e2 q2, (e2, q2) ∈ rest → ∀ q3, mapGet g1.requests e2 = some q3 → q3 = q2 := by
      intro g1 hf e2 q2 hmem q3 hq3
      exact hagree e2 q2 (List.mem_cons_of_mem _ hmem) q3 (hf.2.2.2.1 e2 q3 hq3)
    split at h
    · rename_i hhas
      have hq : mapGet g.requests e = some q := by
        unfold mapHas at hhas
        cases hg : mapGet g.requests e with
        | none => simp [hg] at hhas
        | some q2 => rw [hagree e q (List.mem_cons_self _ _) q2 hg]
      cases h1 : processSingleRequest fuel g e (some q) [] with
      | error err g1 =>
        rw [h1] at h
        cases h
      | ok visited1 g1 =>
        rw [h1] at h
        rw [← hq] at h1
        obtain ⟨hc1, hf1⟩ := processSingleRequest_frame fuel g e [] visited1 g1 hc hb h1
        obtain ⟨hE1, -⟩ := processSingleRequest_blocked E W d fuel g e [] visited1 g1 hc hb hbl
          (List.not_mem_nil W) h1
        exact (ih g1 g2 hc1 (hf1.keepsInBounds hb) (hbl.frame hf1) (hrest g1 hf1) h).trans hE1
    · exact ih g g2 hc hb hbl (hrest g (Frame.same g)) h

/-! ## Resolution of requests that never conflict -/

theorem Request.eq_of_coords (q q2 : Request) (hx : q.x = q2.x) (hy : q.y = q2.y) : q = q2 := by
  cases q
  cases q2
  simp only at hx hy
  rw [hx, hy]

theorem Progress.start (g : LevelGrid) : Progress g g :=
  ⟨rfl, rfl, le_refl _, fun _ => Or.inl ⟨rfl, rfl⟩⟩

theorem Progress.andThen {g g1 g2 : LevelGrid} (h1 : Progress g g1) (h2 : Progress g1 g2) :
    Progress g g2 := by
  obtain ⟨hc1, hr1, hl1, hp1⟩ := h1
  obtain ⟨hc2, hr2, hl2, hp2⟩ := h2
  refine ⟨hc2.trans hc1, hr2.trans hr1, le_trans hl2 hl1, ?_⟩
  intro f
  rcases hp2 f with ⟨ha, hb⟩ | ⟨q, p, hq, hn, hp, hx, hy⟩
  · rcases hp1 f with ⟨ha', hb'⟩ | ⟨q, p, hq, hn, hp, hx, hy⟩
    · exact Or.inl ⟨ha.trans ha', hb.trans hb'⟩
    · exact Or.inr ⟨q, p, hq, hb.trans hn, ha.trans hp, hx, hy⟩
  · rcases hp1 f with ⟨_, hb'⟩ | ⟨q', p', _, hn', _⟩
    · exact Or.inr ⟨q, p, hb' ▸ hq, hn, hp, hx, hy⟩
    · rw [hn'] at hq
      cases hq

theorem Progress.request_eq {g s : LevelGrid} (h : Progress g s) (f : LevelEntity)
    (q : Request) (hq : mapGet s.requests f = some q) : mapGet g.requests f = some q := by
  rcases h.2.2.2 f with ⟨_, hb⟩ | ⟨_, _, _, hn, _⟩
  · rw [← hb]
    exact hq
  · rw [hn] at hq
    cases hq

theorem Progress.request_none {g s : LevelGrid} (h : Progress g s) (f : LevelEntity)
    (hq : mapGet g.requests f = none) : mapGet s.requests f = none := by
  rcases h.2.2.2 f with ⟨_, hb⟩ | ⟨_, _, _, hn, _⟩
  · rw [hb]
    exact hq
  · exact hn

theorem nodup_nonPlayers (cell : List LevelEntity) (h : cell.Nodup) : (nonPlayers cell).Nodup :=
  List.Nodup.filter _ h

theorem mem_nonPlayers (cell : List LevelEntity) (f : LevelEntity) :
    f ∈ nonPlayers cell ↔ f ∈ cell ∧ isPlayer f = false := by
  unfold nonPlayers
  rw [List.mem_filter]
  simp

/-- In a resolvable grid the not-Player members of a requested cell are none, or a
single entity with a pending request. -/
theorem Resolvable.blockers {s : LevelGrid} (hr : Resolvable s) (e : LevelEntity) (q : Request)
    (cell : List LevelEntity) (hq : mapGet s.requests e = some q)
    (hcell : getCell s.grid q.x q.y = some cell) :
    nonPlayers cell = [] ∨ ∃ b, nonPlayers cell = [b] ∧ mapHas s.requests b = true := by
  obtain ⟨hc, -, -, hocc⟩ := hr
  have hnd := nodup_nonPlayers cell (hc.nodup _ _ _ hcell)
  have hall : ∀ f ∈ nonPlayers cell, mapHas s.requests f = true ∧
      ∀ f2 ∈ nonPlayers cell, f2 = f := by
    intro f hf
    rw [mem_nonPlayers] at hf
    obtain ⟨p, hp, hx, hy⟩ := (hc.mem_iff f _ _ cell hcell).1 hf.1
    obtain ⟨h1, h2⟩ := hocc e q f p hq hp hx hy hf.2
    refine ⟨h1, ?_⟩
    intro f2 hf2
    rw [mem_nonPlayers] at hf2
    obtain ⟨p2, hp2, hx2, hy2⟩ := (hc.mem_iff f2 _ _ cell hcell).1 hf2.1
    exact h2 f2 p2 hp2 hx2 hy2 hf2.2
  cases hL : nonPlayers cell with
  | nil => exact Or.inl rfl
  | cons b t =>
    right
    rw [hL] at hall hnd
    refine ⟨b, ?_, (hall b (List.mem_cons_self _ _)).1⟩
    cases t with
    | nil => rfl
    | cons c t2 =>
      exfalso
      have hcb : c = b :=
        (hall b (List.mem_cons_self _ _)).2 c (List.mem_cons_of_mem _ (List.mem_cons_self _ _))
      rw [List.nodup_cons] at hnd
      exact hnd.1 (hcb ▸ List.mem_cons_self _ _)

/-- Granting the pending request of `e` in a resolvable grid: the two statements
succeed and leave a resolvable grid in which only `e` has changed. -/
theorem Resolvable.grant {s : LevelGrid} (hr : Resolvable s) (e : LevelEntity) (q : Request)
    (visited : List LevelEntity) (hq : mapGet s.requests e = some q) :
    ∃ s2, moveAndDelete s e q visited = Result.ok visited s2 ∧ Resolvable s2 ∧
      Progress s s2 ∧ mapGet s2.requests e = none ∧
      (∀ f, f ≠ e → mapGet s2.requests f = mapGet s.requests f) ∧
      (∀ f, f ≠ e → s2.getPosition f = s.getPosition f) ∧
      (∃ p, s2.getPosition e = some p ∧ p.x = q.x ∧ p.y = q.y) := by
  obtain ⟨hc, hb, hinj, hocc⟩ := hr
  obtain ⟨s2, h2, hc2, hreq2, -, hpe2, hpf2, hcol2, hrow2⟩ :=
    moveAndDelete_spec s e q visited hc (hb e q hq)
  have hne : mapGet s2.requests e = none := by
    rw [hreq2]
    exact mapGet_mapDelete_self _ _
  have hsame : ∀ f, f ≠ e → mapGet s2.requests f = mapGet s.requests f := by
    intro f hf
    rw [hreq2]
    exact mapGet_mapDelete_ne _ _ _ hf
  have hsub : ∀ f q2, mapGet s2.requests f = some q2 → f ≠ e ∧ mapGet s.requests f = some q2 := by
    intro f q2 h
    have hfe : f ≠ e := by
      rintro rfl
      rw [hne] at h
      cases h
    exact ⟨hfe, (hsame f hfe) ▸ h⟩
  have hnote : ∀ e2 q2 f p, mapGet s2.requests e2 = some q2 → s2.getPosition f = some p →
      p.x = q2.x → p.y = q2.y → f ≠ e := by
    intro e2 q2 f p h2q hp hx hy
    rintro rfl
    rw [hpe2] at hp
    cases hp
    obtain ⟨hfe, hs⟩ := hsub e2 q2 h2q
    have : q = q2 := Request.eq_of_coords q q2 hx hy
    subst this
    exact hfe (hinj e2 f q hs hq)
  refine ⟨s2, h2, ⟨hc2, ?_, ?_, ?_⟩, ⟨hcol2, hrow2, ?_, ?_⟩, hne, hsame, hpf2,
    ⟨_, hpe2, rfl, rfl⟩⟩
  · intro f q2 h
    rw [inBounds_congr s s2 _ _ hcol2 hrow2]
    exact hb f q2 (hsub f q2 h).2
  · intro e1 e2 q2 h1 h3
    exact hinj e1 e2 q2 (hsub e1 q2 h1).2 (hsub e2 q2 h3).2
  · intro e2 q2 f p h2q hp hx hy hnp
    have hfe := hnote e2 q2 f p h2q hp hx hy
    rw [hpf2 f hfe] at hp
    obtain ⟨h3, h4⟩ := hocc e2 q2 f p (hsub e2 q2 h2q).2 hp hx hy hnp
    refine ⟨?_, ?_⟩
    · unfold mapHas at h3 ⊢
      rw [hsame f hfe]
      exact h3
    · intro f2 p2 hp2 hx2 hy2 hnp2
      have hfe2 := hnote e2 q2 f2 p2 h2q hp2 hx2 hy2
      rw [hpf2 f2 hfe2] at hp2
      exact h4 f2 p2 hp2 hx2 hy2 hnp2
  · rw [hreq2]
    unfold mapDelete
    exact List.length_filter_le _ _
  · intro f
    by_cases hfe : f = e
    · subst hfe
      exact Or.inr ⟨q, _, hq, hne, hpe2, rfl, rfl⟩
    · exact Or.inl ⟨hpf2 f hfe, hsame f hfe⟩

theorem pendingCount_le (s : LevelGrid) (visited : List LevelEntity) :
    pendingCount s visited ≤ s.requests.length :=
  List.length_filter_le _ _

theorem filter_length_lt {α : Type} (p1 p2 : α → Bool) (l : List α) (a : α) (ha : a ∈ l)
    (himp : ∀ x, p2 x = true → p1 x = true) (h1 : p1 a = true) (h2 : p2 a = false) :
    (l.filter p2).length < (l.filter p1).length := by
  induction l with
  | nil => cases ha
  | cons hd tl ih =>
    have hle : (tl.filter p2).length ≤ (tl.filter p1).length := by
      apply List.Sublist.length_le
      exact List.monotone_filter_right tl (fun x hx => himp x hx)
    rcases List.mem_cons.1 ha with h | h
    · subst h
      simp only [List.filter_cons, h1, h2, if_true, List.length_cons]
      simp only [Bool.false_eq_true, ↓reduceIte]
      omega
    · have := ih h
      simp only [List.filter_cons]
      cases hp2 : p2 hd
      · cases hp1 : p1 hd
        · simpa using this
        · simp only [Bool.false_eq_true, ↓reduceIte, List.length_cons]
          omega
      · rw [himp hd hp2]
        simpa using this

theorem pendingCount_setAdd_lt (s : LevelGrid) (visited : List LevelEntity) (e : LevelEntity)
    (q : Request) (hq : mapGet s.requests e = some q) (he : e ∉ visited) :
    pendingCount s (setAdd visited e) < pendingCount s visited := by
  unfold pendingCount
  apply filter_length_lt _ _ _ (e, q) (mem_of_mapGet_eq_some _ _ _ hq)
  · intro x hx
    simp only [decide_eq_true_eq] at hx ⊢
    intro h
    exact hx ((mem_setAdd _ _ _).2 (Or.inl h))
  · simpa using he
  · simp only [decide_eq_false_iff_not, not_not]
    exact (mem_setAdd _ _ _).2 (Or.inr rfl)

/-- In a resolvable grid, a call of `processSingleRequest` on an entity outside
`visited` with a pending request returns, with a budget above the number of pending
requests outside `visited`; it grants the request, leaves `visited` as it was and
keeps the requests of the entities in `visited`. -/
theorem processSingleRequest_resolves (fuel : Nat) :
    ∀ s e q visited, Resolvable s → mapGet s.requests e = some q → e ∉ visited →
      pendingCount s visited < fuel →
      ∃ s2, processSingleRequest fuel s e (some q) visited = Result.ok visited s2 ∧
        Resolvable s2 ∧ Progress s s2 ∧ mapGet s2.requests e = none ∧
        ∀ f ∈ visited, mapGet s2.requests f = mapGet s.requests f := by
  induction fuel with
  | zero =>
    intro s e q visited _ _ _ h
    exact absurd h (Nat.not_lt_zero _)
  | succ fuel ih =>
    intro s e q visited hr hq he hcount
    obtain ⟨cell, hcell⟩ := getCell_some_of_inBounds s q.x q.y hr.1.rect (hr.2.1 e q hq)
    have hgrant : ∀ v2, e ∉ v2 → ∃ s2, moveAndDelete s e q v2 = Result.ok v2 s2 ∧
        Resolvable s2 ∧ Progress s s2 ∧ mapGet s2.requests e = none ∧
        ∀ f ∈ v2, mapGet s2.requests f = mapGet s.requests f := by
      intro v2 hv2
      obtain ⟨s2, h1, h2, h3, h4, h5, -⟩ := hr.grant e q v2 hq
      refine ⟨s2, h1, h2, h3, h4, ?_⟩
      intro f hf
      exact h5 f (fun h => hv2 (h ▸ hf))
    rcases hr.blockers e q cell hq hcell with hL | ⟨b, hL, hbreq⟩
    · -- the requested cell holds no blocker
      have hfree : ∀ f ∈ cell, isPlayer f = false → f ∈ visited := by
        intro f hf hnp
        have : f ∈ nonPlayers cell := (mem_nonPlayers cell f).2 ⟨hf, hnp⟩
        rw [hL] at this
        cases this
      rw [processSingleRequest_grant fuel s e q visited cell hcell hfree]
      exact hgrant visited he
    · by_cases hbv : b ∈ visited
      · -- the blocker is upstream in the chain
        have hfree : ∀ f ∈ cell, isPlayer f = false → f ∈ visited := by
          intro f hf hnp
          have : f ∈ nonPlayers cell := (mem_nonPlayers cell f).2 ⟨hf, hnp⟩
          rw [hL, List.mem_singleton] at this
          rw [this]
          exact hbv
        rw [processSingleRequest_grant fuel s e q visited cell hcell hfree]
        exact hgrant visited he
      · -- the blocker is resolved first
        have hc1 : ¬ ((nonPlayers cell).length = 0 ∨
            (nonPlayers cell).all (fun ent => setHas visited ent) = true) := by
          rw [hL]
          simp [setHas, hbv]
        have hc2 : (nonPlayers cell).all (fun ent => mapHas s.requests ent) = true := by
          rw [hL]
          simp [hbreq]
        rw [processSingleRequest_succ fuel s e q visited cell hcell, if_neg hc1, if_pos hc2,
          handleAnyMovementConflicts_eq _ s e q visited cell hcell, hL]
        have hbmem : b ∈ cell ∧ isPlayer b = false := by
          rw [← mem_nonPlayers, hL]
          exact List.mem_singleton_self b
        obtain ⟨qb, hqb⟩ : ∃ qb, mapGet s.requests b = some qb := by
          unfold mapHas at hbreq
          exact Option.isSome_iff_exists.1 hbreq
        have hlt := pendingCount_setAdd_lt s visited e q hq he
        have hdel : setDelete (setAdd visited e) e = visited := setDelete_setAdd visited e he
        by_cases hbe : b = e
        · -- the entity requests its own cell
          subst hbe
          have hpos : 0 < fuel := by omega
          obtain ⟨m, rfl⟩ : ∃ m, fuel = m + 1 := ⟨fuel - 1, by omega⟩
          have hfree : ∀ f ∈ cell, isPlayer f = false → f ∈ setAdd visited b := by
            intro f hf hnp
            have : f ∈ nonPlayers cell := (mem_nonPlayers cell f).2 ⟨hf, hnp⟩
            rw [hL, List.mem_singleton] at this
            exact (mem_setAdd _ _ _).2 (Or.inr this)
          obtain ⟨s1, h1, hr1, hp1, hn1, hsame1, hpos1, p1, hp1e, hx1, hy1⟩ :=
            hr.grant b q (setAdd visited b) hq
          simp only [handleLoop, hqb]
          rw [hq] at hqb
          cases hqb
          rw [processSingleRequest_grant m s b q (setAdd visited b) cell hcell hfree, h1]
          simp only [handleLoop, hdel]
          have hb1 : s1.inBounds q.x q.y = true := by
            rw [inBounds_congr s s1 _ _ hp1.1 hp1.2.1]
            exact hr.2.1 b q hq
          obtain ⟨cell1, hcell1⟩ := getCell_some_of_inBounds s1 q.x q.y hr1.1.rect hb1
          have hmem1 : b ∈ nonPlayers cell1 := by
            rw [mem_nonPlayers]
            exact ⟨(hr1.1.mem_iff b _ _ cell1 hcell1).2 ⟨p1, hp1e, hx1, hy1⟩, hbmem.2⟩
          have hlen : ¬ (nonPlayers cell1).length = 0 := by
            intro h0
            rw [List.length_eq_zero] at h0
            rw [h0] at hmem1
            cases hmem1
          simp only [hcell1, if_neg hlen]
          refine ⟨s1, rfl, hr1, hp1, hn1, ?_⟩
          intro f hf
          exact hsame1 f (fun h => he (h ▸ hf))
        · have hbv1 : b ∉ setAdd visited e := by
            rw [mem_setAdd]
            rintro (h | h)
            · exact hbv h
            · exact hbe h
          obtain ⟨s1, h1, hr1, hp1, hn1, hsame1⟩ :=
            ih s b qb (setAdd visited e) hr hqb hbv1 (by omega)
          simp only [handleLoop, hqb, h1, hdel]
          have hq1 : mapGet s1.requests e = some q := by
            rw [hsame1 e ((mem_setAdd _ _ _).2 (Or.inr rfl))]
            exact hq
          have hb1 : s1.inBounds q.x q.y = true := hr1.2.1 e q hq1
          obtain ⟨cell1, hcell1⟩ := getCell_some_of_inBounds s1 q.x q.y hr1.1.rect hb1
          have hL1 : nonPlayers cell1 = [] := by
            rcases hr1.blockers e q cell1 hq1 hcell1 with h | ⟨b1, hL1, hb1req⟩
            · exact h
            · exfalso
              have hb1mem : b1 ∈ cell1 ∧ isPlayer b1 = false := by
                rw [← mem_nonPlayers, hL1]
                exact List.mem_singleton_self b1
              obtain ⟨pb, hpb, hxb, hyb⟩ := (hr1.1.mem_iff b1 _ _ cell1 hcell1).1 hb1mem.1
              rcases hp1.2.2.2 b1 with ⟨hpos, hreq⟩ | ⟨_, _, _, hnone, _⟩
              · rw [hpos] at hpb
                have : b1 ∈ nonPlayers cell := by
                  rw [mem_nonPlayers]
                  exact ⟨(hr.1.mem_iff b1 _ _ cell hcell).2 ⟨pb, hpb, hxb, hyb⟩, hb1mem.2⟩
                rw [hL, List.mem_singleton] at this
                subst this
                unfold mapHas at hb1req
                rw [hn1] at hb1req
                cases hb1req
              · unfold mapHas at hb1req
                rw [hnone] at hb1req
                cases hb1req
          have hlen : (nonPlayers cell1).length = 0 := by
            rw [hL1]
            rfl
          simp only [hcell1, if_pos hlen]
          obtain ⟨s2, h2, hr2, hp2, hn2, hsame2, -⟩ := hr1.grant e q visited hq1
          refine ⟨s2, h2, hr2, hp1.andThen hp2, hn2, ?_⟩
          intro f hf
          rw [hsame2 f (fun h => he (h ▸ hf))]
          exact hsame1 f ((mem_setAdd _ _ _).2 (Or.inl hf))

theorem processLoop_resolves (fuel : Nat) (l : List (LevelEntity × Request)) :
    ∀ s, Resolvable s →
      (∀ e q, (e, q) ∈ l → ∀ q2, mapGet s.requests e = some q2 → q2 = q) →
      s.requests.length < fuel →
      ∃ s2, processLoop fuel l s = Result.ok () s2 ∧ Resolvable s2 ∧ Progress s s2 ∧
        ∀ e q, (e, q) ∈ l → mapGet s2.requests e = none := by
  induction l with
  | nil =>
    intro s hr _ _
    exact ⟨s, rfl, hr, Progress.start s, fun _ _ h => absurd h (List.not_mem_nil _)⟩
  | cons hd rest ih =>
    obtain ⟨e, q⟩ := hd
    intro s hr hagree hfuel
    have hrest : ∀ s1, Progress s s1 →
        ∀ e2 q2, (e2, q2) ∈ rest → ∀ q3, mapGet s1.requests e2 = some q3 → q3 = q2 := by
      intro s1 hp e2 q2 hmem q3 hq3
      exact hagree e2 q2 (List.mem_cons_of_mem _ hmem) q3 (hp.request_eq e2 q3 hq3)
    simp only [processLoop]
    cases hg : mapGet s.requests e with
    | none =>
      have hhas : mapHas s.requests e = false := by
        unfold mapHas
        rw [hg]
        rfl
      rw [hhas]
      obtain ⟨s2, h2, hr2, hp2, hn2⟩ := ih s hr (hrest s (Progress.start s)) hfuel
      refine ⟨s2, by simpa using h2, hr2, hp2, ?_⟩
      intro e2 q2 hmem
      rcases List.mem_cons.1 hmem with h | h
      · cases h
        exact hp2.request_none e hg
      · exact hn2 e2 q2 h
    | some q2 =>
      have hhas : mapHas s.requests e = true := by
        unfold mapHas
        rw [hg]
        rfl
      have hq : mapGet s.requests e = some q := by
        rw [hg, hagree e q (List.mem_cons_self _ _) q2 hg]
      rw [hhas]
      obtain ⟨s1, h1, hr1, hp1, hn1, -⟩ := processSingleRequest_resolves fuel s e q [] hr hq
        (List.not_mem_nil e) (lt_of_le_of_lt (pendingCount_le s []) hfuel)
      obtain ⟨s2, h2, hr2, hp2, hn2⟩ := ih s1 hr1 (hrest s1 hp1)
        (lt_of_le_of_lt hp1.2.2.1 hfuel)
      refine ⟨s2, ?_, hr2, hp1.andThen hp2, ?_⟩
      · simp only [if_true, h1]
        exact h2
      · intro e2 q3 hmem
        rcases List.mem_cons.1 hmem with h | h
        · cases h
          exact hp2.request_none e hn1
        · exact hn2 e2 q3 h

/-- In a resolvable grid `processAllRequests` returns, with a budget above the
number of requests; every entity with a request ends at the cell it requested,
every other entity keeps its position object, the grid stays consistent and no
request stays pending. -/
theorem processAllRequests_resolves (fuel : Nat) (g : LevelGrid) (hr : Resolvable g)
    (hnd : (g.requests.map Prod.fst).Nodup) (hfuel : g.requests.length < fuel) :
    ∃ g2, processAllRequests fuel g = Result.ok () g2 ∧ g2.Consistent ∧ g2.requests = [] ∧
      (∀ e q, mapGet g.requests e = some q → g2.coords e = some q) ∧
      (∀ f, mapGet g.requests f = none → g2.getPosition f = g.getPosition f) := by
  obtain ⟨s2, h2, hr2, hp2, hn2⟩ :=
    processLoop_resolves fuel g.requests g hr (requests_agree g hnd) hfuel
  refine ⟨{ s2 with requests := [] }, ?_, Consistent.withRequests s2 hr2.1 _, rfl, ?_, ?_⟩
  · unfold processAllRequests
    rw [h2]
  · intro e q hq
    have hnone := hn2 e q (mem_of_mapGet_eq_some _ _ _ hq)
    rcases hp2.2.2.2 e with ⟨_, hreq⟩ | ⟨q2, p, hq2, _, hp, hx, hy⟩
    · rw [hreq, hq] at hnone
      cases hnone
    · rw [hq] at hq2
      cases hq2
      have hp' : LevelGrid.getPosition { s2 with requests := [] } e = some p := hp
      unfold LevelGrid.coords
      rw [hp']
      simp only [Option.map_some', Option.some.injEq]
      exact Request.eq_of_coords _ _ hx hy
  · intro f hf
    rcases hp2.2.2.2 f with ⟨hpos, _⟩ | ⟨q2, _, hq2, _⟩
    · exact hpos
    · rw [hf] at hq2
      cases hq2

/-- Granting a request for a cell that holds no entity other than Players keeps the
state of the resolution ordered. -/
theorem Ordered.grantFree {rank : LevelEntity → Nat} {g0 s : LevelGrid}
    (ho : Ordered rank g0 s) (e : LevelEntity) (q : Request) (visited : List LevelEntity)
    (cell : List LevelEntity) (hq : mapGet s.requests e = some q)
    (hcell : getCell s.grid q.x q.y = some cell) (hfree : nonPlayers cell = []) :
    ∃ s2, moveAndDelete s e q visited = Result.ok visited s2 ∧ Ordered rank g0 s2 ∧
      Progress s s2 ∧ mapGet s2.requests e = none ∧
      (∀ f, f ≠ e → mapGet s2.requests f = mapGet s.requests f) := by
  obtain ⟨hr, hrk, hf, hco⟩ := ho
  obtain ⟨s2, h1, hr2, hp2, hn2, hsame2, hpos2, -⟩ := hr.grant e q visited hq
  obtain ⟨s3, h3, -, -, -, hpe3, -, -, -⟩ :=
    moveAndDelete_spec s e q visited hr.1 (hr.2.1 e q hq)
  rw [h1] at h3
  cases h3
  have hfr := (moveAndDelete_frame s s e q visited visited s2 (Frame.same s) hr.1 hr.2.1 hq h1).2.1
  have hq0 : mapGet g0.requests e = some q := hf.2.2.2.1 e q hq
  refine ⟨s2, h1, ⟨hr2, ?_, hf.comp hfr, ?_⟩, hp2, hn2, hsame2⟩
  · intro e2 q2 f p h2q hp hx hy hnp
    have he2 : e2 ≠ e := by
      rintro rfl
      rw [hn2] at h2q
      cases h2q
    have h2s : mapGet s.requests e2 = some q2 := (hsame2 e2 he2) ▸ h2q
    by_cases hfe : f = e
    · exfalso
      subst hfe
      rw [hpe3] at hp
      cases hp
      have : q = q2 := Request.eq_of_coords q q2 hx hy
      subst this
      exact he2 (hr.2.2.1 e2 f q h2s hq)
    · rw [hpos2 f hfe] at hp
      exact hrk e2 q2 f p h2s hp hx hy hnp
  · intro e2 q2 f pf h2q hpf hx hy hnp hnone
    by_cases he2 : e2 = e
    · subst he2
      rw [hq0] at h2q
      cases h2q
      rcases hf.2.2.2.2 f with hsamepos | ⟨qf, p, -, hnf, hpf2, -, -, hge⟩
      · exfalso
        rw [hpf] at hsamepos
        have hmem : f ∈ nonPlayers cell := by
          rw [mem_nonPlayers]
          exact ⟨(hr.1.mem_iff f _ _ cell hcell).2 ⟨pf, hsamepos, hx, hy⟩, hnp⟩
        rw [hfree] at hmem
        cases hmem
      · have hfe : f ≠ e2 := by
          rintro rfl
          rw [hq] at hnf
          cases hnf
        refine ⟨(hsame2 f hfe).trans hnf, _, p, hpe3, (hpos2 f hfe).trans hpf2, hge, ?_⟩
        exact hr.1.ref_lt f p hpf2
    · have hn : mapGet s.requests e2 = none := (hsame2 e2 he2) ▸ hnone
      obtain ⟨hnf, pe, pf2, hpe, hpf2, hge, hlt⟩ := hco e2 q2 f pf h2q hpf hx hy hnp hn
      have hfe : f ≠ e := by
        rintro rfl
        rw [hq] at hnf
        cases hnf
      exact ⟨(hsame2 f hfe).trans hnf, pe, pf2, (hpos2 e2 he2).trans hpe,
        (hpos2 f hfe).trans hpf2, hge, hlt⟩

/-- In an ordered state, a call of `processSingleRequest` on an entity ranked above
all of `visited` returns, with a budget above the number of pending requests outside
`visited`; it grants the request and leaves the state ordered. -/
theorem processSingleRequest_ordered (rank : LevelEntity → Nat) (g0 : LevelGrid) (fuel : Nat) :
    ∀ s e q visited, Ordered rank g0 s → mapGet s.requests e = some q →
      (∀ v ∈ visited, rank v < rank e) → pendingCount s visited < fuel →
      ∃ s2, processSingleRequest fuel s e (some q) visited = Result.ok visited s2 ∧
        Ordered rank g0 s2 ∧ Progress s s2 ∧ mapGet s2.requests e = none ∧
        ∀ f ∈ visited, mapGet s2.requests f = mapGet s.requests f := by
  induction fuel with
  | zero =>
    intro s e q visited _ _ _ h
    exact absurd h (Nat.not_lt_zero _)
  | succ fuel ih =>
    intro s e q visited ho hq hrank hcount
    have hr := ho.1
    have he : e ∉ visited := fun h => lt_irrefl _ (hrank e h)
    obtain ⟨cell, hcell⟩ := getCell_some_of_inBounds s q.x q.y hr.1.rect (hr.2.1 e q hq)
    rcases hr.blockers e q cell hq hcell with hL | ⟨b, hL, hbreq⟩
    · -- the requested cell holds no blocker
      have hfree : ∀ f ∈ cell, isPlayer f = false → f ∈ visited := by
        intro f hf hnp
        have : f ∈ nonPlayers cell := (mem_nonPlayers cell f).2 ⟨hf, hnp⟩
        rw [hL] at this
        cases this
      rw [processSingleRequest_grant fuel s e q visited cell hcell hfree]
      obtain ⟨s2, h1, ho2, hp2, hn2, hsame2⟩ := ho.grantFree e q visited cell hq hcell hL
      exact ⟨s2, h1, ho2, hp2, hn2, fun f hf => hsame2 f (fun h => he (h ▸ hf))⟩
    · -- the blocker is downstream: it is resolved first
      have hbmem : b ∈ cell ∧ isPlayer b = false := by
        rw [← mem_nonPlayers, hL]
        exact List.mem_singleton_self b
      obtain ⟨pb, hpb, hxb, hyb⟩ := (hr.1.mem_iff b _ _ cell hcell).1 hbmem.1
      have hrb : rank e < rank b := ho.2.1 e q b pb hq hpb hxb hyb hbmem.2
      have hbv : b ∉ visited := fun h => lt_asymm hrb (hrank b h)
      have hbe : b ≠ e := by
        rintro rfl
        exact lt_irrefl _ hrb
      have hc1 : ¬ ((nonPlayers cell).length = 0 ∨
          (nonPlayers cell).all (fun ent => setHas visited ent) = true) := by
        rw [hL]
        simp [setHas, hbv]
      have hc2 : (nonPlayers cell).all (fun ent => mapHas s.requests ent) = true := by
        rw [hL]
        simp [hbreq]
      rw [processSingleRequest_succ fuel s e q visited cell hcell, if_neg hc1, if_pos hc2,
        handleAnyMovementConflicts_eq _ s e q visited cell hcell, hL]
      obtain ⟨qb, hqb⟩ : ∃ qb, mapGet s.requests b = some qb := by
        unfold mapHas at hbreq
        exact Option.isSome_iff_exists.1 hbreq
      have hlt := pendingCount_setAdd_lt s visited e q hq he
      have hdel : setDelete (setAdd visited e) e = visited := setDelete_setAdd visited e he
      have hrank1 : ∀ v ∈ setAdd visited e, rank v < rank b := by
        intro v hv
        rcases (mem_setAdd _ _ _).1 hv with h | h
        · exact lt_trans (hrank v h) hrb
        · rw [h]
          exact hrb
      obtain ⟨s1, h1, ho1, hp1, hn1, hsame1⟩ :=
        ih s b qb (setAdd visited e) ho hqb hrank1 (by omega)
      have hr1 := ho1.1
      simp only [handleLoop, hqb, h1, hdel]
      have hq1 : mapGet s1.requests e = some q := by
        rw [hsame1 e ((mem_setAdd _ _ _).2 (Or.inr rfl))]
        exact hq
      have hb1 : s1.inBounds q.x q.y = true := hr1.2.1 e q hq1
      obtain ⟨cell1, hcell1⟩ := getCell_some_of_inBounds s1 q.x q.y hr1.1.rect hb1
      have hL1 : nonPlayers cell1 = [] := by
        rcases hr1.blockers e q cell1 hq1 hcell1 with h | ⟨b1, hL1, hb1req⟩
        · exact h
        · exfalso
          have hb1mem : b1 ∈ cell1 ∧ isPlayer b1 = false := by
            rw [← mem_nonPlayers, hL1]
            exact List.mem_singleton_self b1
          obtain ⟨pb1, hpb1, hxb1, hyb1⟩ := (hr1.1.mem_iff b1 _ _ cell1 hcell1).1 hb1mem.1
          rcases hp1.2.2.2 b1 with ⟨hpos, hreq⟩ | ⟨_, _, _, hnone, _⟩
          · rw [hpos] at hpb1
            have : b1 ∈ nonPlayers cell := by
              rw [mem_nonPlayers]
              exact ⟨(hr.1.mem_iff b1 _ _ cell hcell).2 ⟨pb1, hpb1, hxb1, hyb1⟩, hb1mem.2⟩
            rw [hL, List.mem_singleton] at this
            subst this
            unfold mapHas at hb1req
            rw [hn1] at hb1req
            cases hb1req
          · unfold mapHas at hb1req
            rw [hnone] at hb1req
            cases hb1req
      have hlen : (nonPlayers cell1).length = 0 := by
        rw [hL1]
        rfl
      simp only [hcell1, if_pos hlen]
      obtain ⟨s2, h2, ho2, hp2, hn2, hsame2⟩ := ho1.grantFree e q visited cell1 hq1 hcell1 hL1
      refine ⟨s2, h2, ho2, hp1.andThen hp2, hn2, ?_⟩
      intro f hf
      rw [hsame2 f (fun h => he (h ▸ hf))]
      exact hsame1 f ((mem_setAdd _ _ _).2 (Or.inl hf))

theorem processLoop_ordered (rank : LevelEntity → Nat) (g0 : LevelGrid) (fuel : Nat)
    (l : List (LevelEntity × Request)) :
    ∀ s, Ordered rank g0 s →
      (∀ e q, (e, q) ∈ l → ∀ q2, mapGet s.requests e = some q2 → q2 = q) →
      s.requests.length < fuel →
      ∃ s2, processLoop fuel l s = Result.ok () s2 ∧ Ordered rank g0 s2 ∧ Progress s s2 ∧
        ∀ e q, (e, q) ∈ l → mapGet s2.requests e = none := by
  induction l with
  | nil =>
    intro s ho _ _
    exact ⟨s, rfl, ho, Progress.start s, fun _ _ h => absurd h (List.not_mem_nil _)⟩
  | cons hd rest ih =>
    obtain ⟨e, q⟩ := hd
    intro s ho hagree hfuel
    have hrest : ∀ s1, Progress s s1 →
        ∀ e2 q2, (e2, q2) ∈ rest → ∀ q3, mapGet s1.requests e2 = some q3 → q3 = q2 := by
      intro s1 hp e2 q2 hmem q3 hq3
      exact hagree e2 q2 (List.mem_cons_of_mem _ hmem) q3 (hp.request_eq e2 q3 hq3)
    simp only [processLoop]
    cases hg : mapGet s.requests e with
    | none =>
      have hhas : mapHas s.requests e = false := by
        unfold mapHas
        rw [hg]
        rfl
      rw [hhas]
      obtain ⟨s2, h2, ho2, hp2, hn2⟩ := ih s ho (hrest s (Progress.start s)) hfuel
      refine ⟨s2, by simpa using h2, ho2, hp2, ?_⟩
      intro e2 q2 hmem
      rcases List.mem_cons.1 hmem with h | h
      · cases h
        exact hp2.request_none e hg
      · exact hn2 e2 q2 h
    | some q2 =>
      have hhas : mapHas s.requests e = true := by
        unfold mapHas
        rw [hg]
        rfl
      have hq : mapGet s.requests e = some q := by
        rw [hg, hagree e q (List.mem_cons_self _ _) q2 hg]
      rw [hhas]
      obtain ⟨s1, h1, ho1, hp1, hn1, -⟩ := processSingleRequest_ordered rank g0 fuel s e q [] ho hq
        (fun v hv => absurd hv (List.not_mem_nil v))
        (lt_of_le_of_lt (pendingCount_le s []) hfuel)
      obtain ⟨s2, h2, ho2, hp2, hn2⟩ := ih s1 ho1 (hrest s1 hp1)
        (lt_of_le_of_lt hp1.2.2.1 hfuel)
      refine ⟨s2, ?_, ho2, hp1.andThen hp2, ?_⟩
      · simp only [if_true, h1]
        exact h2
      · intro e2 q3 hmem
        rcases List.mem_cons.1 hmem with h | h
        · cases h
          exact hp2.request_none e hn1
        · exact hn2 e2 q3 h

/-- In a resolvable, ranked grid `processAllRequests` commits downstream first: an
entity that is not a Player and stands on a requested cell gets its new position
object before the entity that requested the cell. -/
theorem processAllRequests_ordered (rank : LevelEntity → Nat) (fuel : Nat) (g : LevelGrid)
    (hr : Resolvable g) (hrk : Ranked rank g) (hnd : (g.requests.map Prod.fst).Nodup)
    (hfuel : g.requests.length < fuel) :
    ∃ g2, processAllRequests fuel g = Result.ok () g2 ∧
      ∀ e q f pf, mapGet g.requests e = some q → g.getPosition f = some pf → pf.x = q.x →
        pf.y = q.y → isPlayer f = false →
        ∃ pe pf2, g2.getPosition e = some pe ∧ g2.getPosition f = some pf2 ∧
          g.alloc ≤ pf2.ref ∧ pf2.ref < pe.ref := by
  have ho : Ordered rank g g := by
    refine ⟨hr, hrk, Frame.same g, ?_⟩
    intro e q f pf hq _ _ _ _ hnone
    rw [hq] at hnone
    cases hnone
  obtain ⟨s2, h2, ho2, -, hn2⟩ :=
    processLoop_ordered rank g fuel g.requests g ho (requests_agree g hnd) hfuel
  refine ⟨{ s2 with requests := [] }, ?_, ?_⟩
  · unfold processAllRequests
    rw [h2]
  · intro e q f pf hq hpf hx hy hnp
    have hnone := hn2 e q (mem_of_mapGet_eq_some _ _ _ hq)
    obtain ⟨-, pe, pf2, hpe, hpf2, hge, hlt⟩ := ho2.2.2.2 e q f pf hq hpf hx hy hnp hnone
    exact ⟨pe, pf2, hpe, hpf2, hge, hlt⟩

theorem cell_of_getCell (g : LevelGrid) (x y : Int) (cell : List LevelEntity)
    (h : getCell g.grid x y = some cell) : g.cell x y = cell := by
  unfold LevelGrid.cell
  rw [h]
  rfl

/-- A grid whose request map is a permutation of a batch with pairwise distinct
entities and pairwise distinct in-bounds cells, where a requested cell holds at
most one entity that is not a Player, one of the batch, is resolvable. -/
theorem resolvable_of_batch (g : LevelGrid) (batch : List (LevelEntity × Request))
    (hc : g.Consistent) (hperm : g.requests.Perm batch)
    (hkeys : (batch.map Prod.fst).Nodup) (htargets : (batch.map Prod.snd).Nodup)
    (hin : ∀ p ∈ batch, g.inBounds p.2.x p.2.y = true)
    (hocc : ∀ p ∈ batch, ∀ f ∈ g.cell p.2.x p.2.y, isPlayer f = false →
      f ∈ batch.map Prod.fst ∧ ∀ f2 ∈ g.cell p.2.x p.2.y, isPlayer f2 = false → f2 = f) :
    Resolvable g ∧ (g.requests.map Prod.fst).Nodup ∧
      ∀ e q, mapGet g.requests e = some q ↔ (e, q) ∈ batch := by
  have hnd : (g.requests.map Prod.fst).Nodup := ((hperm.map Prod.fst).nodup_iff).2 hkeys
  have hiff : ∀ e q, mapGet g.requests e = some q ↔ (e, q) ∈ batch := by
    intro e q
    constructor
    · intro h
      exact hperm.mem_iff.1 (mem_of_mapGet_eq_some _ _ _ h)
    · intro h
      exact mapGet_eq_some_of_mem _ _ _ hnd (hperm.mem_iff.2 h)
  refine ⟨⟨hc, ?_, ?_, ?_⟩, hnd, hiff⟩
  · intro e q hq
    exact hin (e, q) ((hiff e q).1 hq)
  · intro e1 e2 q h1 h2
    have := List.inj_on_of_nodup_map htargets ((hiff e1 q).1 h1) ((hiff e2 q).1 h2) rfl
    exact congrArg Prod.fst this
  · intro e q f p hq hp hx hy hnp
    have hmem := (hiff e q).1 hq
    obtain ⟨cell, hcell⟩ := getCell_some_of_inBounds g q.x q.y hc.rect (hin (e, q) hmem)
    have hcl := cell_of_getCell g _ _ cell hcell
    have hf : f ∈ g.cell q.x q.y := by
      rw [hcl]
      exact (hc.mem_iff f _ _ cell hcell).2 ⟨p, hp, hx, hy⟩
    obtain ⟨h1, h2⟩ := hocc (e, q) hmem f hf hnp
    constructor
    · rw [List.mem_map] at h1
      obtain ⟨⟨f', q'⟩, hm, rfl⟩ := h1
      unfold mapHas
      rw [(hiff f' q').2 hm]
      rfl
    · intro f2 p2 hp2 hx2 hy2 hnp2
      apply h2 f2 _ hnp2
      rw [hcl]
      exact (hc.mem_iff f2 _ _ cell hcell).2 ⟨p2, hp2, hx2, hy2⟩

/-- Entities recorded at pairwise distinct cells are pairwise distinct. -/
theorem nodup_fst_of_placed (g : LevelGrid) (l : List (LevelEntity × Request))
    (hplaced : ∀ p ∈ l, g.coords p.1 = some p.2) (hdistinct : (l.map Prod.snd).Nodup) :
    (l.map Prod.fst).Nodup := by
  unfold List.Nodup at hdistinct ⊢
  rw [List.pairwise_map] at hdistinct ⊢
  refine List.Pairwise.imp_of_mem ?_ hdistinct
  intro a b ha hb hne heq
  apply hne
  have h1 := hplaced a ha
  have h2 := hplaced b hb
  rw [heq, h2] at h1
  exact (Option.some.inj h1).symm

/-- The cell at which an entity is recorded is inside the grid and holds it. -/
theorem placed_cell (g : LevelGrid) (hc : g.Consistent) (e : LevelEntity) (c : Request)
    (h : g.coords e = some c) : g.inBounds c.x c.y = true ∧ e ∈ g.cell c.x c.y := by
  unfold LevelGrid.coords at h
  cases hp : g.getPosition e with
  | none =>
    rw [hp] at h
    cases h
  | some p =>
    rw [hp] at h
    simp only [Option.map_some', Option.some.injEq] at h
    subst h
    have hb := hc.posInBounds e p hp
    refine ⟨hb, ?_⟩
    obtain ⟨cell, hcell⟩ := getCell_some_of_inBounds g p.x p.y hc.rect hb
    rw [cell_of_getCell g _ _ cell hcell]
    exact (hc.mem_iff e _ _ cell hcell).2 ⟨p, hp, rfl, rfl⟩

/-- The position object behind recorded coordinates. -/
theorem position_of_coords (g : LevelGrid) (e : LevelEntity) (c : Request)
    (h : g.coords e = some c) : ∃ p, g.getPosition e = some p ∧ p.x = c.x ∧ p.y = c.y := by
  unfold LevelGrid.coords at h
  cases hp : g.getPosition e with
  | none =>
    rw [hp] at h
    cases h
  | some p =>
    rw [hp] at h
    simp only [Option.map_some', Option.some.injEq] at h
    subst h
    exact ⟨p, rfl, rfl, rfl⟩

/-! ## Consistency of concrete scenes -/

theorem consistent_of_applyOps (ops : List GridOp) (columns rows : Nat) (g : LevelGrid)
    (r : List (LevelEntity × Request))
    (hfresh : placesFresh ops (LevelGrid.new columns rows) = true)
    (hrun : applyOps ops (LevelGrid.new columns rows) = Result.ok () g) :
    LevelGrid.Consistent { g with requests := r } := by
  obtain ⟨g2, h2, hc2⟩ := applyOps_consistent ops _ (consistent_new columns rows) hfresh
  rw [hrun] at h2
  cases h2
  exact Consistent.withRequests g hc2 r

theorem requestsInBounds_of_all (g : LevelGrid)
    (h : (g.requests.all fun p => g.inBounds p.2.x p.2.y) = true) : g.RequestsInBounds := by
  intro e q hq
  rw [List.all_eq_true] at h
  exact h (e, q) (mem_of_mapGet_eq_some _ _ _ hq)

theorem simpleScene_consistent : simpleScene.Consistent :=
  consistent_of_applyOps [GridOp.place ⟨0, Kind.basicEnemy⟩ 2 2] 4 4 _ _ (by decide) rfl

theorem pursuerScene_consistent : pursuerScene.Consistent :=
  consistent_of_applyOps [GridOp.place ⟨0, Kind.player⟩ 3 3,
    GridOp.place ⟨1, Kind.basicEnemy⟩ 3 2] 4 4 _ _ (by decide) rfl

theorem blockedScene_consistent : blockedScene.Consistent :=
  consistent_of_applyOps [GridOp.place ⟨0, Kind.basicEnemy⟩ 2 2,
    GridOp.place ⟨1, Kind.wall⟩ 3 2] 4 4 _ _ (by decide) rfl

theorem cycleScene_consistent : cycleScene.Consistent :=
  consistent_of_applyOps [GridOp.place ⟨0, Kind.basicEnemy⟩ 0 0,
    GridOp.place ⟨1, Kind.basicEnemy⟩ 1 0, GridOp.place ⟨2, Kind.basicEnemy⟩ 2 0] 3 1 _ _
    (by decide) rfl

theorem chainScene_consistent : chainScene.Consistent :=
  consistent_of_applyOps [GridOp.place ⟨0, Kind.basicEnemy⟩ 0 0,
    GridOp.place ⟨1, Kind.basicEnemy⟩ 1 0] 3 1 _ _ (by decide) rfl

theorem playerChainScene_consistent : playerChainScene.Consistent :=
  consistent_of_applyOps [GridOp.place ⟨0, Kind.basicEnemy⟩ 0 0,
    GridOp.place ⟨1, Kind.player⟩ 1 0, GridOp.place ⟨2, Kind.basicEnemy⟩ 2 0] 3 1 _ _
    (by decide) rfl

theorem playerAheadScene_consistent : playerAheadScene.Consistent :=
  consistent_of_applyOps [GridOp.place ⟨0, Kind.basicEnemy⟩ 0 0,
    GridOp.place ⟨1, Kind.player⟩ 1 0] 3 1 _ _ (by decide) rfl

/-! ## C1: cycle resolution -/

/-- C1: let `(E_0, c_0), ..., (E_(n-1), c_(n-1))` be entities recorded at pairwise
distinct cells of a consistent grid, no cell `c_i` holding an entity that is not a
Player other than `E_i`, and let the request map be any permutation of the
requests `E_i -> c_((i+1) mod n)`. Then `processAllRequests`, with a recursion
budget above `n`, returns; afterwards every `E_i` is recorded at
`c_((i+1) mod n)`, every entity outside the cycle has the position object it had,
the grid is consistent and no request is pending. -/
theorem cycle_resolution (g : LevelGrid) (cyc : List (LevelEntity × Request)) (fuel : Nat)
    (hc : g.Consistent)
    (hplaced : ∀ p ∈ cyc, g.coords p.1 = some p.2)
    (hdistinct : (cyc.map Prod.snd).Nodup)
    (hsingle : ∀ p ∈ cyc, ∀ f ∈ g.cell p.2.x p.2.y, isPlayer f = false → f = p.1)
    (hbatch : g.requests.Perm (cycleBatch cyc))
    (hfuel : cyc.length < fuel) :
    ∃ g2, processAllRequests fuel g = Result.ok () g2 ∧ g2.Consistent ∧ g2.requests = [] ∧
      (∀ i p p2, cyc[i]? = some p → cyc[(i + 1) % cyc.length]? = some p2 →
        g2.coords p.1 = some p2.2) ∧
      (∀ f, f ∉ cyc.map Prod.fst → g2.getPosition f = g.getPosition f) := by
  have hlen : (cyc.map Prod.fst).length = ((cyc.map Prod.snd).rotate 1).length := by
    simp [List.length_rotate]
  have hfst : (cycleBatch cyc).map Prod.fst = cyc.map Prod.fst :=
    List.map_fst_zip _ _ (le_of_eq hlen)
  have hsnd : (cycleBatch cyc).map Prod.snd = (cyc.map Prod.snd).rotate 1 :=
    List.map_snd_zip _ _ (le_of_eq hlen.symm)
  have htarget : ∀ p ∈ cycleBatch cyc, ∃ p0 ∈ cyc, p0.2 = p.2 := by
    intro p hp
    have h2 : p.2 ∈ (cyc.map Prod.snd).rotate 1 := (List.of_mem_zip hp).2
    rw [List.mem_rotate, List.mem_map] at h2
    exact h2
  obtain ⟨hr, hnd, hiff⟩ := resolvable_of_batch g (cycleBatch cyc) hc hbatch
    (by rw [hfst]; exact nodup_fst_of_placed g cyc hplaced hdistinct)
    (by rw [hsnd]; exact List.nodup_rotate.2 hdistinct)
    (by
      intro p hp
      obtain ⟨p0, hp0, heq⟩ := htarget p hp
      rw [← heq]
      exact (placed_cell g hc p0.1 p0.2 (hplaced p0 hp0)).1)
    (by
      intro p hp f hf hnp
      obtain ⟨p0, hp0, heq⟩ := htarget p hp
      rw [← heq] at hf ⊢
      have hfe := hsingle p0 hp0 f hf hnp
      refine ⟨?_, ?_⟩
      · rw [hfst, hfe]
        exact List.mem_map_of_mem _ hp0
      · intro f2 hf2 hnp2
        rw [hfe]
        exact hsingle p0 hp0 f2 hf2 hnp2)
  have hfuel2 : g.requests.length < fuel := by
    rw [hbatch.length_eq]
    have : (cycleBatch cyc).length = cyc.length := by
      rw [← List.length_map (cycleBatch cyc) Prod.fst, hfst, List.length_map]
    omega
  obtain ⟨g2, h1, h2, h3, h4, h5⟩ := processAllRequests_resolves fuel g hr hnd hfuel2
  refine ⟨g2, h1, h2, h3, ?_, ?_⟩
  · intro i p p2 hp hp2
    apply h4
    rw [hiff]
    have hi : i < cyc.length := by
      by_contra hge
      rw [List.getElem?_eq_none (by omega)] at hp
      cases hp
    apply List.mem_iff_getElem?.2
    refine ⟨i, ?_⟩
    unfold cycleBatch
    rw [List.getElem?_zip_eq_some]
    constructor
    · rw [List.getElem?_map, hp]
      rfl
    · rw [List.getElem?_rotate (by simpa using hi), List.getElem?_map, List.length_map, hp2]
      rfl
  · intro f hf
    apply h5
    cases hg : mapGet g.requests f with
    | none => rfl
    | some q =>
      exfalso
      apply hf
      rw [← hfst]
      exact List.mem_map_of_mem Prod.fst ((hiff f q).1 hg)

/-- Witness for C1: `A(0,0) -> (1,0)`, `B(1,0) -> (2,0)`, `C(2,0) -> (0,0)` ends with
`A` at `(1,0)`, `B` at `(2,0)` and `C` at `(0,0)`. -/
theorem cycle_resolution_witness :
    ∃ g2, processAllRequests 4 cycleScene = Result.ok () g2 ∧
      g2.coords ⟨0, Kind.basicEnemy⟩ = some ⟨1, 0⟩ ∧
      g2.coords ⟨1, Kind.basicEnemy⟩ = some ⟨2, 0⟩ ∧
      g2.coords ⟨2, Kind.basicEnemy⟩ = some ⟨0, 0⟩ := by
  obtain ⟨g2, h1, -, -, h4, -⟩ := cycle_resolution cycleScene
    [(⟨0, Kind.basicEnemy⟩, ⟨0, 0⟩), (⟨1, Kind.basicEnemy⟩, ⟨1, 0⟩),
      (⟨2, Kind.basicEnemy⟩, ⟨2, 0⟩)] 4
    cycleScene_consistent (by decide) (by decide) (by decide) (by decide) (by decide)
  exact ⟨g2, h1, h4 0 _ _ rfl rfl, h4 1 _ _ rfl rfl, h4 2 _ _ rfl rfl⟩

/-! ## C2: chain resolution -/

/-- C2, as stated, fails in two ways. First, enemy `E1` at `(0,0)` requests `(1,0)`,
Player `E2` at `(1,0)` requests `(2,0)`, enemy `E3` at `(2,0)` requests `(1,0)`, a
cell inside the grid that holds no entity other than a Player. All conditions of the
claim hold, yet for every recursion budget of at least two calls `E2` and `E3` end
at the cells they started from: `E1` is moved into `(1,0)` first and then blocks
`E3`, which blocks `E2`. Second, enemy `E1` at `(0,0)` requests `(1,0)` and Player
`E2` at `(1,0)` requests the empty cell `(2,0)`, the request of `E1` inserted first.
All conditions of the claim hold and both end at the cells they requested, yet the
upstream `E1` is committed first: it gets the position object 2, the downstream `E2`
the position object 3. -/
theorem chain_resolution_counterexample :
    (playerChainScene.Consistent ∧
    (∀ p ∈ [((⟨0, Kind.basicEnemy⟩ : LevelEntity), (⟨0, 0⟩ : Request)),
        (⟨1, Kind.player⟩, ⟨1, 0⟩), (⟨2, Kind.basicEnemy⟩, ⟨2, 0⟩)],
      playerChainScene.coords p.1 = some p.2 ∧
      ∀ f ∈ playerChainScene.cell p.2.x p.2.y, isPlayer f = false → f = p.1) ∧
    ([(⟨0, 0⟩ : Request), ⟨1, 0⟩, ⟨2, 0⟩]).Nodup ∧
    playerChainScene.inBounds 1 0 = true ∧
    (∀ f ∈ playerChainScene.cell 1 0, isPlayer f = true) ∧
    playerChainScene.requests =
      chainBatch [(⟨0, Kind.basicEnemy⟩, ⟨0, 0⟩), (⟨1, Kind.player⟩, ⟨1, 0⟩),
        (⟨2, Kind.basicEnemy⟩, ⟨2, 0⟩)] ⟨1, 0⟩ ∧
    ∀ fuel, ∃ g2, processAllRequests (fuel + 2) playerChainScene = Result.ok () g2 ∧
      g2.coords ⟨1, Kind.player⟩ = some ⟨1, 0⟩ ∧
      g2.coords ⟨2, Kind.basicEnemy⟩ = some ⟨2, 0⟩) ∧
    (playerAheadScene.Consistent ∧
    (∀ p ∈ [((⟨0, Kind.basicEnemy⟩ : LevelEntity), (⟨0, 0⟩ : Request)),
        (⟨1, Kind.player⟩, ⟨1, 0⟩)],
      playerAheadScene.coords p.1 = some p.2 ∧
      ∀ f ∈ playerAheadScene.cell p.2.x p.2.y, isPlayer f = false → f = p.1) ∧
    ([(⟨0, 0⟩ : Request), ⟨1, 0⟩]).Nodup ∧
    playerAheadScene.inBounds 2 0 = true ∧
    (∀ f ∈ playerAheadScene.cell 2 0, isPlayer f = true) ∧
    playerAheadScene.requests =
      chainBatch [(⟨0, Kind.basicEnemy⟩, ⟨0, 0⟩), (⟨1, Kind.player⟩, ⟨1, 0⟩)] ⟨2, 0⟩ ∧
    playerAheadScene.alloc = 2 ∧
    ∀ fuel, ∃ g2, processAllRequests (fuel + 2) playerAheadScene = Result.ok () g2 ∧
      g2.getPosition ⟨0, Kind.basicEnemy⟩ = some ⟨2, 1, 0⟩ ∧
      g2.getPosition ⟨1, Kind.player⟩ = some ⟨3, 2, 0⟩) :=
  ⟨⟨playerChainScene_consistent, by decide, by decide, by decide, by decide, rfl,
    fun _ => ⟨_, rfl, rfl, rfl⟩⟩,
   ⟨playerAheadScene_consistent, by decide, by decide, by decide, by decide, rfl, rfl,
    fun _ => ⟨_, rfl, rfl, rfl⟩⟩⟩

/-- C2, amended: let `(E_1, c_1), ..., (E_n, c_n)` be entities recorded at pairwise
distinct cells of a consistent grid, no cell `c_i` holding an entity that is not a
Player other than `E_i`, let `d` be a cell inside the grid that holds no entity
that is not a Player and is none of `c_2, ..., c_n`, and let the request map be any
permutation of the requests `E_i -> c_(i+1)` for `i < n` and `E_n -> d`. Then
`processAllRequests`, with a recursion budget above `n`, returns; afterwards every
`E_i` with `i < n` is recorded at `c_(i+1)` and `E_n` at `d`, every entity outside
the chain has the position object it had, the grid is consistent and no request
is pending; and for every `i < n` such that `E_(i+1)` is not a Player, the downstream
`E_(i+1)` is committed before the upstream `E_i`: the position object of `E_(i+1)` was
allocated during the resolution and before the position object of `E_i`. -/
theorem chain_resolution (g : LevelGrid) (chain : List (LevelEntity × Request)) (d : Request)
    (fuel : Nat) (hc : g.Consistent)
    (hplaced : ∀ p ∈ chain, g.coords p.1 = some p.2)
    (hdistinct : (chain.map Prod.snd).Nodup)
    (hsingle : ∀ p ∈ chain, ∀ f ∈ g.cell p.2.x p.2.y, isPlayer f = false → f = p.1)
    (hd : g.inBounds d.x d.y = true)
    (hfree : ∀ f ∈ g.cell d.x d.y, isPlayer f = true)
    (hnew : d ∉ (chain.map Prod.snd).tail)
    (hbatch : g.requests.Perm (chainBatch chain d))
    (hfuel : chain.length < fuel) :
    ∃ g2, processAllRequests fuel g = Result.ok () g2 ∧ g2.Consistent ∧ g2.requests = [] ∧
      (∀ i p p2, chain[i]? = some p → chain[i + 1]? = some p2 → g2.coords p.1 = some p2.2) ∧
      (∀ p, chain.getLast? = some p → g2.coords p.1 = some d) ∧
      (∀ f, f ∉ chain.map Prod.fst → g2.getPosition f = g.getPosition f) ∧
      (∀ i p p2, chain[i]? = some p → chain[i + 1]? = some p2 → isPlayer p2.1 = false →
        ∃ pos pos2, g2.getPosition p.1 = some pos ∧ g2.getPosition p2.1 = some pos2 ∧
          g.alloc ≤ pos2.ref ∧ pos2.ref < pos.ref) := by
  cases hchain : chain with
  | nil =>
    subst hchain
    have hreq : g.requests = [] := List.Perm.eq_nil hbatch
    refine ⟨{ g with requests := [] }, ?_, Consistent.withRequests g hc _, rfl, ?_, ?_, ?_, ?_⟩
    · simp only [processAllRequests, hreq, processLoop]
    · intro i p p2 hp
      simp at hp
    · intro p hp
      simp at hp
    · intro f _
      rfl
    · intro i p p2 hp
      simp at hp
  | cons hd0 tl =>
    rw [← hchain]
    have hpos : 0 < chain.length := by
      rw [hchain]
      exact Nat.succ_pos _
    have hlen : (chain.map Prod.fst).length = ((chain.map Prod.snd).tail ++ [d]).length := by
      simp only [List.length_map, List.length_append, List.length_tail, List.length_singleton]
      omega
    have hfst : (chainBatch chain d).map Prod.fst = chain.map Prod.fst :=
      List.map_fst_zip _ _ (le_of_eq hlen)
    have hsnd : (chainBatch chain d).map Prod.snd = (chain.map Prod.snd).tail ++ [d] :=
      List.map_snd_zip _ _ (le_of_eq hlen.symm)
    have htarget : ∀ p ∈ chainBatch chain d, (∃ p0 ∈ chain, p0.2 = p.2) ∨ p.2 = d := by
      intro p hp
      have h2 : p.2 ∈ (chain.map Prod.snd).tail ++ [d] := (List.of_mem_zip hp).2
      rw [List.mem_append, List.mem_singleton] at h2
      rcases h2 with h2 | h2
      · left
        exact List.mem_map.1 (List.mem_of_mem_tail h2)
      · exact Or.inr h2
    have hkeys : (chain.map Prod.fst).Nodup := nodup_fst_of_placed g chain hplaced hdistinct
    obtain ⟨hr, hnd, hiff⟩ := resolvable_of_batch g (chainBatch chain d) hc hbatch
      (by rw [hfst]; exact hkeys)
      (by
        rw [hsnd]
        refine List.Nodup.append (List.Nodup.sublist (List.tail_sublist _) hdistinct)
          (List.nodup_singleton d) ?_
        intro a ha hb
        rw [List.mem_singleton] at hb
        subst hb
        exact hnew ha)
      (by
        intro p hp
        rcases htarget p hp with ⟨p0, hp0, heq⟩ | heq
        · rw [← heq]
          exact (placed_cell g hc p0.1 p0.2 (hplaced p0 hp0)).1
        · rw [heq]
          exact hd)
      (by
        intro p hp f hf hnp
        rcases htarget p hp with ⟨p0, hp0, heq⟩ | heq
        · rw [← heq] at hf ⊢
          have hfe := hsingle p0 hp0 f hf hnp
          refine ⟨?_, ?_⟩
          · rw [hfst, hfe]
            exact List.mem_map_of_mem _ hp0
          · intro f2 hf2 hnp2
            rw [hfe]
            exact hsingle p0 hp0 f2 hf2 hnp2
        · rw [heq] at hf
          rw [hfree f hf] at hnp
          cases hnp)
    have hfuel2 : g.requests.length < fuel := by
      rw [hbatch.length_eq]
      have : (chainBatch chain d).length = chain.length := by
        rw [← List.length_map (chainBatch chain d) Prod.fst, hfst, List.length_map]
      omega
    have hreqi : ∀ i p p2, chain[i]? = some p → chain[i + 1]? = some p2 →
        mapGet g.requests p.1 = some p2.2 := by
      intro i p p2 hp hp2
      rw [hiff]
      have hi : i + 1 < chain.length := by
        by_contra hge
        rw [List.getElem?_eq_none (by omega)] at hp2
        cases hp2
      apply List.mem_iff_getElem?.2
      refine ⟨i, ?_⟩
      unfold chainBatch
      rw [List.getElem?_zip_eq_some]
      constructor
      · rw [List.getElem?_map, hp]
        rfl
      · rw [List.getElem?_append_left (by simp only [List.length_tail, List.length_map]; omega),
          List.getElem?_tail, List.getElem?_map, hp2]
        rfl
    have hrk : Ranked (fun e => (chain.map Prod.fst).indexOf e) g := by
      intro e q f p hq hp hx hy hnp
      obtain ⟨i, hi⟩ := List.mem_iff_getElem?.1 ((hiff e q).1 hq)
      unfold chainBatch at hi
      rw [List.getElem?_zip_eq_some] at hi
      obtain ⟨hie, hiq⟩ := hi
      obtain ⟨cell, hcell⟩ := getCell_some_of_inBounds g q.x q.y hc.rect (hr.2.1 e q hq)
      have hf : f ∈ g.cell q.x q.y := by
        rw [cell_of_getCell g _ _ cell hcell]
        exact (hc.mem_iff f _ _ cell hcell).2 ⟨p, hp, hx, hy⟩
      obtain ⟨hilt, hie2⟩ := List.getElem?_eq_some.1 hie
      have hilt2 : i < chain.length := by simpa using hilt
      by_cases hlast : i + 1 < chain.length
      · rw [List.getElem?_append_left (by simp only [List.length_tail, List.length_map]; omega),
          List.getElem?_tail, List.getElem?_map, List.getElem?_eq_getElem hlast] at hiq
        simp only [Option.map_some', Option.some.injEq] at hiq
        have hfe : f = (chain[i + 1]).1 := by
          apply hsingle (chain[i + 1]) (List.getElem_mem hlast) f _ hnp
          rw [hiq]
          exact hf
        have hlast2 : i + 1 < (chain.map Prod.fst).length := by simpa using hlast
        have hie3 : (chain.map Prod.fst)[i] = e := hie2
        have h1 : (chain.map Prod.fst).indexOf e = i := by
          rw [← hie3]
          exact List.indexOf_getElem hkeys i hilt
        have h2 : (chain.map Prod.fst).indexOf f = i + 1 := by
          have : f = (chain.map Prod.fst)[i + 1] := by
            rw [List.getElem_map]
            exact hfe
          rw [this]
          exact List.indexOf_getElem hkeys (i + 1) hlast2
        show (chain.map Prod.fst).indexOf e < (chain.map Prod.fst).indexOf f
        rw [h1, h2]
        exact Nat.lt_succ_self i
      · exfalso
        rw [List.getElem?_append_right (by simp only [List.length_tail, List.length_map]; omega)]
          at hiq
        have hzero : i - ((chain.map Prod.snd).tail).length = 0 := by
          simp only [List.length_tail, List.length_map]
          omega
        rw [hzero] at hiq
        simp only [List.getElem?_cons_zero, Option.some.injEq] at hiq
        rw [← hiq] at hf
        rw [hfree f hf] at hnp
        cases hnp
    obtain ⟨g2, h1, h2, h3, h4, h5⟩ := processAllRequests_resolves fuel g hr hnd hfuel2
    obtain ⟨g3, k1, k2⟩ := processAllRequests_ordered _ fuel g hr hrk hnd hfuel2
    rw [h1] at k1
    cases k1
    refine ⟨g2, h1, h2, h3, ?_, ?_, ?_, ?_⟩
    · intro i p p2 hp hp2
      exact h4 _ _ (hreqi i p p2 hp hp2)
    · intro p hp
      apply h4
      rw [hiff]
      rw [List.getLast?_eq_getElem?] at hp
      apply List.mem_iff_getElem?.2
      refine ⟨chain.length - 1, ?_⟩
      unfold chainBatch
      rw [List.getElem?_zip_eq_some]
      constructor
      · rw [List.getElem?_map, hp]
        rfl
      · rw [List.getElem?_append_right (by simp only [List.length_tail, List.length_map]; omega)]
        simp only [List.length_tail, List.length_map, Nat.sub_self, List.getElem?_cons_zero]
    · intro f hf
      apply h5
      cases hg : mapGet g.requests f with
      | none => rfl
      | some q =>
        exfalso
        apply hf
        rw [← hfst]
        exact List.mem_map_of_mem Prod.fst ((hiff f q).1 hg)
    · intro i p p2 hp hp2 hnp2
      obtain ⟨pf, hpf, hx, hy⟩ :=
        position_of_coords g p2.1 p2.2 (hplaced p2 (List.mem_iff_getElem?.2 ⟨i + 1, hp2⟩))
      exact k2 p.1 p2.2 p2.1 pf (hreqi i p p2 hp hp2) hpf hx hy hnp2

/-- Witness for C2: `A(0,0) -> (1,0)`, `B(1,0) -> (2,0)`, `(2,0)` empty, with the
request of `B` inserted first or last: `B` ends at `(2,0)` and `A` at `(1,0)`, and the
position object of `B` is allocated before that of `A`. -/
theorem chain_resolution_witness :
    (∃ g2, processAllRequests 3 chainScene = Result.ok () g2 ∧
      g2.coords ⟨0, Kind.basicEnemy⟩ = some ⟨1, 0⟩ ∧
      g2.coords ⟨1, Kind.basicEnemy⟩ = some ⟨2, 0⟩ ∧
      ∃ pos pos2, g2.getPosition ⟨0, Kind.basicEnemy⟩ = some pos ∧
        g2.getPosition ⟨1, Kind.basicEnemy⟩ = some pos2 ∧
        chainScene.alloc ≤ pos2.ref ∧ pos2.ref < pos.ref) ∧
    (∃ g2, processAllRequests 3 { chainScene with requests := chainScene.requests.reverse } =
        Result.ok () g2 ∧
      g2.coords ⟨0, Kind.basicEnemy⟩ = some ⟨1, 0⟩ ∧
      g2.coords ⟨1, Kind.basicEnemy⟩ = some ⟨2, 0⟩ ∧
      ∃ pos pos2, g2.getPosition ⟨0, Kind.basicEnemy⟩ = some pos ∧
        g2.getPosition ⟨1, Kind.basicEnemy⟩ = some pos2 ∧
        chainScene.alloc ≤ pos2.ref ∧ pos2.ref < pos.ref) := by
  obtain ⟨g2, h1, -, -, h4, h5, -, h6⟩ := chain_resolution chainScene
    [(⟨0, Kind.basicEnemy⟩, ⟨0, 0⟩), (⟨1, Kind.basicEnemy⟩, ⟨1, 0⟩)] ⟨2, 0⟩ 3
    chainScene_consistent (by decide) (by decide) (by decide) (by decide) (by decide)
    (by decide) (by decide) (by decide)
  obtain ⟨g3, k1, -, -, k4, k5, -, k6⟩ := chain_resolution
    { chainScene with requests := chainScene.requests.reverse }
    [(⟨0, Kind.basicEnemy⟩, ⟨0, 0⟩), (⟨1, Kind.basicEnemy⟩, ⟨1, 0⟩)] ⟨2, 0⟩ 3
    (Consistent.withRequests _ chainScene_consistent _) (by decide) (by decide) (by decide)
    (by decide) (by decide) (by decide) (by decide) (by decide)
  exact ⟨⟨g2, h1, h4 0 _ _ rfl rfl, h5 _ rfl, h6 0 _ _ rfl rfl rfl⟩,
    ⟨g3, k1, k4 0 _ _ rfl rfl, k5 _ rfl, k6 0 _ _ rfl rfl rfl⟩⟩

/-! ## C5: grid consistency -/

/-- C5, as stated, fails: on the empty 2 x 1 grid the two calls
`addLevelEntity(w, 0, 0)` and `addLevelEntity(w, 1, 0)` have in-bounds
coordinates and both succeed, and afterwards `w` is recorded at `(1, 0)` while it
is still a member of the cell `(0, 0)`. -/
theorem grid_consistency_counterexample :
    opsInBounds (LevelGrid.new 2 1)
        [GridOp.place ⟨0, Kind.wall⟩ 0 0, GridOp.place ⟨0, Kind.wall⟩ 1 0] = true ∧
    ∃ g cell,
      applyOps [GridOp.place ⟨0, Kind.wall⟩ 0 0, GridOp.place ⟨0, Kind.wall⟩ 1 0]
        (LevelGrid.new 2 1) = Result.ok () g ∧
      g.getPosition ⟨0, Kind.wall⟩ = some ⟨1, 1, 0⟩ ∧
      getCell g.grid 0 0 = some cell ∧ (⟨0, Kind.wall⟩ : LevelEntity) ∈ cell :=
  ⟨by decide, _, _, rfl, rfl, rfl, by decide⟩

/-- C5, amended: starting from the empty grid, after every finite sequence of
`addLevelEntity`, `removeLevelObject` and `move` calls with in-bounds coordinates
in which `addLevelEntity` is only called for an entity that is not on the grid at
that moment, every call has succeeded, every entity of `levelEntityPositionMap`
is a member of the cell at its recorded coordinates and of no other cell, and
every member of a cell is in `levelEntityPositionMap`. -/
theorem grid_consistency (columns rows : Nat) (ops : List GridOp)
    (h : placesFresh ops (LevelGrid.new columns rows) = true) :
    ∃ g, applyOps ops (LevelGrid.new columns rows) = Result.ok () g ∧
      (∀ e p, g.getPosition e = some p →
        (∃ cell, getCell g.grid p.x p.y = some cell ∧ e ∈ cell) ∧
        ∀ x y cell, getCell g.grid x y = some cell → e ∈ cell → x = p.x ∧ y = p.y) ∧
      (∀ x y cell e, getCell g.grid x y = some cell → e ∈ cell →
        ∃ p, g.getPosition e = some p) := by
  obtain ⟨g, hg, hc⟩ := applyOps_consistent ops _ (consistent_new columns rows) h
  refine ⟨g, hg, ?_, ?_⟩
  · intro e p hp
    constructor
    · obtain ⟨cell, hcell⟩ :=
        getCell_some_of_inBounds g p.x p.y hc.rect (hc.posInBounds e p hp)
      exact ⟨cell, hcell, (hc.mem_iff e _ _ cell hcell).2 ⟨p, hp, rfl, rfl⟩⟩
    · intro x y cell hcell hmem
      obtain ⟨p2, hp2, hx, hy⟩ := (hc.mem_iff e _ _ cell hcell).1 hmem
      rw [hp] at hp2
      cases hp2
      exact ⟨hx.symm, hy.symm⟩
  · intro x y cell e hcell hmem
    obtain ⟨p, hp, -⟩ := (hc.mem_iff e _ _ cell hcell).1 hmem
    exact ⟨p, hp⟩

/-- Witness for C5: place a wall and an enemy, move the wall onto the enemy,
remove the enemy. -/
theorem grid_consistency_witness :
    ∃ g, applyOps [GridOp.place ⟨0, Kind.wall⟩ 0 0, GridOp.place ⟨1, Kind.basicEnemy⟩ 1 0,
        GridOp.moveCommitted ⟨0, Kind.wall⟩ 1 0, GridOp.remove ⟨1, Kind.basicEnemy⟩]
        (LevelGrid.new 2 1) = Result.ok () g ∧
      (∀ e p, g.getPosition e = some p →
        (∃ cell, getCell g.grid p.x p.y = some cell ∧ e ∈ cell) ∧
        ∀ x y cell, getCell g.grid x y = some cell → e ∈ cell → x = p.x ∧ y = p.y) ∧
      (∀ x y cell e, getCell g.grid x y = some cell → e ∈ cell →
        ∃ p, g.getPosition e = some p) :=
  grid_consistency 2 1 _ (by decide)

/-! ## C6: the bounds check of `addLevelEntity` -/

/-- C6: on a rectangular grid with at least one column, `addLevelEntity(e, x, y)`
raises `OutOfBounds` exactly when `(x, y)` is outside the grid, and raises nothing
else; a failing call leaves the grid as it was; a call inside the grid succeeds,
and after a successful call `e` is recorded at `(x, y)`, is a member of the cell
`(x, y)`, the former members of that cell are still members, and the recorded
position of every other entity is unchanged. -/
theorem addLevelEntity_bounds (g : LevelGrid) (e : LevelEntity) (x y : Int) (rows : Nat)
    (hrect : ∀ column ∈ g.grid, some column.length = g.rows) (hrows : g.rows = some rows) :
    (g.addLevelEntity e x y = Result.error Err.outOfBounds g ↔
      ¬ (0 ≤ x ∧ x < g.columns ∧ 0 ≤ y ∧ y < rows)) ∧
    (∀ err g2, g.addLevelEntity e x y = Result.error err g2 →
      err = Err.outOfBounds ∧ g2 = g) ∧
    ((0 ≤ x ∧ x < g.columns ∧ 0 ≤ y ∧ y < rows) →
      ∃ g2, g.addLevelEntity e x y = Result.ok () g2) ∧
    (∀ g2, g.addLevelEntity e x y = Result.ok () g2 →
      (∃ p, g2.getPosition e = some p ∧ p.x = x ∧ p.y = y) ∧
      (∃ cell cell2, getCell g.grid x y = some cell ∧ getCell g2.grid x y = some cell2 ∧
        e ∈ cell2 ∧ ∀ f ∈ cell, f ∈ cell2) ∧
      ∀ f, f ≠ e → g2.getPosition f = g.getPosition f) := by
  by_cases hin : 0 ≤ x ∧ x < g.columns ∧ 0 ≤ y ∧ y < rows
  · have hb : g.inBounds x y = true := by
      unfold LevelGrid.inBounds
      simp only [hrows, decide_eq_true_eq]
      exact hin
    obtain ⟨cell, hcell⟩ := getCell_some_of_inBounds g x y hrect hb
    have hcond : ¬ (x < 0 ∨ y < 0 ∨ x ≥ g.columns ∨ y ≥ rows) := by omega
    have hrun : g.addLevelEntity e x y = Result.ok ()
        { g with
          grid := setCell g.grid x y (setAdd cell e)
          levelEntityPositionMap := mapSet g.levelEntityPositionMap e ⟨g.alloc, x, y⟩
          alloc := g.alloc + 1 } := by
      unfold LevelGrid.addLevelEntity
      simp only [hrows, hcell, if_neg hcond]
    rw [hrun]
    refine ⟨?_, ?_, fun _ => ⟨_, rfl⟩, ?_⟩
    · constructor
      · intro h
        cases h
      · intro h
        exact absurd hin h
    · intro err g2 h
      cases h
    · intro g2 h
      cases h
      refine ⟨⟨⟨g.alloc, x, y⟩, ?_, rfl, rfl⟩, ⟨cell, setAdd cell e, hcell, ?_, ?_, ?_⟩, ?_⟩
      · rw [getPosition_eq]
        exact mapGet_mapSet_self _ _ _
      · exact getCell_setCell_self _ _ _ _ _ hcell
      · exact (mem_setAdd _ _ _).2 (Or.inr rfl)
      · intro f hf
        exact (mem_setAdd _ _ _).2 (Or.inl hf)
      · intro f hf
        rw [getPosition_eq, getPosition_eq]
        exact mapGet_mapSet_ne _ _ _ _ hf
  · have hcond : x < 0 ∨ y < 0 ∨ x ≥ g.columns ∨ y ≥ rows := by omega
    have hrun : g.addLevelEntity e x y = Result.error Err.outOfBounds g := by
      unfold LevelGrid.addLevelEntity
      simp only [hrows, if_pos hcond]
    rw [hrun]
    refine ⟨?_, ?_, fun h => absurd h hin, ?_⟩
    · exact ⟨fun _ => hin, fun _ => rfl⟩
    · intro err g2 h
      cases h
      exact ⟨rfl, rfl⟩
    · intro g2 h
      cases h

/-- Witness for C6: the empty 2 x 2 grid, with `(2, 0)` outside and `(1, 1)`
inside. -/
theorem addLevelEntity_bounds_witness :
    (LevelGrid.new 2 2).addLevelEntity ⟨0, Kind.wall⟩ 2 0 =
        Result.error Err.outOfBounds (LevelGrid.new 2 2) ∧
    ∃ g2, (LevelGrid.new 2 2).addLevelEntity ⟨0, Kind.wall⟩ 1 1 = Result.ok () g2 :=
  ⟨((addLevelEntity_bounds (LevelGrid.new 2 2) ⟨0, Kind.wall⟩ 2 0 2 (by decide) rfl).1).2
      (by decide),
    (addLevelEntity_bounds (LevelGrid.new 2 2) ⟨0, Kind.wall⟩ 1 1 2 (by decide) rfl).2.2.1
      (by decide)⟩

/-! ## C4: Players never block -/

/-- C4: on a consistent grid with the single request `E -> d`, `d` inside the
grid, where every entity in `d` is a Player, `processAllRequests` (with any
recursion budget of at least one call) succeeds; afterwards the grid is
consistent, `E` is recorded at `d` and is a member of the cell `d` only, the
members of `d` are `E` and the former members, the position object of every
other entity is the one it had, and no request is pending. -/
theorem players_never_block (g : LevelGrid) (E : LevelEntity) (d : Request) (fuel : Nat)
    (hc : g.Consistent) (hreq : g.requests = [(E, d)]) (hb : g.inBounds d.x d.y = true)
    (hplayers : ∀ cell, getCell g.grid d.x d.y = some cell → ∀ f ∈ cell, isPlayer f = true) :
    ∃ g2, processAllRequests (fuel + 1) g = Result.ok () g2 ∧ g2.Consistent ∧
      (∃ p, g2.getPosition E = some p ∧ p.x = d.x ∧ p.y = d.y) ∧
      (∀ x y cell, getCell g2.grid x y = some cell → (E ∈ cell ↔ x = d.x ∧ y = d.y)) ∧
      (∀ cell cell2, getCell g.grid d.x d.y = some cell → getCell g2.grid d.x d.y = some cell2 →
        ∀ f, f ∈ cell2 ↔ f = E ∨ f ∈ cell) ∧
      (∀ f, f ≠ E → g2.getPosition f = g.getPosition f) ∧
      g2.requests = [] := by
  obtain ⟨cell, hcell⟩ := getCell_some_of_inBounds g d.x d.y hc.rect hb
  have hfree : ∀ f ∈ cell, isPlayer f = false → f ∈ ([] : List LevelEntity) := by
    intro f hf hnp
    rw [hplayers cell hcell f hf] at hnp
    cases hnp
  obtain ⟨g1, h1, hc1, hreq1, hal1, hpe1, hpf1, hcol1, hrow1⟩ :=
    moveAndDelete_spec g E d [] hc hb
  have hrun : processAllRequests (fuel + 1) g = Result.ok () { g1 with requests := [] } := by
    unfold processAllRequests
    rw [hreq]
    simp only [processLoop, mapHas, hreq, mapGet, if_true, Option.isSome_some]
    rw [processSingleRequest_grant fuel g E d [] cell hcell hfree, h1]
  have hc2 : LevelGrid.Consistent { g1 with requests := [] } := Consistent.withRequests g1 hc1 _
  refine ⟨_, hrun, hc2, ⟨_, hpe1, rfl, rfl⟩, ?_, ?_, hpf1, rfl⟩
  · intro x y cell2 hcell2
    rw [hc2.mem_iff E x y cell2 hcell2]
    constructor
    · rintro ⟨p, hp, hx, hy⟩
      have hp2 : g1.getPosition E = some p := hp
      rw [hpe1] at hp2
      cases hp2
      exact ⟨hx.symm, hy.symm⟩
    · rintro ⟨rfl, rfl⟩
      exact ⟨_, hpe1, rfl, rfl⟩
  · intro cell0 cell2 hcell0 hcell2 f
    rw [hcell] at hcell0
    cases hcell0
    rw [hc2.mem_iff f _ _ cell2 hcell2, hc.mem_iff f _ _ cell hcell]
    by_cases hf : f = E
    · subst hf
      simp only [true_or, iff_true]
      exact ⟨_, hpe1, rfl, rfl⟩
    · have : LevelGrid.getPosition { g1 with requests := [] } f = g.getPosition f := hpf1 f hf
      rw [this]
      simp [hf]

/-- Witnesses for C4: the enemy at `(2, 2)` requesting the empty cell `(3, 2)` ends
at `(3, 2)`; the enemy at `(3, 2)` requesting the cell `(3, 3)` of the Player ends
in `(3, 3)`, which then holds both. -/
theorem players_never_block_witness :
    (∃ g2, processAllRequests 1 simpleScene = Result.ok () g2 ∧
      g2.getPosition ⟨0, Kind.basicEnemy⟩ = some ⟨1, 3, 2⟩) ∧
    (∃ g2, processAllRequests 1 pursuerScene = Result.ok () g2 ∧
      g2.getPosition ⟨1, Kind.basicEnemy⟩ = some ⟨2, 3, 3⟩ ∧
      getCell g2.grid 3 3 = some [⟨0, Kind.player⟩, ⟨1, Kind.basicEnemy⟩]) := by
  have h1 := players_never_block simpleScene ⟨0, Kind.basicEnemy⟩ ⟨3, 2⟩ 0
    simpleScene_consistent rfl (by decide)
    (by intro cell h f hf; cases h; cases hf)
  have h2 := players_never_block pursuerScene ⟨1, Kind.basicEnemy⟩ ⟨3, 3⟩ 0
    pursuerScene_consistent rfl (by decide)
    (by
      intro cell h f hf
      cases h
      have hf2 : f ∈ ([⟨0, Kind.player⟩] : List LevelEntity) := hf
      rw [List.mem_singleton] at hf2
      subst hf2
      rfl)
  obtain ⟨g1, hr1, -⟩ := h1
  obtain ⟨g2, hr2, -⟩ := h2
  refine ⟨⟨g1, hr1, ?_⟩, ⟨g2, hr2, ?_, ?_⟩⟩
  · have : processAllRequests 1 simpleScene = Result.ok () _ := rfl
    rw [this] at hr1
    cases hr1
    rfl
  · have : processAllRequests 1 pursuerScene = Result.ok () _ := rfl
    rw [this] at hr2
    cases hr2
    rfl
  · have : processAllRequests 1 pursuerScene = Result.ok () _ := rfl
    rw [this] at hr2
    cases hr2
    rfl

/-! ## C3: a blocked move -/

/-- C3: on a consistent grid with in-bounds requests, if `E` requests the cell `d`,
`d` holds an entity `W` that is not a Player and has no request, and
`processAllRequests` returns, then the grid is again consistent, `E` has the
position object it had before, and so has `W`. -/
theorem blocked_move (g g2 : LevelGrid) (fuel : Nat) (E W : LevelEntity) (d : Request)
    (hc : g.Consistent) (hb : g.RequestsInBounds) (hnd : (g.requests.map Prod.fst).Nodup)
    (hE : mapGet g.requests E = some d)
    (hcell : ∃ cell, getCell g.grid d.x d.y = some cell ∧ W ∈ cell)
    (hnp : isPlayer W = false) (hW : mapGet g.requests W = none)
    (hrun : processAllRequests fuel g = Result.ok () g2) :
    g2.Consistent ∧ g2.getPosition E = g.getPosition E ∧
      g2.getPosition W = g.getPosition W := by
  obtain ⟨hc2, hf2, -⟩ := processAllRequests_frame fuel g g2 hc hb hnd hrun
  obtain ⟨cell, hcl, hmem⟩ := hcell
  obtain ⟨p, hp, hx, hy⟩ := (hc.mem_iff W _ _ cell hcl).1 hmem
  have hbl : Blocked g E W d := by
    refine ⟨hnp, hW, ⟨p, hp, hx, hy⟩, ?_⟩
    intro q hq
    rw [hE] at hq
    exact (Option.some.inj hq).symm
  refine ⟨hc2, ?_, ?_⟩
  · unfold processAllRequests at hrun
    cases h1 : processLoop fuel g.requests g with
    | error err g1 =>
      rw [h1] at hrun
      cases hrun
    | ok u g1 =>
      rw [h1] at hrun
      cases hrun
      exact processLoop_blocked E W d fuel g.requests g g1 hc hb hbl (requests_agree g hnd) h1
  · rcases hf2.2.2.2.2 W with h | ⟨q, p2, hq, -⟩
    · exact h
    · rw [hW] at hq
      cases hq

/-- Witness for C3: the enemy at `(2, 2)` requests `(3, 2)`, which holds a wall
without a request; the enemy stays at `(2, 2)`. -/
theorem blocked_move_witness :
    processAllRequests 1 blockedScene = Result.ok () { blockedScene with requests := [] } ∧
    LevelGrid.getPosition { blockedScene with requests := [] } ⟨0, Kind.basicEnemy⟩ =
      some ⟨0, 2, 2⟩ ∧
    LevelGrid.getPosition { blockedScene with requests := [] } ⟨1, Kind.wall⟩ =
      some ⟨1, 3, 2⟩ :=
  ⟨rfl, (blocked_move blockedScene _ 1 ⟨0, Kind.basicEnemy⟩ ⟨1, Kind.wall⟩ ⟨3, 2⟩
    blockedScene_consistent (requestsInBounds_of_all _ (by decide)) (by decide) rfl
    ⟨_, rfl, by decide⟩ rfl rfl rfl).2⟩

/-! ## C7: resolution and exceptions -/

theorem ownCellScene_diverges (fuel : Nat) :
    ∀ visited, (⟨1, Kind.basicEnemy⟩ : LevelEntity) ∉ visited →
      processSingleRequest fuel ownCellScene ⟨0, Kind.basicEnemy⟩ (some ⟨0, 0⟩) visited =
        Result.error Err.outOfFuel ownCellScene := by
  induction fuel with
  | zero =>
    intro visited _
    rfl
  | succ fuel ih =>
    intro visited hv
    have hcell : getCell ownCellScene.grid (⟨0, 0⟩ : Request).x (⟨0, 0⟩ : Request).y =
        some [⟨0, Kind.basicEnemy⟩, ⟨1, Kind.basicEnemy⟩] := rfl
    have hv2 : (⟨1, Kind.basicEnemy⟩ : LevelEntity) ∉ setAdd visited ⟨0, Kind.basicEnemy⟩ := by
      rw [mem_setAdd]
      rintro (h | h)
      · exact hv h
      · cases h
    rw [processSingleRequest_succ fuel _ _ _ visited _ hcell, if_neg, if_pos,
      handleAnyMovementConflicts_eq _ _ _ _ visited _ hcell]
    · have hnp : nonPlayers [(⟨0, Kind.basicEnemy⟩ : LevelEntity), ⟨1, Kind.basicEnemy⟩] =
          [⟨0, Kind.basicEnemy⟩, ⟨1, Kind.basicEnemy⟩] := rfl
      have hget : mapGet ownCellScene.requests ⟨0, Kind.basicEnemy⟩ = some ⟨0, 0⟩ := rfl
      rw [hnp]
      simp only [handleLoop, hget, ih _ hv2]
    · rfl
    · rintro (h | h)
      · cases h
      · have hnp : nonPlayers [(⟨0, Kind.basicEnemy⟩ : LevelEntity), ⟨1, Kind.basicEnemy⟩] =
            [⟨0, Kind.basicEnemy⟩, ⟨1, Kind.basicEnemy⟩] := rfl
        rw [hnp] at h
        simp only [List.all_cons, List.all_nil, Bool.and_true, Bool.and_eq_true, setHas,
          decide_eq_true_eq] at h
        exact hv h.2

theorem sharedCellScene_consistent : sharedCellScene.Consistent :=
  consistent_of_applyOps [GridOp.place ⟨0, Kind.basicEnemy⟩ 0 0,
    GridOp.place ⟨1, Kind.basicEnemy⟩ 1 0, GridOp.place ⟨2, Kind.basicEnemy⟩ 1 0,
    GridOp.place ⟨3, Kind.basicEnemy⟩ 2 0] 3 2 _ _ (by decide) rfl

theorem ownCellScene_consistent : ownCellScene.Consistent :=
  consistent_of_applyOps [GridOp.place ⟨0, Kind.basicEnemy⟩ 0 0,
    GridOp.place ⟨1, Kind.basicEnemy⟩ 0 0] 2 1 _ _ (by decide) rfl

/-- C7 fails on the code. Both scenes are consistent grids with in-bounds requests.
In the first, with two enemies in one cell, `_handleAnyMovementConflicts` hands to
`processSingleRequest` a blocker whose request has been deleted in the meantime
(`requests.get` gives `undefined`), and reading `position.x` raises a `TypeError`,
for every recursion budget of at least four calls. In the second, an enemy requests
the cell it shares with another requesting enemy, and the recursion never
returns, whatever the budget. -/
theorem resolution_raises :
    (sharedCellScene.Consistent ∧ sharedCellScene.RequestsInBounds ∧
      ∀ fuel, ∃ g1, processAllRequests (fuel + 4) sharedCellScene =
        Result.error Err.typeError g1) ∧
    (ownCellScene.Consistent ∧ ownCellScene.RequestsInBounds ∧
      ∀ fuel, processAllRequests fuel ownCellScene =
        Result.error Err.outOfFuel ownCellScene) := by
  refine ⟨⟨sharedCellScene_consistent, requestsInBounds_of_all _ (by decide), ?_⟩,
    ⟨ownCellScene_consistent, requestsInBounds_of_all _ (by decide), ?_⟩⟩
  · intro fuel
    exact ⟨_, rfl⟩
  · intro fuel
    have h := ownCellScene_diverges fuel [] (List.not_mem_nil _)
    have hreq : ownCellScene.requests =
        [(⟨0, Kind.basicEnemy⟩, ⟨0, 0⟩), (⟨1, Kind.basicEnemy⟩, ⟨1, 0⟩)] := rfl
    have hhas : mapHas ownCellScene.requests ⟨0, Kind.basicEnemy⟩ = true := rfl
    simp only [processAllRequests, hreq, processLoop]
    rw [← hreq, hhas]
    simp only [if_true, h]

/-! ## C9: the nearest target -/

theorem takeWhile_eq_filter_of_sorted {α : Type} (v : α → Int) (m : Int) :
    ∀ S : List α, S.Sorted (fun a b => v a ≤ v b) → (∀ u ∈ S, m ≤ v u) →
      S.takeWhile (fun t => decide (v t = m)) = S.filter (fun t => decide (v t = m)) := by
  intro S
  induction S with
  | nil => intro _ _; rfl
  | cons a t ih =>
    intro hs hm
    have hs2 := List.sorted_cons.1 hs
    by_cases ha : v a = m
    · simp only [List.takeWhile_cons, List.filter_cons, ha, decide_True, if_true]
      rw [ih hs2.2 (fun u hu => hm u (List.mem_cons_of_mem _ hu))]
    · have hnone : ∀ u ∈ t, ¬ v u = m := by
        intro u hu hv
        have h1 := hs2.1 u hu
        have h2 := hm a (List.mem_cons_self _ _)
        omega
      simp only [List.takeWhile_cons, List.filter_cons, ha, decide_False]
      symm
      simp only [Bool.false_eq_true, ↓reduceIte, List.filter_eq_nil_iff, decide_eq_true_eq]
      exact hnone

theorem filter_orderedInsert_min {α : Type} (v : α → Int) (m : Int) (a : α) :
    ∀ S : List α, (∀ u ∈ S, m ≤ v u) →
      (S.orderedInsert (fun a b => v a ≤ v b) a).filter (fun t => decide (v t = m)) =
        (a :: S).filter (fun t => decide (v t = m)) := by
  intro S
  induction S with
  | nil => intro _; rfl
  | cons b t ih =>
    intro hm
    by_cases hab : v a ≤ v b
    · have hstep : List.orderedInsert (fun a b => v a ≤ v b) a (b :: t) = a :: b :: t := by
        simp only [List.orderedInsert, hab, if_true]
      rw [hstep]
    · have hb := hm b (List.mem_cons_self _ _)
      have hne : ¬ v a = m := by omega
      have hstep : List.orderedInsert (fun a b => v a ≤ v b) a (b :: t) =
          b :: List.orderedInsert (fun a b => v a ≤ v b) a t := by
        simp only [List.orderedInsert, hab, if_false]
      rw [hstep, List.filter_cons, ih (fun u hu => hm u (List.mem_cons_of_mem _ hu))]
      simp only [List.filter_cons, hne, decide_False]
      simp

theorem filter_insertionSort_min {α : Type} (v : α → Int) (m : Int) :
    ∀ l : List α, (∀ u ∈ l, m ≤ v u) →
      (l.insertionSort (fun a b => v a ≤ v b)).filter (fun t => decide (v t = m)) =
        l.filter (fun t => decide (v t = m)) := by
  intro l
  induction l with
  | nil => intro _; rfl
  | cons a t ih =>
    intro hm
    have hmt : ∀ u ∈ t, m ≤ v u := fun u hu => hm u (List.mem_cons_of_mem _ hu)
    rw [List.insertionSort, filter_orderedInsert_min v m a]
    · rw [List.filter_cons, List.filter_cons, ih hmt]
    · intro u hu
      exact hmt u ((List.mem_insertionSort _).1 hu)

theorem select_spec {α : Type} (arr : List α) (v : α → Int) (hne : arr ≠ []) :
    ∃ first rest m, arr.insertionSort (fun a b => v a ≤ v b) = first :: rest ∧ v first = m ∧
      (∀ u ∈ arr, m ≤ v u) ∧
      (∃ tl, arr.insertionSort (fun a b => v a ≤ v b) =
        arr.filter (fun t => decide (v t = m)) ++ tl) ∧
      1 + (rest.takeWhile (fun t => decide (v t = m))).length =
        (arr.filter (fun t => decide (v t = m))).length := by
  haveI : IsTotal α (fun a b => v a ≤ v b) := ⟨fun a b => le_total (v a) (v b)⟩
  haveI : IsTrans α (fun a b => v a ≤ v b) := ⟨fun _ _ _ h1 h2 => le_trans h1 h2⟩
  have hsorted := List.sorted_insertionSort (fun a b : α => v a ≤ v b) arr
  have hperm := List.perm_insertionSort (fun a b : α => v a ≤ v b) arr
  cases hS : arr.insertionSort (fun a b => v a ≤ v b) with
  | nil =>
    rw [hS] at hperm
    exact absurd (List.Perm.nil_eq hperm) (fun h => hne h.symm)
  | cons first rest =>
    rw [hS] at hsorted
    have hmin : ∀ u ∈ arr, v first ≤ v u := by
      intro u hu
      have hu2 : u ∈ first :: rest := by
        rw [← hS]
        exact (List.mem_insertionSort _).2 hu
      rcases List.mem_cons.1 hu2 with h | h
      · rw [h]
      · exact (List.sorted_cons.1 hsorted).1 u h
    have hminS : ∀ u ∈ first :: rest, v first ≤ v u := by
      intro u hu
      apply hmin
      rw [← hS] at hu
      exact (List.mem_insertionSort _).1 hu
    have htw := takeWhile_eq_filter_of_sorted v (v first) (first :: rest) hsorted hminS
    have hfl := filter_insertionSort_min v (v first) arr hmin
    rw [hS] at hfl
    rw [hfl] at htw
    refine ⟨first, rest, v first, rfl, rfl, hmin, ?_, ?_⟩
    · have hpre := List.takeWhile_prefix (fun t => decide (v t = v first)) (l := first :: rest)
      rw [htw] at hpre
      obtain ⟨tl, htl⟩ := hpre
      exact ⟨tl, htl.symm⟩
    · rw [← htw]
      simp only [List.takeWhile_cons, decide_True, if_true, List.length_cons]
      omega

theorem nearestTargets_eq {α : Type} (arr : List α) (v : α → Int) (m : Int) (first : α)
    (hfirst : first ∈ arr) (hv : v first = m) (hmin : ∀ u ∈ arr, m ≤ v u) :
    nearestTargets arr v = arr.filter (fun t => decide (v t = m)) := by
  unfold nearestTargets
  apply List.filter_congr
  intro t ht
  by_cases h : v t = m
  · simp only [h, decide_True, List.all_eq_true, decide_eq_true_eq]
    exact hmin
  · simp only [h, decide_False, List.all_eq_false, decide_eq_true_eq, not_le]
    refine ⟨first, hfirst, ?_⟩
    have := hmin t ht
    omega

theorem select_index {α : Type} (arr : List α) (v : α → Int) (hne : arr ≠ []) (r : ℚ) (j : Nat)
    (h1 : r < 1) (hlo : (j : ℚ) / (nearestTargets arr v).length ≤ r)
    (hhi : r < ((j : ℚ) + 1) / (nearestTargets arr v).length) :
    j < (nearestTargets arr v).length ∧
    selectRandomMinimumElement arr v r = (nearestTargets arr v)[j]? ∧
    (arr.insertionSort (fun a b => v a ≤ v b))[j]? = (nearestTargets arr v)[j]? := by
  obtain ⟨first, rest, m, hS, hv, hmin, ⟨tl, htl⟩, hlen⟩ := select_spec arr v hne
  have hfirst : first ∈ arr := by
    rw [← List.mem_insertionSort (fun a b => v a ≤ v b), hS]
    exact List.mem_cons_self _ _
  have hnear := nearestTargets_eq arr v m first hfirst hv hmin
  rw [← hnear] at htl hlen
  have hk : 0 < (nearestTargets arr v).length := by omega
  have hkq : (0 : ℚ) < ((nearestTargets arr v).length : ℚ) := by exact_mod_cast hk
  have hlo2 : (j : ℚ) ≤ r * (nearestTargets arr v).length := (div_le_iff₀ hkq).1 hlo
  have hhi2 : r * (nearestTargets arr v).length < (j : ℚ) + 1 := (lt_div_iff₀ hkq).1 hhi
  have hjk : j < (nearestTargets arr v).length := by
    have : (j : ℚ) < ((nearestTargets arr v).length : ℚ) := by nlinarith
    exact_mod_cast this
  have hfloor : ⌊r * ((nearestTargets arr v).length : ℚ)⌋ = (j : ℤ) := by
    rw [Int.floor_eq_iff]
    constructor
    · exact_mod_cast hlo2
    · exact_mod_cast hhi2
  have hsorted : (arr.insertionSort (fun a b => v a ≤ v b))[j]? = (nearestTargets arr v)[j]? := by
    rw [htl, List.getElem?_append_left hjk]
  refine ⟨hjk, ?_, hsorted⟩
  rw [← hsorted]
  have hlen0 : ¬ arr.length = 0 := fun h => hne (List.length_eq_zero.1 h)
  simp only [selectRandomMinimumElement, hlen0, if_false, hS]
  rw [hv, hlen, hfloor, Int.toNat_ofNat]


theorem mem_nearestTargets {α : Type} (arr : List α) (v : α → Int) (t : α) :
    t ∈ nearestTargets arr v ↔ t ∈ arr ∧ ∀ u ∈ arr, v t ≤ v u := by
  unfold nearestTargets
  rw [List.mem_filter]
  simp

theorem nearestTargets_length_pos {α : Type} (arr : List α) (v : α → Int) (hne : arr ≠ []) :
    0 < (nearestTargets arr v).length := by
  obtain ⟨first, rest, m, hS, hv, hmin, -, -⟩ := select_spec arr v hne
  have hfirst : first ∈ arr := by
    rw [← List.mem_insertionSort (fun a b => v a ≤ v b), hS]
    exact List.mem_cons_self _ _
  apply List.length_pos_of_mem (a := first)
  rw [mem_nearestTargets]
  refine ⟨hfirst, ?_⟩
  intro u hu
  rw [hv]
  exact hmin u hu

theorem select_some {α : Type} (arr : List α) (v : α → Int) (hne : arr ≠ []) (random : ℚ)
    (h0 : 0 ≤ random) (h1 : random < 1) :
    ∃ t, selectRandomMinimumElement arr v random = some t ∧ t ∈ arr ∧
      ∀ u ∈ arr, v t ≤ v u := by
  have hk := nearestTargets_length_pos arr v hne
  have hkq : (0 : ℚ) < ((nearestTargets arr v).length : ℚ) := by exact_mod_cast hk
  have hnn : (0 : ℚ) ≤ random * ((nearestTargets arr v).length : ℚ) :=
    mul_nonneg h0 (le_of_lt hkq)
  have hfl : 0 ≤ ⌊random * ((nearestTargets arr v).length : ℚ)⌋ := Int.floor_nonneg.2 hnn
  obtain ⟨j, hj⟩ := Int.eq_ofNat_of_zero_le hfl
  have hlo : (j : ℚ) / (nearestTargets arr v).length ≤ random := by
    rw [div_le_iff₀ hkq]
    have := Int.floor_le (random * ((nearestTargets arr v).length : ℚ))
    rw [hj] at this
    exact_mod_cast this
  have hhi : random < ((j : ℚ) + 1) / (nearestTargets arr v).length := by
    rw [lt_div_iff₀ hkq]
    have := Int.lt_floor_add_one (random * ((nearestTargets arr v).length : ℚ))
    rw [hj] at this
    exact_mod_cast this
  obtain ⟨hjk, hsel, -⟩ := select_index arr v hne random j h1 hlo hhi
  refine ⟨(nearestTargets arr v)[j], ?_, ?_⟩
  · rw [hsel]
    exact List.getElem?_eq_getElem hjk
  · exact (mem_nearestTargets arr v _).1 (List.getElem_mem hjk)

theorem roundHalfEven_le (y : ℚ) : (roundHalfEven y : ℚ) ≤ y + 1 / 2 := by
  unfold roundHalfEven
  have h1 := Int.floor_le y
  split
  · linarith
  · rename_i h
    push_neg at h
    split
    · push_cast
      linarith
    · rename_i h2
      push_neg at h2
      split
      · linarith
      · push_cast
        linarith

theorem le_roundHalfEven (y : ℚ) (N : ℤ) (h : (N : ℚ) ≤ y) : N ≤ roundHalfEven y := by
  have hN : N ≤ ⌊y⌋ := Int.le_floor.2 h
  unfold roundHalfEven
  split
  · exact hN
  · split
    · omega
    · split
      · exact hN
      · omega

theorem roundHalfEven_le_int (y : ℚ) (N : ℤ) (h : y ≤ (N : ℚ)) : roundHalfEven y ≤ N := by
  have h1 := Int.floor_le y
  have hfl : ⌊y⌋ ≤ N := by
    have : ((⌊y⌋ : ℤ) : ℚ) ≤ (N : ℚ) := le_trans h1 h
    exact_mod_cast this
  unfold roundHalfEven
  split
  · exact hfl
  · rename_i hfrac
    push_neg at hfrac
    have hlt : ⌊y⌋ < N := by
      have : ((⌊y⌋ : ℤ) : ℚ) < (N : ℚ) := by linarith
      exact_mod_cast this
    split
    · omega
    · split
      · exact hfl
      · omega

theorem ulp_pos (x : ℚ) : 0 < ulp x := by
  unfold ulp
  positivity

/-- The binade of a positive number: `2 ^ log ≤ x`. -/
theorem ulp_le (x : ℚ) (hx : 0 < x) : ulp x ≤ max x ((2 : ℚ) ^ (-1022 : ℤ)) * (2 : ℚ) ^ (-52 : ℤ) := by
  unfold ulp
  rw [abs_of_pos hx, sub_eq_add_neg, zpow_add₀ (by norm_num : (2 : ℚ) ≠ 0)]
  apply mul_le_mul_of_nonneg_right _ (by positivity)
  have hlog : (2 : ℚ) ^ Int.log 2 x ≤ x := by
    have := Int.zpow_log_le_self (b := 2) (r := x) (by norm_num) hx
    exact_mod_cast this
  rcases le_total (Int.log 2 x) (-1022) with h | h
  · rw [max_eq_right h]
    exact le_max_right _ _
  · rw [max_eq_left h]
    exact le_trans hlog (le_max_left _ _)

/-- The rounding error upwards is at most half a unit in the last place. -/
theorem roundDouble_le (x : ℚ) (hx : 0 < x) :
    roundDouble x ≤ x + max x ((2 : ℚ) ^ (-1022 : ℤ)) * (2 : ℚ) ^ (-53 : ℤ) := by
  have hu := ulp_pos x
  have h1 := roundHalfEven_le (x / ulp x)
  have h2 : roundDouble x ≤ (x / ulp x + 1 / 2) * ulp x := by
    unfold roundDouble
    exact mul_le_mul_of_nonneg_right h1 (le_of_lt hu)
  have h3 : (x / ulp x + 1 / 2) * ulp x = x + ulp x / 2 := by
    field_simp
    ring
  have h4 := ulp_le x hx
  have h5 : (2 : ℚ) ^ (-53 : ℤ) = (2 : ℚ) ^ (-52 : ℤ) / 2 := by
    rw [show (-53 : ℤ) = -52 + -1 by norm_num, zpow_add₀ (by norm_num : (2 : ℚ) ≠ 0)]
    norm_num
  rw [h3] at h2
  rw [h5]
  generalize max x ((2 : ℚ) ^ (-1022 : ℤ)) = m at h4 ⊢
  generalize (2 : ℚ) ^ (-52 : ℤ) = p at h4 ⊢
  have h6 : m * (p / 2) = m * p / 2 := by ring
  rw [h6]
  linarith

theorem roundDouble_zero : roundDouble 0 = 0 := by
  unfold roundDouble roundHalfEven
  simp

/-- A product below `k` by one part in `2 ^ 53` is not rounded up to `k`. -/
theorem roundDouble_lt (x k : ℚ) (hx : 0 ≤ x) (hk : 1 ≤ k)
    (h : x ≤ k * (1 - (2 : ℚ) ^ (-53 : ℤ))) : roundDouble x < k := by
  rcases eq_or_lt_of_le hx with h0 | h0
  · rw [← h0, roundDouble_zero]
    linarith
  · have h1 := roundDouble_le x h0
    have hp : (0 : ℚ) < (2 : ℚ) ^ (-53 : ℤ) := by positivity
    have hxk : x < k := by nlinarith
    have hsmall : (2 : ℚ) ^ (-1022 : ℤ) < 1 := by
      rw [zpow_neg]
      apply inv_lt_one_of_one_lt₀
      exact one_lt_zpow₀ (by norm_num) (by norm_num)
    have hmax : max x ((2 : ℚ) ^ (-1022 : ℤ)) < k := max_lt hxk (by linarith)
    nlinarith

theorem roundDouble_nonneg (x : ℚ) (hx : 0 ≤ x) : 0 ≤ roundDouble x := by
  unfold roundDouble
  apply mul_nonneg _ (le_of_lt (ulp_pos x))
  have : (0 : ℤ) ≤ roundHalfEven (x / ulp x) :=
    le_roundHalfEven _ 0 (by
      push_cast
      exact div_nonneg hx (le_of_lt (ulp_pos x)))
  exact_mod_cast this

/-- Below `2 ^ 53` the distance between doubles is one over a power of two. -/
theorem ulp_eq_inv (x : ℚ) (hx : |x| < (2 : ℚ) ^ (53 : ℕ)) :
    ∃ t : ℕ, ulp x = ((2 : ℚ) ^ t)⁻¹ := by
  have hlog : Int.log 2 |x| ≤ 52 := by
    rcases eq_or_lt_of_le (abs_nonneg x) with h0 | h0
    · rw [← h0, Int.log_zero_right]
      norm_num
    · have h1 : Int.log 2 |x| < 53 := by
        rw [← Int.lt_zpow_iff_log_lt (by norm_num) h0]
        have : ((2 : ℕ) : ℚ) ^ (53 : ℤ) = (2 : ℚ) ^ (53 : ℕ) := by norm_num
        rw [this]
        exact hx
      omega
  have hE : max (Int.log 2 |x|) (-1022) - 52 ≤ 0 := by
    have := max_le hlog (by norm_num : (-1022 : ℤ) ≤ 52)
    omega
  refine ⟨(-(max (Int.log 2 |x|) (-1022) - 52)).toNat, ?_⟩
  unfold ulp
  rw [← zpow_natCast, ← zpow_neg, Int.toNat_of_nonneg (by omega), neg_neg]

/-- Rounding to the nearest double does not cross an integer below `2 ^ 53`. -/
theorem roundDouble_int (x : ℚ) (n : ℤ) (hx : |x| < (2 : ℚ) ^ (53 : ℕ)) :
    ((n : ℚ) ≤ x → (n : ℚ) ≤ roundDouble x) ∧ (x ≤ (n : ℚ) → roundDouble x ≤ (n : ℚ)) := by
  obtain ⟨t, ht⟩ := ulp_eq_inv x hx
  have hpos : (0 : ℚ) < (2 : ℚ) ^ t := by positivity
  have hdiv : ∀ z : ℚ, z / ulp x = z * (2 : ℚ) ^ t := by
    intro z
    rw [ht, div_inv_eq_mul]
  have hn : (n : ℚ) = ((n * 2 ^ t : ℤ) : ℚ) * ulp x := by
    rw [ht]
    push_cast
    field_simp
  unfold roundDouble
  constructor
  · intro h
    have h1 : (((n * 2 ^ t : ℤ)) : ℚ) ≤ x / ulp x := by
      rw [hdiv]
      push_cast
      exact mul_le_mul_of_nonneg_right h (le_of_lt hpos)
    have h2 := le_roundHalfEven _ _ h1
    have h3 : (((n * 2 ^ t : ℤ)) : ℚ) ≤ (roundHalfEven (x / ulp x) : ℚ) := by exact_mod_cast h2
    calc (n : ℚ) = ((n * 2 ^ t : ℤ) : ℚ) * ulp x := hn
      _ ≤ (roundHalfEven (x / ulp x) : ℚ) * ulp x :=
        mul_le_mul_of_nonneg_right h3 (le_of_lt (ulp_pos x))
  · intro h
    have h1 : x / ulp x ≤ (((n * 2 ^ t : ℤ)) : ℚ) := by
      rw [hdiv]
      push_cast
      exact mul_le_mul_of_nonneg_right h (le_of_lt hpos)
    have h2 := roundHalfEven_le_int _ _ h1
    have h3 : (roundHalfEven (x / ulp x) : ℚ) ≤ (((n * 2 ^ t : ℤ)) : ℚ) := by exact_mod_cast h2
    calc (roundHalfEven (x / ulp x) : ℚ) * ulp x
        ≤ ((n * 2 ^ t : ℤ) : ℚ) * ulp x :=
          mul_le_mul_of_nonneg_right h3 (le_of_lt (ulp_pos x))
      _ = (n : ℚ) := hn.symm

/-- A double below 1 is below 1 by at least `2 ^ (-53)`. -/
theorem IsDouble.le_pred_one {r : ℚ} (hd : IsDouble r) (h1 : r < 1) :
    r ≤ 1 - (2 : ℚ) ^ (-53 : ℤ) := by
  obtain ⟨m, e, hm, -, -, rfl⟩ := hd
  have h53 : (2 : ℚ) ^ (-53 : ℤ) = ((2 : ℚ) ^ (53 : ℕ))⁻¹ := by
    rw [zpow_neg, zpow_ofNat]
  have hP : (0 : ℚ) < (2 : ℚ) ^ (53 : ℕ) := by positivity
  rcases le_or_lt (-53) e with he | he
  · -- a multiple of `2 ^ (-53)`
    obtain ⟨t, ht⟩ : ∃ t : ℕ, e + 53 = t := ⟨(e + 53).toNat, (Int.toNat_of_nonneg (by omega)).symm⟩
    have hmul : (m : ℚ) * (2 : ℚ) ^ e * (2 : ℚ) ^ (53 : ℕ) = ((m * 2 ^ t : ℤ) : ℚ) := by
      push_cast
      rw [mul_assoc, ← zpow_natCast (2 : ℚ) 53, ← zpow_add₀ (by norm_num : (2 : ℚ) ≠ 0),
        ← zpow_natCast (2 : ℚ) t, ← ht]
      norm_num
    have hlt : ((m * 2 ^ t : ℤ) : ℚ) < (((2 : ℤ) ^ (53 : ℕ) : ℤ) : ℚ) := by
      rw [← hmul]
      push_cast
      calc (m : ℚ) * (2 : ℚ) ^ e * (2 : ℚ) ^ (53 : ℕ) < 1 * (2 : ℚ) ^ (53 : ℕ) :=
            mul_lt_mul_of_pos_right h1 hP
        _ = (2 : ℚ) ^ (53 : ℕ) := one_mul _
    have hlt2 : m * 2 ^ t < (2 : ℤ) ^ (53 : ℕ) := by exact_mod_cast hlt
    have hle : m * 2 ^ t ≤ (2 : ℤ) ^ (53 : ℕ) - 1 := by omega
    have hle2 : ((m * 2 ^ t : ℤ) : ℚ) ≤ (2 : ℚ) ^ (53 : ℕ) - 1 := by exact_mod_cast hle
    rw [← hmul] at hle2
    rw [h53]
    have : (m : ℚ) * (2 : ℚ) ^ e ≤ ((2 : ℚ) ^ (53 : ℕ) - 1) / (2 : ℚ) ^ (53 : ℕ) :=
      (le_div_iff₀ hP).2 hle2
    calc (m : ℚ) * (2 : ℚ) ^ e ≤ ((2 : ℚ) ^ (53 : ℕ) - 1) / (2 : ℚ) ^ (53 : ℕ) := this
      _ = 1 - ((2 : ℚ) ^ (53 : ℕ))⁻¹ := by field_simp
  · -- below one half
    have hm2 : (m : ℚ) < (2 : ℚ) ^ (53 : ℕ) := by
      have : m < (2 : ℤ) ^ (53 : ℕ) := lt_of_le_of_lt (le_abs_self m) hm
      exact_mod_cast this
    have he2 : (2 : ℚ) ^ e ≤ (2 : ℚ) ^ (-54 : ℤ) :=
      zpow_le_zpow_right₀ (by norm_num) (by omega)
    have hpe : (0 : ℚ) < (2 : ℚ) ^ e := by positivity
    have h54 : (2 : ℚ) ^ (53 : ℕ) * (2 : ℚ) ^ (-54 : ℤ) = 1 / 2 := by
      rw [← zpow_natCast (2 : ℚ) 53, ← zpow_add₀ (by norm_num : (2 : ℚ) ≠ 0)]
      norm_num
    have hhalf : (m : ℚ) * (2 : ℚ) ^ e ≤ 1 / 2 := by
      rcases le_or_lt (m : ℚ) 0 with hneg | hposm
      · have : (m : ℚ) * (2 : ℚ) ^ e ≤ 0 := mul_nonpos_of_nonpos_of_nonneg hneg (le_of_lt hpe)
        linarith
      · calc (m : ℚ) * (2 : ℚ) ^ e ≤ (2 : ℚ) ^ (53 : ℕ) * (2 : ℚ) ^ (-54 : ℤ) :=
              mul_le_mul (le_of_lt hm2) he2 (le_of_lt hpe) (le_of_lt hP)
          _ = 1 / 2 := h54
    have hsmall : (2 : ℚ) ^ (-53 : ℤ) ≤ 1 / 2 := by
      rw [h53]
      rw [inv_le_comm₀ hP (by norm_num)]
      norm_num
    generalize (2 : ℚ) ^ (-53 : ℤ) = p at hsmall ⊢
    generalize (m : ℚ) * (2 : ℚ) ^ e = w at hhalf ⊢
    linarith

theorem select_double_index {α : Type} (arr : List α) (v : α → Int) (hne : arr ≠ []) (r : ℚ)
    (j : Nat) (hjk : j < (nearestTargets arr v).length)
    (hfl : ⌊roundDouble (r * ((nearestTargets arr v).length : ℚ))⌋ = (j : ℤ)) :
    selectRandomMinimumElementDouble arr v r = (nearestTargets arr v)[j]? ∧
    (arr.insertionSort (fun a b => v a ≤ v b))[j]? = (nearestTargets arr v)[j]? := by
  obtain ⟨first, rest, m, hS, hv, hmin, ⟨tl, htl⟩, hlen⟩ := select_spec arr v hne
  have hfirst : first ∈ arr := by
    rw [← List.mem_insertionSort (fun a b => v a ≤ v b), hS]
    exact List.mem_cons_self _ _
  have hnear := nearestTargets_eq arr v m first hfirst hv hmin
  rw [← hnear] at htl hlen
  have hsorted : (arr.insertionSort (fun a b => v a ≤ v b))[j]? = (nearestTargets arr v)[j]? := by
    rw [htl, List.getElem?_append_left hjk]
  refine ⟨?_, hsorted⟩
  rw [← hsorted]
  have hlen0 : ¬ arr.length = 0 := fun h => hne (List.length_eq_zero.1 h)
  simp only [selectRandomMinimumElementDouble, hlen0, if_false, hS]
  rw [hv, hlen, hfl, Int.toNat_ofNat]

/-- Each result of the rounding version is the result of the exact version at the
draw `roundDouble (r * k) / k`, where `k` targets are at minimum distance. -/
theorem select_double_exact {α : Type} (arr : List α) (v : α → Int) (hne : arr ≠ []) (r : ℚ) :
    selectRandomMinimumElementDouble arr v r =
      selectRandomMinimumElement arr v
        (roundDouble (r * ((nearestTargets arr v).length : ℚ)) /
          ((nearestTargets arr v).length : ℚ)) := by
  obtain ⟨first, rest, m, hS, hv, hmin, -, hlen⟩ := select_spec arr v hne
  have hfirst : first ∈ arr := by
    rw [← List.mem_insertionSort (fun a b => v a ≤ v b), hS]
    exact List.mem_cons_self _ _
  have hnear := nearestTargets_eq arr v m first hfirst hv hmin
  rw [← hnear] at hlen
  have hk := nearestTargets_length_pos arr v hne
  have hkq : ((nearestTargets arr v).length : ℚ) ≠ 0 := by
    have : (0 : ℚ) < ((nearestTargets arr v).length : ℚ) := by exact_mod_cast hk
    exact ne_of_gt this
  have hlen0 : ¬ arr.length = 0 := fun h => hne (List.length_eq_zero.1 h)
  simp only [selectRandomMinimumElementDouble, selectRandomMinimumElement, hlen0, if_false, hS]
  rw [hv, hlen, div_mul_cancel₀ _ hkq]

theorem floor_roundDouble_eq (x : ℚ) (j : ℕ) (hx : x < (2 : ℚ) ^ (53 : ℕ)) (hlo : (j : ℚ) ≤ x)
    (hhi : x ≤ ((j : ℚ) + 1) * (1 - (2 : ℚ) ^ (-53 : ℤ))) : ⌊roundDouble x⌋ = (j : ℤ) := by
  have hj0 : (0 : ℚ) ≤ (j : ℚ) := Nat.cast_nonneg j
  have hx0 : 0 ≤ x := le_trans hj0 hlo
  have habs : |x| < (2 : ℚ) ^ (53 : ℕ) := by
    rw [abs_of_nonneg hx0]
    exact hx
  have h1 := (roundDouble_int x (j : ℤ) habs).1 (by exact_mod_cast hlo)
  have h2 := roundDouble_lt x ((j : ℚ) + 1) hx0 (by linarith) hhi
  rw [Int.floor_eq_iff]
  constructor
  · exact h1
  · exact_mod_cast h2

theorem floor_roundDouble_near (x : ℚ) (j : ℕ) (hx : x < (2 : ℚ) ^ (53 : ℕ)) (hlo : (j : ℚ) ≤ x)
    (hhi : x ≤ (j : ℚ) + 1) :
    ⌊roundDouble x⌋ = (j : ℤ) ∨ roundDouble x = (j : ℚ) + 1 := by
  have hj0 : (0 : ℚ) ≤ (j : ℚ) := Nat.cast_nonneg j
  have hx0 : 0 ≤ x := le_trans hj0 hlo
  have habs : |x| < (2 : ℚ) ^ (53 : ℕ) := by
    rw [abs_of_nonneg hx0]
    exact hx
  have h1 := (roundDouble_int x (j : ℤ) habs).1 (by exact_mod_cast hlo)
  have h2 := (roundDouble_int x ((j : ℤ) + 1) habs).2 (by push_cast; exact hhi)
  rcases lt_or_eq_of_le h2 with h | h
  · left
    rw [Int.floor_eq_iff]
    exact ⟨h1, by exact_mod_cast h⟩
  · right
    rw [h]
    push_cast
    rfl

theorem nearestTargets_length_le {α : Type} (arr : List α) (v : α → Int) :
    (nearestTargets arr v).length ≤ arr.length := by
  unfold nearestTargets
  exact List.length_filter_le _ _

/-- A draw `r` with `j ≤ r * k ≤ (j + 1) * (1 - 2 ^ (-53))` selects the `j`-th of the
`k` targets at minimum distance. -/
theorem select_double_interior {α : Type} (arr : List α) (v : α → Int) (hne : arr ≠ [])
    (hlen : arr.length < 2 ^ 32) (r : ℚ) (j : Nat) (h1 : r < 1)
    (hlo : (j : ℚ) ≤ r * ((nearestTargets arr v).length : ℚ))
    (hhi : r * ((nearestTargets arr v).length : ℚ) ≤
      ((j : ℚ) + 1) * (1 - (2 : ℚ) ^ (-53 : ℤ))) :
    j < (nearestTargets arr v).length ∧
    selectRandomMinimumElementDouble arr v r = (nearestTargets arr v)[j]? ∧
    (arr.insertionSort (fun a b => v a ≤ v b))[j]? = (nearestTargets arr v)[j]? := by
  have hk := nearestTargets_length_pos arr v hne
  have hkq : (0 : ℚ) < ((nearestTargets arr v).length : ℚ) := by exact_mod_cast hk
  have hkle := nearestTargets_length_le arr v
  have hk32 : ((nearestTargets arr v).length : ℚ) < (2 : ℚ) ^ (53 : ℕ) := by
    have : (nearestTargets arr v).length < 2 ^ 53 := by omega
    exact_mod_cast this
  have hxk : r * ((nearestTargets arr v).length : ℚ) < ((nearestTargets arr v).length : ℚ) := by
    calc r * ((nearestTargets arr v).length : ℚ) < 1 * ((nearestTargets arr v).length : ℚ) :=
          mul_lt_mul_of_pos_right h1 hkq
      _ = _ := one_mul _
  have hjk : j < (nearestTargets arr v).length := by
    have : (j : ℚ) < ((nearestTargets arr v).length : ℚ) := lt_of_le_of_lt hlo hxk
    exact_mod_cast this
  have hfl := floor_roundDouble_eq _ j (lt_trans hxk hk32) hlo hhi
  exact ⟨hjk, select_double_index arr v hne r j hjk hfl⟩

/-- A double draw in `[0, 1)` selects a target at minimum distance. -/
theorem select_double_some {α : Type} (arr : List α) (v : α → Int) (hne : arr ≠ []) (r : ℚ)
    (hd : IsDouble r) (h0 : 0 ≤ r) (h1 : r < 1) :
    ∃ j, j < (nearestTargets arr v).length ∧
      ⌊roundDouble (r * ((nearestTargets arr v).length : ℚ))⌋ = (j : ℤ) ∧
      selectRandomMinimumElementDouble arr v r = (nearestTargets arr v)[j]? := by
  have hk := nearestTargets_length_pos arr v hne
  have hkq : (0 : ℚ) < ((nearestTargets arr v).length : ℚ) := by exact_mod_cast hk
  have hk1 : (1 : ℚ) ≤ ((nearestTargets arr v).length : ℚ) := by exact_mod_cast hk
  have hr := hd.le_pred_one h1
  have hx0 : 0 ≤ r * ((nearestTargets arr v).length : ℚ) := mul_nonneg h0 (le_of_lt hkq)
  have hxle : r * ((nearestTargets arr v).length : ℚ) ≤
      ((nearestTargets arr v).length : ℚ) * (1 - (2 : ℚ) ^ (-53 : ℤ)) := by
    rw [mul_comm]
    exact mul_le_mul_of_nonneg_left hr (le_of_lt hkq)
  have hlt := roundDouble_lt _ _ hx0 hk1 hxle
  have hnn := roundDouble_nonneg _ hx0
  obtain ⟨j, hj⟩ := Int.eq_ofNat_of_zero_le (Int.floor_nonneg.2 hnn)
  have hjk : j < (nearestTargets arr v).length := by
    have h2 := Int.floor_le (roundDouble (r * ((nearestTargets arr v).length : ℚ)))
    rw [hj] at h2
    have : (j : ℚ) < ((nearestTargets arr v).length : ℚ) := by
      have h3 : ((j : ℤ) : ℚ) = (j : ℚ) := by norm_cast
      rw [h3] at h2
      exact lt_of_le_of_lt h2 hlt
    exact_mod_cast this
  exact ⟨j, hjk, hj, (select_double_index arr v hne r j hjk hj).1⟩

theorem drawFor_spec (j k : Nat) (hjk : j < k) (hk : k < 2 ^ 32) :
    IsDouble (drawFor j k) ∧ 0 ≤ drawFor j k ∧ drawFor j k < 1 ∧
    (j : ℚ) ≤ drawFor j k * (k : ℚ) ∧
    drawFor j k * (k : ℚ) ≤ ((j : ℚ) + 1) * (1 - (2 : ℚ) ^ (-53 : ℤ)) := by
  have hP : (0 : ℚ) < (2 : ℚ) ^ (53 : ℕ) := by positivity
  have hkpos : (0 : ℚ) < (k : ℚ) := by
    have : 0 < k := by omega
    exact_mod_cast this
  have hj0 : (0 : ℚ) ≤ (j : ℚ) := Nat.cast_nonneg j
  have hjk1 : (j : ℚ) + 1 ≤ (k : ℚ) := by
    have : j + 1 ≤ k := hjk
    exact_mod_cast this
  have hkP : (k : ℚ) + (k : ℚ) ≤ (2 : ℚ) ^ (53 : ℕ) := by
    have : k + k ≤ 2 ^ 53 := by omega
    exact_mod_cast this
  have h53 : (2 : ℚ) ^ (-53 : ℤ) = ((2 : ℚ) ^ (53 : ℕ))⁻¹ := by
    rw [zpow_neg, zpow_ofNat]
  generalize hc : ⌈(j : ℚ) * (2 : ℚ) ^ (53 : ℕ) / (k : ℚ)⌉ = c
  have hdef : drawFor j k = (c : ℚ) / (2 : ℚ) ^ (53 : ℕ) := by
    unfold drawFor
    rw [hc]
  have hle : (j : ℚ) * (2 : ℚ) ^ (53 : ℕ) / (k : ℚ) ≤ (c : ℚ) := by
    rw [← hc]
    exact Int.le_ceil _
  have hlt : (c : ℚ) < (j : ℚ) * (2 : ℚ) ^ (53 : ℕ) / (k : ℚ) + 1 := by
    rw [← hc]
    exact Int.ceil_lt_add_one _
  have hle2 : (j : ℚ) * (2 : ℚ) ^ (53 : ℕ) ≤ (c : ℚ) * (k : ℚ) := (div_le_iff₀ hkpos).1 hle
  have hlt2 : (c : ℚ) * (k : ℚ) < (j : ℚ) * (2 : ℚ) ^ (53 : ℕ) + (k : ℚ) := by
    have := mul_lt_mul_of_pos_right hlt hkpos
    rw [add_mul, div_mul_cancel₀ _ (ne_of_gt hkpos), one_mul] at this
    exact this
  have hc0 : (0 : ℚ) ≤ (c : ℚ) := le_trans (div_nonneg (mul_nonneg hj0 (le_of_lt hP)) (le_of_lt hkpos)) hle
  have hcP : (c : ℚ) < (2 : ℚ) ^ (53 : ℕ) := by
    by_contra hcon
    have hcon2 : (2 : ℚ) ^ (53 : ℕ) ≤ (c : ℚ) := not_lt.1 hcon
    have h1 : (2 : ℚ) ^ (53 : ℕ) * (k : ℚ) ≤ (c : ℚ) * (k : ℚ) :=
      mul_le_mul_of_nonneg_right hcon2 (le_of_lt hkpos)
    have h2 : (j : ℚ) * (2 : ℚ) ^ (53 : ℕ) ≤ ((k : ℚ) - 1) * (2 : ℚ) ^ (53 : ℕ) :=
      mul_le_mul_of_nonneg_right (by linarith) (le_of_lt hP)
    generalize (2 : ℚ) ^ (53 : ℕ) = Q at *
    nlinarith
  refine ⟨?_, ?_, ?_, ?_, ?_⟩
  · refine ⟨c, -53, ?_, by norm_num, by norm_num, ?_⟩
    · have h1 : (0 : ℤ) ≤ c := by exact_mod_cast hc0
      rw [abs_of_nonneg h1]
      exact_mod_cast hcP
    · rw [hdef, h53, div_eq_mul_inv]
  · rw [hdef]
    exact div_nonneg hc0 (le_of_lt hP)
  · rw [hdef, div_lt_one hP]
    exact hcP
  · rw [hdef, div_mul_eq_mul_div, le_div_iff₀ hP]
    exact hle2
  · rw [hdef, div_mul_eq_mul_div, div_le_iff₀ hP, h53]
    have h3 : ((j : ℚ) + 1) * (1 - ((2 : ℚ) ^ (53 : ℕ))⁻¹) * (2 : ℚ) ^ (53 : ℕ) =
        ((j : ℚ) + 1) * ((2 : ℚ) ^ (53 : ℕ) - 1) := by
      field_simp
    rw [h3]
    generalize (2 : ℚ) ^ (53 : ℕ) = Q at *
    nlinarith

/-- For a double draw in `[0, 1)` the rounding version returns what the exact version
returns at some draw in `[0, 1)`. -/
theorem select_double_draw {α : Type} (arr : List α) (v : α → Int) (hne : arr ≠ []) (r : ℚ)
    (hd : IsDouble r) (h0 : 0 ≤ r) (h1 : r < 1) :
    ∃ q : ℚ, 0 ≤ q ∧ q < 1 ∧
      selectRandomMinimumElementDouble arr v r = selectRandomMinimumElement arr v q := by
  have hk := nearestTargets_length_pos arr v hne
  have hkq : (0 : ℚ) < ((nearestTargets arr v).length : ℚ) := by exact_mod_cast hk
  have hk1 : (1 : ℚ) ≤ ((nearestTargets arr v).length : ℚ) := by exact_mod_cast hk
  have hx0 : 0 ≤ r * ((nearestTargets arr v).length : ℚ) := mul_nonneg h0 (le_of_lt hkq)
  have hxle : r * ((nearestTargets arr v).length : ℚ) ≤
      ((nearestTargets arr v).length : ℚ) * (1 - (2 : ℚ) ^ (-53 : ℤ)) := by
    rw [mul_comm]
    exact mul_le_mul_of_nonneg_left (hd.le_pred_one h1) (le_of_lt hkq)
  refine ⟨_, div_nonneg (roundDouble_nonneg _ hx0) (le_of_lt hkq), ?_,
    select_double_exact arr v hne r⟩
  rw [div_lt_one hkq]
  exact roundDouble_lt _ _ hx0 hk1 hxle

/-- The index `j` that a double draw `r` in `[0, 1)` selects among `k` targets at
minimum distance has `j / k * (1 - 2 ^ (-53)) ≤ r < (j + 1) / k`. -/
theorem select_double_bounds {α : Type} (arr : List α) (v : α → Int) (hne : arr ≠ [])
    (hlen : arr.length < 2 ^ 32) (r : ℚ) (hd : IsDouble r) (h0 : 0 ≤ r) (h1 : r < 1) :
    ∃ j, j < (nearestTargets arr v).length ∧
      ⌊roundDouble (r * ((nearestTargets arr v).length : ℚ))⌋ = (j : ℤ) ∧
      selectRandomMinimumElementDouble arr v r = (nearestTargets arr v)[j]? ∧
      (j : ℚ) / (nearestTargets arr v).length * (1 - (2 : ℚ) ^ (-53 : ℤ)) ≤ r ∧
      r < ((j : ℚ) + 1) / (nearestTargets arr v).length := by
  have hk := nearestTargets_length_pos arr v hne
  have hkq : (0 : ℚ) < ((nearestTargets arr v).length : ℚ) := by exact_mod_cast hk
  have hkle := nearestTargets_length_le arr v
  have hk53 : ((nearestTargets arr v).length : ℚ) < (2 : ℚ) ^ (53 : ℕ) := by
    have : (nearestTargets arr v).length < 2 ^ 53 := by omega
    exact_mod_cast this
  have hx0 : 0 ≤ r * ((nearestTargets arr v).length : ℚ) := mul_nonneg h0 (le_of_lt hkq)
  have hxk : r * ((nearestTargets arr v).length : ℚ) < ((nearestTargets arr v).length : ℚ) := by
    calc r * ((nearestTargets arr v).length : ℚ) < 1 * ((nearestTargets arr v).length : ℚ) :=
          mul_lt_mul_of_pos_right h1 hkq
      _ = _ := one_mul _
  have habs : |r * ((nearestTargets arr v).length : ℚ)| < (2 : ℚ) ^ (53 : ℕ) := by
    rw [abs_of_nonneg hx0]
    exact lt_trans hxk hk53
  obtain ⟨j, hjk, hfl, hsel⟩ := select_double_some arr v hne r hd h0 h1
  have hfl1 := Int.floor_le (roundDouble (r * ((nearestTargets arr v).length : ℚ)))
  have hfl2 := Int.lt_floor_add_one (roundDouble (r * ((nearestTargets arr v).length : ℚ)))
  rw [hfl] at hfl1 hfl2
  have hcast : ((j : ℤ) : ℚ) = (j : ℚ) := by norm_cast
  rw [hcast] at hfl1 hfl2
  refine ⟨j, hjk, hfl, hsel, ?_, ?_⟩
  · rcases Nat.eq_zero_or_pos j with hj | hj
    · rw [hj]
      simpa using h0
    · by_contra hcon
      have hcon2 : r < (j : ℚ) / (nearestTargets arr v).length * (1 - (2 : ℚ) ^ (-53 : ℤ)) :=
        not_le.1 hcon
      have h2 := mul_lt_mul_of_pos_right hcon2 hkq
      have h3 : (j : ℚ) / (nearestTargets arr v).length * (1 - (2 : ℚ) ^ (-53 : ℤ)) *
          (nearestTargets arr v).length = (j : ℚ) * (1 - (2 : ℚ) ^ (-53 : ℤ)) := by
        generalize (2 : ℚ) ^ (-53 : ℤ) = p
        field_simp
      rw [h3] at h2
      have hj1 : (1 : ℚ) ≤ (j : ℚ) := by exact_mod_cast hj
      have h4 := roundDouble_lt _ (j : ℚ) hx0 hj1 (le_of_lt h2)
      exact absurd hfl1 (not_le.2 h4)
  · by_contra hcon
    have hcon2 : ((j : ℚ) + 1) / (nearestTargets arr v).length ≤ r := not_lt.1 hcon
    have h2 : (j : ℚ) + 1 ≤ r * (nearestTargets arr v).length := (div_le_iff₀ hkq).1 hcon2
    have h3 := (roundDouble_int _ ((j : ℤ) + 1) habs).1 (by push_cast; exact h2)
    have h4 : (((j : ℤ) + 1 : ℤ) : ℚ) = (j : ℚ) + 1 := by push_cast; rfl
    rw [h4] at h3
    exact absurd h3 (not_le.2 hfl2)

/-- C9, amended: for a non-empty array of fewer than `2 ^ 32` targets and an
integer-valued distance function, `selectRandomMinimumElement`, with the product
`Math.random() * i` rounded to a double as the source computes it, returns for every
double draw `random` in `[0, 1)` an element of the array whose distance is the minimum
over the array. When `k` targets share the minimum distance, a draw in
`[j/k, (j+1)/k)` has `j < k` and returns the `j`-th of them, which is the `j`-th element
of the sorted array, or else the product rounds up to `j + 1 < k` and the draw returns
the `(j+1)`-th; a draw in `[j/k, (j+1)/k * (1 - 2 ^ (-53))]` returns the `j`-th; every
`j < k` has a double draw in `[j/k, (j+1)/k)` that returns the `j`-th; and the index `j`
that a double draw `random` in `[0, 1)` selects has
`j/k * (1 - 2 ^ (-53)) ≤ random < (j+1)/k`, so that the draws of each target are those of
an interval of length `1/k`, up to the fraction `2 ^ (-53)` at its ends. -/
theorem nearest_target_selection {α : Type} (arr : List α) (valueFunction : α → Int)
    (hne : arr ≠ []) (hlen : arr.length < 2 ^ 32) :
    (∀ random : ℚ, IsDouble random → 0 ≤ random → random < 1 →
      ∃ t, selectRandomMinimumElementDouble arr valueFunction random = some t ∧ t ∈ arr ∧
        ∀ u ∈ arr, valueFunction t ≤ valueFunction u) ∧
    (∀ (random : ℚ) (j : Nat), IsDouble random → random < 1 →
      (j : ℚ) / (nearestTargets arr valueFunction).length ≤ random →
      random < ((j : ℚ) + 1) / (nearestTargets arr valueFunction).length →
      j < (nearestTargets arr valueFunction).length ∧
      (arr.insertionSort (fun a b => valueFunction a ≤ valueFunction b))[j]? =
        (nearestTargets arr valueFunction)[j]? ∧
      (selectRandomMinimumElementDouble arr valueFunction random =
          (nearestTargets arr valueFunction)[j]? ∨
        (roundDouble (random * ((nearestTargets arr valueFunction).length : ℚ)) = (j : ℚ) + 1 ∧
          j + 1 < (nearestTargets arr valueFunction).length ∧
          selectRandomMinimumElementDouble arr valueFunction random =
            (nearestTargets arr valueFunction)[j + 1]?))) ∧
    (∀ (random : ℚ) (j : Nat), random < 1 →
      (j : ℚ) / (nearestTargets arr valueFunction).length ≤ random →
      random ≤ ((j : ℚ) + 1) / (nearestTargets arr valueFunction).length *
        (1 - (2 : ℚ) ^ (-53 : ℤ)) →
      selectRandomMinimumElementDouble arr valueFunction random =
        (nearestTargets arr valueFunction)[j]?) ∧
    (∀ j : Nat, j < (nearestTargets arr valueFunction).length →
      ∃ random : ℚ, IsDouble random ∧ 0 ≤ random ∧ random < 1 ∧
        (j : ℚ) / (nearestTargets arr valueFunction).length ≤ random ∧
        random < ((j : ℚ) + 1) / (nearestTargets arr valueFunction).length ∧
        selectRandomMinimumElementDouble arr valueFunction random =
          (nearestTargets arr valueFunction)[j]?) ∧
    (∀ random : ℚ, IsDouble random → 0 ≤ random → random < 1 →
      ∃ j, j < (nearestTargets arr valueFunction).length ∧
        ⌊roundDouble (random * ((nearestTargets arr valueFunction).length : ℚ))⌋ = (j : ℤ) ∧
        selectRandomMinimumElementDouble arr valueFunction random =
          (nearestTargets arr valueFunction)[j]? ∧
        (j : ℚ) / (nearestTargets arr valueFunction).length * (1 - (2 : ℚ) ^ (-53 : ℤ)) ≤
          random ∧
        random < ((j : ℚ) + 1) / (nearestTargets arr valueFunction).length) ∧
    (∀ t, t ∈ nearestTargets arr valueFunction ↔
      t ∈ arr ∧ ∀ u ∈ arr, valueFunction t ≤ valueFunction u) := by
  have hk := nearestTargets_length_pos arr valueFunction hne
  have hkq : (0 : ℚ) < ((nearestTargets arr valueFunction).length : ℚ) := by exact_mod_cast hk
  have hkle := nearestTargets_length_le arr valueFunction
  have hk32 : (nearestTargets arr valueFunction).length < 2 ^ 32 := lt_of_le_of_lt hkle hlen
  have hk53 : ((nearestTargets arr valueFunction).length : ℚ) < (2 : ℚ) ^ (53 : ℕ) := by
    have : (nearestTargets arr valueFunction).length < 2 ^ 53 := by omega
    exact_mod_cast this
  have hsmall : (0 : ℚ) < (2 : ℚ) ^ (-53 : ℤ) := by positivity
  refine ⟨?_, ?_, ?_, ?_, select_double_bounds arr valueFunction hne hlen,
    mem_nearestTargets arr valueFunction⟩
  · intro random hd h0 h1
    obtain ⟨j, hjk, -, hsel⟩ := select_double_some arr valueFunction hne random hd h0 h1
    refine ⟨(nearestTargets arr valueFunction)[j], ?_, ?_⟩
    · rw [hsel]
      exact List.getElem?_eq_getElem hjk
    · exact (mem_nearestTargets arr valueFunction _).1 (List.getElem_mem hjk)
  · intro random j hd h1 hlo hhi
    have hlo2 : (j : ℚ) ≤ random * (nearestTargets arr valueFunction).length :=
      (div_le_iff₀ hkq).1 hlo
    have hhi2 : random * (nearestTargets arr valueFunction).length < (j : ℚ) + 1 :=
      (lt_div_iff₀ hkq).1 hhi
    have h0 : 0 ≤ random :=
      le_trans (div_nonneg (Nat.cast_nonneg j) (le_of_lt hkq)) hlo
    have hxk : random * ((nearestTargets arr valueFunction).length : ℚ) <
        ((nearestTargets arr valueFunction).length : ℚ) := by
      calc random * ((nearestTargets arr valueFunction).length : ℚ)
          < 1 * ((nearestTargets arr valueFunction).length : ℚ) :=
            mul_lt_mul_of_pos_right h1 hkq
        _ = _ := one_mul _
    have hjk : j < (nearestTargets arr valueFunction).length := by
      have : (j : ℚ) < ((nearestTargets arr valueFunction).length : ℚ) :=
        lt_of_le_of_lt hlo2 hxk
      exact_mod_cast this
    obtain ⟨i, hik, hfl, hsel⟩ := select_double_some arr valueFunction hne random hd h0 h1
    have hsorted := (select_double_index arr valueFunction hne random i hik hfl).2
    refine ⟨hjk, ?_, ?_⟩
    · obtain ⟨first, rest, m, hS, hv, hmin, ⟨tl, htl⟩, -⟩ := select_spec arr valueFunction hne
      have hfirst : first ∈ arr := by
        rw [← List.mem_insertionSort (fun a b => valueFunction a ≤ valueFunction b), hS]
        exact List.mem_cons_self _ _
      rw [← nearestTargets_eq arr valueFunction m first hfirst hv hmin] at htl
      rw [htl, List.getElem?_append_left hjk]
    · rcases floor_roundDouble_near _ j (lt_trans hxk hk53) hlo2 (le_of_lt hhi2) with h | h
      · left
        have hij : i = j := by
          rw [hfl] at h
          exact_mod_cast h
        rw [hsel, hij]
      · right
        have hij : i = j + 1 := by
          rw [h] at hfl
          have h2 : ⌊(j : ℚ) + 1⌋ = (j : ℤ) + 1 := by
            have h3 : (j : ℚ) + 1 = (((j : ℤ) + 1 : ℤ) : ℚ) := by push_cast; rfl
            rw [h3, Int.floor_intCast]
          rw [h2] at hfl
          omega
        refine ⟨h, ?_, ?_⟩
        · omega
        · rw [hsel, hij]
  · intro random j h1 hlo hhi
    have hlo2 : (j : ℚ) ≤ random * (nearestTargets arr valueFunction).length :=
      (div_le_iff₀ hkq).1 hlo
    have hhi2 : random * (nearestTargets arr valueFunction).length ≤
        ((j : ℚ) + 1) * (1 - (2 : ℚ) ^ (-53 : ℤ)) := by
      have h2 := mul_le_mul_of_nonneg_right hhi (le_of_lt hkq)
      have h3 : ((j : ℚ) + 1) / (nearestTargets arr valueFunction).length *
          (1 - (2 : ℚ) ^ (-53 : ℤ)) * (nearestTargets arr valueFunction).length =
          ((j : ℚ) + 1) * (1 - (2 : ℚ) ^ (-53 : ℤ)) := by
        generalize (2 : ℚ) ^ (-53 : ℤ) = p
        field_simp
      rw [h3] at h2
      exact h2
    exact (select_double_interior arr valueFunction hne hlen random j h1 hlo2 hhi2).2.1
  · intro j hj
    obtain ⟨hd, h0, h1, hlo, hhi⟩ :=
      drawFor_spec j (nearestTargets arr valueFunction).length hj hk32
    refine ⟨drawFor j (nearestTargets arr valueFunction).length, hd, h0, h1, ?_, ?_, ?_⟩
    · exact (div_le_iff₀ hkq).2 hlo
    · rw [lt_div_iff₀ hkq]
      have hj1 : (0 : ℚ) < (j : ℚ) + 1 := by
        have : (0 : ℚ) ≤ (j : ℚ) := Nat.cast_nonneg j
        linarith
      have : ((j : ℚ) + 1) * (1 - (2 : ℚ) ^ (-53 : ℤ)) < (j : ℚ) + 1 := by
        have := mul_pos hj1 hsmall
        linarith
      exact lt_of_le_of_lt hhi this
    · exact (select_double_interior arr valueFunction hne hlen _ j h1 hlo hhi).2.1

/-- Witness for C9: of three targets with the distances 5, 2, 2 the draw 1/2 selects
the third, the draw 1/4 the second. -/
theorem nearest_target_selection_witness :
    selectRandomMinimumElementDouble threeTargets threeDistances (1 / 2) =
      some ⟨2, Kind.player⟩ ∧
    selectRandomMinimumElementDouble threeTargets threeDistances (1 / 4) =
      some ⟨1, Kind.player⟩ := by
  have hlen : (nearestTargets threeTargets threeDistances).length = 2 := rfl
  have h := (nearest_target_selection threeTargets threeDistances (by decide)
    (by decide)).2.2.1
  constructor
  · exact h (1 / 2) 1 (by norm_num) (by rw [hlen]; norm_num) (by rw [hlen]; norm_num)
  · exact h (1 / 4) 0 (by norm_num) (by rw [hlen]; norm_num) (by rw [hlen]; norm_num)

/-- C9 as stated fails on the program: with six targets at one distance the draw
`0.8333333333333333` lies in `[4/6, 5/6)`, the product `r * 6` rounds to the double 5,
and the target selected is the one at index 5, not the one at index 4. -/
theorem nearest_target_selection_counterexample :
    IsDouble belowFiveSixths ∧ 0 ≤ belowFiveSixths ∧ belowFiveSixths < 1 ∧
    (nearestTargets sixTargets (fun _ => 0)).length = 6 ∧
    ((4 : ℕ) : ℚ) / (nearestTargets sixTargets (fun _ => 0)).length ≤ belowFiveSixths ∧
    belowFiveSixths < (((4 : ℕ) : ℚ) + 1) / (nearestTargets sixTargets (fun _ => 0)).length ∧
    (nearestTargets sixTargets (fun _ => 0))[4]? = some ⟨4, Kind.player⟩ ∧
    roundDouble (belowFiveSixths * 6) = 5 ∧
    selectRandomMinimumElementDouble sixTargets (fun _ => 0) belowFiveSixths =
      some ⟨5, Kind.player⟩ ∧
    ¬ selectRandomMinimumElementDouble sixTargets (fun _ => 0) belowFiveSixths =
      (nearestTargets sixTargets (fun _ => 0))[4]? := by
  have hlen : (nearestTargets sixTargets (fun _ => 0)).length = 6 := rfl
  refine ⟨⟨7505999378950826, -53, by norm_num, by norm_num, by norm_num, ?_⟩, ?_, ?_, hlen,
    ?_, ?_, rfl, ?_, ?_, ?_⟩
  · unfold belowFiveSixths
    rw [zpow_neg, div_eq_mul_inv]
    norm_num
  · unfold belowFiveSixths
    norm_num
  · unfold belowFiveSixths
    norm_num
  · rw [hlen]
    unfold belowFiveSixths
    norm_num
  · rw [hlen]
    unfold belowFiveSixths
    norm_num
  · decide!
  · decide!
  · decide!

/-! ## C10: the step of a pursuer -/

theorem collapseDiagonal_spec (lastDirection : Option Axis) (random : ℚ) (dx dy : Int)
    (h : ¬ (dx = 0 ∧ dy = 0)) :
    ((collapseDiagonal lastDirection random dx dy).1 = dx ∧
        (collapseDiagonal lastDirection random dx dy).2 = 0 ∧ dx ≠ 0) ∨
      ((collapseDiagonal lastDirection random dx dy).1 = 0 ∧
        (collapseDiagonal lastDirection random dx dy).2 = dy ∧ dy ≠ 0) := by
  unfold collapseDiagonal
  by_cases hd : dx ≠ 0 ∧ dy ≠ 0
  · rw [if_pos hd]
    cases lastDirection with
    | none =>
      simp only
      split
      · exact Or.inr ⟨rfl, rfl, hd.2⟩
      · exact Or.inl ⟨rfl, rfl, hd.1⟩
    | some a =>
      cases a
      · exact Or.inr ⟨rfl, rfl, hd.2⟩
      · exact Or.inl ⟨rfl, rfl, hd.1⟩
  · rw [if_neg hd]
    by_cases hx : dx = 0
    · have hy : dy ≠ 0 := fun hy => h ⟨hx, hy⟩
      exact Or.inr ⟨hx, rfl, hy⟩
    · have hy : dy = 0 := by
        by_contra hy
        exact hd ⟨hx, hy⟩
      exact Or.inl ⟨rfl, hy, hx⟩

theorem getPosition_isSome_of_mem_entities (g : LevelGrid) (e : LevelEntity)
    (h : e ∈ g.entities) : (g.getPosition e).isSome = true := by
  rw [getPosition_eq]
  unfold LevelGrid.entities at h
  generalize g.levelEntityPositionMap = m at h
  induction m with
  | nil => cases h
  | cons hd tl ih =>
    obtain ⟨k, v⟩ := hd
    by_cases hk : k = e
    · simp [mapGet, hk]
    · simp only [List.map_cons, List.mem_cons] at h
      rcases h with h | h
      · exact absurd h.symm hk
      · simp only [mapGet, hk, if_false]
        exact ih h

theorem step_toward (a b d : Int) (hd : d = Int.sign (b - a)) (hne : d ≠ 0) :
    |d| = 1 ∧ |b - (a + d)| = |b - a| - 1 ∧ (d = 1 → a < b) ∧ (d = -1 → b < a) ∧
      (d = 1 ∨ d = -1) := by
  rcases lt_trichotomy (b - a) 0 with h | h | h
  · rw [Int.sign_eq_neg_one_of_neg h] at hd
    subst hd
    refine ⟨by simp, ?_, ?_, ?_, Or.inr rfl⟩
    · rw [abs_of_neg h, abs_of_nonpos (by omega)]
      omega
    · intro h2
      omega
    · intro _
      omega
  · rw [h, Int.sign_zero] at hd
    exact absurd hd hne
  · rw [Int.sign_eq_one_of_pos h] at hd
    subst hd
    refine ⟨by simp, ?_, ?_, ?_, Or.inl rfl⟩
    · rw [abs_of_pos h, abs_of_nonneg (by omega)]
      omega
    · intro _
      omega
    · intro h2
      omega


theorem requestMove_inBounds (g : LevelGrid) (e : LevelEntity) (x y : Int)
    (h : g.inBounds x y = true) : g.requestMove e x y = Result.ok () (g.addRequest e x y) := by
  unfold LevelGrid.inBounds at h
  unfold LevelGrid.requestMove
  cases hr : g.rows with
  | none => simp [hr] at h
  | some rows =>
    simp only [hr, decide_eq_true_eq] at h
    have hcond : x ≥ 0 ∧ y ≥ 0 ∧ x < g.columns ∧ y < rows := ⟨h.1, h.2.2.1, h.2.1, h.2.2.2⟩
    simp only [if_pos hcond]
    cases g.getPosition e <;> rfl

/-- C10: on a consistent grid, for an enemy recorded at `p` whose `tick` is
eligible (the cooldown has elapsed), with at least one target, a draw `random1`
in `[0, 1)` and a chosen target that is not in the cell of the enemy (its position
is inside the grid, as every recorded position is), whatever `lastDirection` and
`random2` are: `tick` raises nothing and leaves the grid with exactly one more
request, for the enemy itself; the requested cell differs from `p` by 1 on exactly
one axis, is inside the grid, and its Manhattan distance to the chosen target is
one less than that of `p`. -/
theorem pursuer_step (self : LevelEntity) (this : BasicEnemy) (tickCount : Int) (g : LevelGrid)
    (random1 random2 : ℚ) (p : Position)
    (hc : g.Consistent) (hpos : g.getPosition self = some p)
    (helig : tickCount - (this.observe (some p)).lastMoved ≥ this.movePeriod)
    (htargets : BasicEnemy.targets self this g ≠ [])
    (h0 : 0 ≤ random1) (h1 : random1 < 1)
    (hfar : ∀ t tp, selectRandomMinimumElement (BasicEnemy.targets self this g)
        (distanceFunction g p) random1 = some t → g.getPosition t = some tp →
      ¬ (tp.x = p.x ∧ tp.y = p.y)) :
    ∃ this2 t tp newX newY,
      BasicEnemy.tick self this tickCount g random1 random2 =
        (this2, Result.ok () (g.addRequest self newX newY)) ∧
      selectRandomMinimumElement (BasicEnemy.targets self this g) (distanceFunction g p)
        random1 = some t ∧
      g.getPosition t = some tp ∧
      ((|newX - p.x| = 1 ∧ newY = p.y) ∨ (newX = p.x ∧ |newY - p.y| = 1)) ∧
      g.inBounds newX newY = true ∧
      taxiCabDistance tp.x tp.y newX newY = taxiCabDistance tp.x tp.y p.x p.y - 1 := by
  have hobs : ∀ pos, (this.observe pos).movePeriod = this.movePeriod ∧
      (this.observe pos).targetFunction = this.targetFunction := by
    intro pos
    unfold BasicEnemy.observe
    split <;> exact ⟨rfl, rfl⟩
  have htg : BasicEnemy.targets self (this.observe (some p)) g = BasicEnemy.targets self this g := by
    unfold BasicEnemy.targets
    rw [(hobs (some p)).2]
  obtain ⟨t, hsel, htmem, -⟩ := select_some (BasicEnemy.targets self this g)
    (distanceFunction g p) htargets random1 h0 h1
  have hmem : ∀ u ∈ BasicEnemy.targets self this g, (g.getPosition u).isSome = true := by
    intro u hu
    unfold BasicEnemy.targets at hu
    exact getPosition_isSome_of_mem_entities g u (List.mem_filter.1 hu).1
  obtain ⟨tp, htp⟩ := Option.isSome_iff_exists.1 (hmem t htmem)
  have hne := hfar t tp hsel htp
  have hbp := hc.posInBounds self p hpos
  have hbt := hc.posInBounds t tp htp
  unfold LevelGrid.inBounds at hbp hbt
  cases hr : g.rows with
  | none => simp [hr] at hbp
  | some rows =>
    simp only [hr, decide_eq_true_eq] at hbp hbt
    have hnz : ¬ (Int.sign (tp.x - p.x) = 0 ∧ Int.sign (tp.y - p.y) = 0) := by
      rintro ⟨hx, hy⟩
      rw [Int.sign_eq_zero_iff_zero] at hx hy
      exact hne ⟨by omega, by omega⟩
    have hcol := collapseDiagonal_spec (this.observe (some p)).lastDirection random2 _ _ hnz
    generalize hdelta : collapseDiagonal (this.observe (some p)).lastDirection random2
      (Int.sign (tp.x - p.x)) (Int.sign (tp.y - p.y)) = delta at hcol
    have hgeom : ((|(p.x + delta.1) - p.x| = 1 ∧ p.y + delta.2 = p.y) ∨
          (p.x + delta.1 = p.x ∧ |(p.y + delta.2) - p.y| = 1)) ∧
        (0 ≤ p.x + delta.1 ∧ p.x + delta.1 < g.columns ∧ 0 ≤ p.y + delta.2 ∧
          p.y + delta.2 < rows) ∧
        taxiCabDistance tp.x tp.y (p.x + delta.1) (p.y + delta.2) =
          taxiCabDistance tp.x tp.y p.x p.y - 1 := by
      unfold taxiCabDistance
      rcases hcol with ⟨h1x, h1y, hdx⟩ | ⟨h1x, h1y, hdy⟩
      · obtain ⟨ha, hb, hc1, hc2, hc3⟩ := step_toward p.x tp.x delta.1 h1x (h1x ▸ hdx)
        rw [h1y]
        refine ⟨Or.inl ⟨by simpa using ha, by omega⟩, ?_, ?_⟩
        · rcases hc3 with h | h
          · have := hc1 h
            omega
          · have := hc2 h
            omega
        · rw [hb]
          simp only [add_zero]
          omega
      · obtain ⟨ha, hb, hc1, hc2, hc3⟩ := step_toward p.y tp.y delta.2 h1y (h1y ▸ hdy)
        rw [h1x]
        refine ⟨Or.inr ⟨by omega, by simpa using ha⟩, ?_, ?_⟩
        · rcases hc3 with h | h
          · have := hc1 h
            omega
          · have := hc2 h
            omega
        · rw [hb]
          simp only [add_zero]
          omega
    obtain ⟨hg1, hg2, hg3⟩ := hgeom
    have hin : g.inBounds (p.x + delta.1) (p.y + delta.2) = true := by
      unfold LevelGrid.inBounds
      simp only [hr, decide_eq_true_eq]
      exact hg2
    refine ⟨BasicEnemy.finish { this.observe (some p) with
        lastDirection := nextDirection (this.observe (some p)).lastDirection delta.1 delta.2 }
        (some p) tickCount, t, tp, p.x + delta.1, p.y + delta.2, ?_, hsel, htp, hg1, hin, hg3⟩
    have hlen : (BasicEnemy.targets self this g).length > 0 :=
      List.length_pos.2 htargets
    have hall : (BasicEnemy.targets self this g).all
        (fun target => (g.getPosition target).isSome) = true := by
      rw [List.all_eq_true]
      exact hmem
    have hc1 : p.x + delta.1 ≥ 0 ∧ p.y + delta.2 ≥ 0 ∧ p.x + delta.1 < g.columns :=
      ⟨hg2.1, hg2.2.2.1, hg2.2.1⟩
    unfold BasicEnemy.tick
    simp only [hpos, htg, (hobs (some p)).1, if_pos helig, if_pos hlen, hall, if_true, hsel,
      htp, hdelta, if_pos hc1, hr, if_pos hg2.2.2.2, requestMove_inBounds g self _ _ hin]


theorem chaseScene_consistent : chaseScene.Consistent :=
  consistent_of_applyOps [GridOp.place ⟨0, Kind.player⟩ 3 3,
    GridOp.place ⟨1, Kind.basicEnemy⟩ 1 2] 4 4 _ _ (by decide) rfl

/-- Witness for C10: the enemy at `(1, 2)` with fresh fields, chasing the Player at
`(3, 3)` on tick 2 with diagonal intent. -/
theorem pursuer_step_witness :
    ∃ this2 t tp newX newY,
      BasicEnemy.tick ⟨1, Kind.basicEnemy⟩ (BasicEnemy.new 2 isPlayer) 2 chaseScene (1 / 2)
          (3 / 4) =
        (this2, Result.ok () (chaseScene.addRequest ⟨1, Kind.basicEnemy⟩ newX newY)) ∧
      selectRandomMinimumElement
        (BasicEnemy.targets ⟨1, Kind.basicEnemy⟩ (BasicEnemy.new 2 isPlayer) chaseScene)
        (distanceFunction chaseScene ⟨1, 1, 2⟩) (1 / 2) = some t ∧
      chaseScene.getPosition t = some tp ∧
      ((|newX - 1| = 1 ∧ newY = 2) ∨ (newX = 1 ∧ |newY - 2| = 1)) ∧
      chaseScene.inBounds newX newY = true ∧
      taxiCabDistance tp.x tp.y newX newY = taxiCabDistance tp.x tp.y 1 2 - 1 :=
  pursuer_step ⟨1, Kind.basicEnemy⟩ (BasicEnemy.new 2 isPlayer) 2 chaseScene (1 / 2) (3 / 4)
    ⟨1, 1, 2⟩ chaseScene_consistent rfl (by decide) (by decide) (by norm_num) (by norm_num)
    (by
      intro t tp hs htp
      obtain ⟨t0, hs0, hmem, -⟩ := select_some
        (BasicEnemy.targets ⟨1, Kind.basicEnemy⟩ (BasicEnemy.new 2 isPlayer) chaseScene)
        (distanceFunction chaseScene ⟨1, 1, 2⟩) (by decide) (1 / 2) (by norm_num) (by norm_num)
      rw [hs0] at hs
      cases hs
      have hmem2 : t ∈ ([⟨0, Kind.player⟩] : List LevelEntity) := hmem
      rw [List.mem_singleton] at hmem2
      subst hmem2
      have htp2 : some (⟨0, 3, 3⟩ : Position) = some tp := htp
      cases htp2
      decide)

/-! ## C8: the cooldown of a pursuer -/


theorem GridSame.self (g : LevelGrid) : GridSame g g := ⟨rfl, rfl, rfl⟩

theorem GridSame.chain {g g1 g2 : LevelGrid} (h1 : GridSame g g1) (h2 : GridSame g1 g2) :
    GridSame g g2 :=
  ⟨h2.1.trans h1.1, h2.2.1.trans h1.2.1, h2.2.2.trans h1.2.2⟩

theorem GridSame.getPosition {g g2 : LevelGrid} (h : GridSame g g2) (e : LevelEntity) :
    g2.getPosition e = g.getPosition e := by
  rw [getPosition_eq, getPosition_eq, h.2.1]

theorem GridSame.entities {g g2 : LevelGrid} (h : GridSame g g2) : g2.entities = g.entities := by
  unfold LevelGrid.entities
  rw [h.2.1]

theorem GridSame.inBounds {g g2 : LevelGrid} (h : GridSame g g2) (x y : Int) :
    g2.inBounds x y = g.inBounds x y := by
  unfold LevelGrid.inBounds LevelGrid.rows LevelGrid.columns
  rw [h.1]

theorem GridSame.consistent {g g2 : LevelGrid} (h : GridSame g g2) (hc : g.Consistent) :
    g2.Consistent := by
  obtain ⟨h1, h2, h3⟩ := h
  cases g2
  cases g
  simp only at h1 h2 h3
  subst h1 h2 h3
  exact Consistent.withRequests _ hc _

theorem Decides.gridSame {self : LevelEntity} {g g2 : LevelGrid} (h : Decides self g g2) :
    GridSame g g2 := by
  rcases h with rfl | ⟨x, y, -, rfl⟩
  · exact GridSame.self _
  · exact ⟨rfl, rfl, rfl⟩

theorem Decides.request_ne {self : LevelEntity} {g g2 : LevelGrid} (h : Decides self g g2)
    (f : LevelEntity) (hf : f ≠ self) : mapGet g2.requests f = mapGet g.requests f := by
  rcases h with rfl | ⟨x, y, -, rfl⟩
  · rfl
  · exact mapGet_mapSet_ne _ _ _ _ hf

theorem Decides.keepsRequests {self : LevelEntity} {g g2 : LevelGrid} (h : Decides self g g2)
    (hb : g.RequestsInBounds) : g2.RequestsInBounds := by
  rcases h with rfl | ⟨x, y, hin, rfl⟩
  · exact hb
  · intro e q hq
    have hsame : (g.addRequest self x y).inBounds q.x q.y = g.inBounds q.x q.y := rfl
    rw [hsame]
    by_cases he : e = self
    · subst he
      have : mapGet (g.addRequest e x y).requests e = some ⟨x, y⟩ := mapGet_mapSet_self _ _ _
      rw [this] at hq
      cases hq
      exact hin
    · have : mapGet (g.addRequest self x y).requests e = mapGet g.requests e :=
        mapGet_mapSet_ne _ _ _ _ he
      rw [this] at hq
      exact hb e q hq

theorem Decides.keysNodup {self : LevelEntity} {g g2 : LevelGrid} (h : Decides self g g2)
    (hnd : (g.requests.map Prod.fst).Nodup) : (g2.requests.map Prod.fst).Nodup := by
  rcases h with rfl | ⟨x, y, -, rfl⟩
  · exact hnd
  · exact nodup_keys_mapSet _ _ _ hnd

theorem requestMove_cases (g : LevelGrid) (e : LevelEntity) (x y : Int) :
    (g.inBounds x y = true ∧ g.requestMove e x y = Result.ok () (g.addRequest e x y)) ∨
      ∃ err, g.requestMove e x y = Result.error err g := by
  by_cases h : g.inBounds x y = true
  · exact Or.inl ⟨h, requestMove_inBounds g e x y h⟩
  · right
    unfold LevelGrid.inBounds at h
    unfold LevelGrid.requestMove
    cases hr : g.rows with
    | none => exact ⟨_, rfl⟩
    | some rows =>
      simp only [hr, decide_eq_true_eq] at h
      have hcond : ¬ (x ≥ 0 ∧ y ≥ 0 ∧ x < g.columns ∧ y < rows) := by
        rintro ⟨h1, h2, h3, h4⟩
        exact h ⟨h1, h3, h2, h4⟩
      simp only [if_neg hcond]
      exact ⟨_, rfl⟩

theorem requestMove_outcome (g : LevelGrid) (e : LevelEntity) (x y : Int) :
    (∀ g2, g.requestMove e x y = Result.ok () g2 → Decides e g g2) := by
  intro g2 h
  rcases requestMove_cases g e x y with ⟨hin, h2⟩ | ⟨err, h2⟩
  · rw [h2] at h
    cases h
    exact Or.inr ⟨x, y, hin, rfl⟩
  · rw [h2] at h
    cases h

theorem Player.tick_decides (self : LevelEntity) (keyPresses : String → Bool) (g g2 : LevelGrid)
    (h : Player.tick self keyPresses g = Result.ok () g2) : Decides self g g2 := by
  unfold Player.tick at h
  split at h
  · cases h
    exact Or.inl rfl
  · split at h
    · cases h
    · split at h
      · split at h
        · exact requestMove_outcome g self _ _ g2 h
        · cases h
          exact Or.inl rfl
      · split at h
        · exact requestMove_outcome g self _ _ g2 h
        · cases h
          exact Or.inl rfl
      · split at h
        · cases h
        · split at h
          · exact requestMove_outcome g self _ _ g2 h
          · cases h
            exact Or.inl rfl
      · split at h
        · exact requestMove_outcome g self _ _ g2 h
        · cases h
          exact Or.inl rfl


theorem BasicEnemy.observe_movePeriod (this : BasicEnemy) (pos : Option Position) :
    (this.observe pos).movePeriod = this.movePeriod := by
  unfold BasicEnemy.observe
  split <;> rfl

/-- What `BasicEnemy.tick` does to the fields and to the grid. -/
theorem BasicEnemy.tick_outcome (self : LevelEntity) (this : BasicEnemy) (tickCount : Int)
    (g : LevelGrid) (random1 random2 : ℚ) (this2 : BasicEnemy) (res : Result Unit)
    (hout : BasicEnemy.tick self this tickCount g random1 random2 = (this2, res)) :
    this2.movePeriod = this.movePeriod ∧
    (∀ g2, res = Result.ok () g2 → Decides self g g2 ∧ this2.lastTicked = tickCount ∧
      this2.lastPosition = g.getPosition self ∧
      this2.lastMoved = (this.observe (g.getPosition self)).lastMoved) ∧
    (∀ p, g.getPosition self = some p →
      tickCount - (this.observe (some p)).lastMoved < this.movePeriod →
      res = Result.ok () g) := by
  have hmp := BasicEnemy.observe_movePeriod this (g.getPosition self)
  unfold BasicEnemy.tick at hout
  cases hpos : g.getPosition self with
  | none =>
    rw [hpos] at hout hmp
    simp only at hout
    cases hout
    refine ⟨hmp, ?_, ?_⟩
    · intro g2 h2
      cases h2
      exact ⟨Or.inl rfl, rfl, rfl, rfl⟩
    · intro p hp
      cases hp
  | some p =>
    rw [hpos] at hout hmp
    simp only at hout
    have hthird : ∀ (P : Prop), tickCount - (this.observe (some p)).lastMoved ≥
        (this.observe (some p)).movePeriod →
        (∀ p2, some p = some p2 →
          tickCount - (this.observe (some p2)).lastMoved < this.movePeriod → P) := by
      intro P h1 p2 hp2 h2
      cases hp2
      rw [hmp] at h1
      omega
    split at hout
    · rename_i helig
      split at hout
      · split at hout
        · split at hout
          · cases hout
            refine ⟨hmp, ?_, hthird _ helig⟩
            intro g2 h2
            cases h2
          · split at hout
            · cases hout
              refine ⟨hmp, ?_, hthird _ helig⟩
              intro g2 h2
              cases h2
            · split at hout
              · split at hout
                · cases hout
                  refine ⟨hmp, ?_, hthird _ helig⟩
                  intro g2 h2
                  cases h2
                · split at hout
                  · split at hout
                    · cases hout
                      refine ⟨hmp, ?_, hthird _ helig⟩
                      intro g2 h2
                      cases h2
                    · rename_i hreq
                      cases hout
                      refine ⟨hmp, ?_, hthird _ helig⟩
                      intro g2 h2
                      cases h2
                      exact ⟨requestMove_outcome g self _ _ _ hreq, rfl, rfl, rfl⟩
                  · cases hout
                    refine ⟨hmp, ?_, hthird _ helig⟩
                    intro g2 h2
                    cases h2
                    exact ⟨Or.inl rfl, rfl, rfl, rfl⟩
              · cases hout
                refine ⟨hmp, ?_, hthird _ helig⟩
                intro g2 h2
                cases h2
                exact ⟨Or.inl rfl, rfl, rfl, rfl⟩
        · cases hout
          refine ⟨hmp, ?_, hthird _ helig⟩
          intro g2 h2
          cases h2
      · cases hout
        refine ⟨hmp, ?_, hthird _ helig⟩
        intro g2 h2
        cases h2
        exact ⟨Or.inl rfl, rfl, rfl, rfl⟩
    · cases hout
      refine ⟨hmp, ?_, ?_⟩
      · intro g2 h2
        cases h2
        exact ⟨Or.inl rfl, rfl, rfl, rfl⟩
      · intro p2 _ _
        rfl


/-- One entity decides: the grid gets at most one request, of that entity; the
fields of the other objects are untouched. -/
theorem LevelEntity.tick_frame (a : LevelEntity) (tickCount : Int)
    (keyPresses : String → Bool) (dr : ℚ × ℚ) (lv lv1 : Level)
    (h : a.tick tickCount keyPresses dr lv = (lv1, none)) :
    Decides a lv.levelGrid lv1.levelGrid ∧ (∀ f, f ≠ a → lv1.fields f = lv.fields f) ∧
      (a.kind = Kind.basicEnemy → EnemyDecided a tickCount lv lv1) := by
  unfold LevelEntity.tick at h
  split at h
  · rename_i hk
    cases h
    exact ⟨Or.inl rfl, fun _ _ => rfl, fun hk2 => by rw [hk] at hk2; cases hk2⟩
  · rename_i hk
    split at h
    · rename_i hp
      cases h
      exact ⟨Player.tick_decides a keyPresses _ _ hp, fun _ _ => rfl,
        fun hk2 => by rw [hk] at hk2; cases hk2⟩
    · cases h
  · split at h
    · rename_i this1 u g1 htick
      cases h
      obtain ⟨h1, h2, h3⟩ := BasicEnemy.tick_outcome a (lv.fields a) tickCount lv.levelGrid
        dr.1 dr.2 this1 _ htick
      obtain ⟨hd, ht, hp, hm⟩ := h2 g1 rfl
      refine ⟨hd, ?_, ?_⟩
      · intro f hf
        exact Function.update_noteq hf _ _
      · intro _
        refine ⟨?_, ?_, ?_, ?_, ?_⟩
        · simpa using h1
        · simpa using ht
        · simpa using hp
        · simpa using hm
        · intro p hpos hlt
          have := h3 p hpos hlt
          cases this
          rfl
    · cases h

theorem tickLoop_spec (tickCount : Int) (keyPresses : String → Bool)
    (draws : LevelEntity → ℚ × ℚ) (es : List LevelEntity) :
    ∀ lv lv2, es.Nodup → tickLoop tickCount keyPresses draws es lv = (lv2, none) →
      GridSame lv.levelGrid lv2.levelGrid ∧
      (lv.levelGrid.RequestsInBounds → lv2.levelGrid.RequestsInBounds) ∧
      ((lv.levelGrid.requests.map Prod.fst).Nodup →
        (lv2.levelGrid.requests.map Prod.fst).Nodup) ∧
      (∀ e, e ∉ es → lv2.fields e = lv.fields e ∧
        mapGet lv2.levelGrid.requests e = mapGet lv.levelGrid.requests e) ∧
      (∀ e, e ∈ es → e.kind = Kind.basicEnemy → EnemyDecided e tickCount lv lv2) := by
  induction es with
  | nil =>
    intro lv lv2 _ h
    simp only [tickLoop] at h
    cases h
    exact ⟨GridSame.self _, fun h => h, fun h => h, fun _ _ => ⟨rfl, rfl⟩,
      fun e he => absurd he (List.not_mem_nil e)⟩
  | cons a rest ih =>
    intro lv lv2 hnd h
    rw [List.nodup_cons] at hnd
    simp only [tickLoop] at h
    cases h1 : a.tick tickCount keyPresses (draws a) lv with
    | mk lv1 err =>
      rw [h1] at h
      cases err with
      | some err =>
        simp only at h
        cases h
      | none =>
        simp only at h
        obtain ⟨hd, hf, hen⟩ := LevelEntity.tick_frame a tickCount keyPresses _ lv lv1 h1
        obtain ⟨i1, i2, i3, i4, i5⟩ := ih lv1 lv2 hnd.2 h
        refine ⟨hd.gridSame.chain i1, fun hb => i2 (hd.keepsRequests hb),
          fun hn => i3 (hd.keysNodup hn), ?_, ?_⟩
        · intro e he
          rw [List.mem_cons, not_or] at he
          obtain ⟨j1, j2⟩ := i4 e he.2
          exact ⟨j1.trans (hf e he.1), j2.trans (hd.request_ne e he.1)⟩
        · intro e he hk
          by_cases hea : e = a
          · subst hea
            obtain ⟨j1, j2⟩ := i4 e hnd.1
            obtain ⟨k1, k2, k3, k4, k5⟩ := hen hk
            refine ⟨?_, ?_, ?_, ?_, ?_⟩
            · rw [j1]; exact k1
            · rw [j1]; exact k2
            · rw [j1]; exact k3
            · rw [j1]; exact k4
            · intro p hp hlt
              rw [j2]
              exact k5 p hp hlt
          · have hmem : e ∈ rest := by
              rcases List.mem_cons.1 he with h2 | h2
              · exact absurd h2 hea
              · exact h2
            obtain ⟨k1, k2, k3, k4, k5⟩ := i5 e hmem hk
            have hfe := hf e hea
            have hpe := hd.gridSame.getPosition e
            have hre := hd.request_ne e hea
            rw [hfe] at k1
            rw [hpe] at k3
            rw [hfe, hpe] at k4
            refine ⟨k1, k2, k3, k4, ?_⟩
            intro p hp hlt
            rw [← hre]
            apply k5 p
            · rw [hpe]; exact hp
            · rw [hfe]; exact hlt


theorem mem_entities_of_getPosition (g : LevelGrid) (e : LevelEntity) (p : Position)
    (h : g.getPosition e = some p) : e ∈ g.entities := by
  rw [getPosition_eq] at h
  exact List.mem_map_of_mem Prod.fst (mem_of_mapGet_eq_some _ _ _ h)

/-- One tick of the level, seen from the enemy `e`. -/
theorem Level.tick_spec (lv lv2 : Level) (tickCount : Int) (keyPresses : String → Bool)
    (draws : LevelEntity → ℚ × ℚ) (fuel : Nat) (e : LevelEntity)
    (hkind : e.kind = Kind.basicEnemy) (hc : lv.levelGrid.Consistent)
    (hreq : lv.levelGrid.requests = [])
    (h : lv.tick tickCount keyPresses draws fuel = (lv2, none)) :
    lv2.levelGrid.Consistent ∧ lv2.levelGrid.requests = [] ∧
    (lv2.fields e).movePeriod = (lv.fields e).movePeriod ∧
    (lv.levelGrid.getPosition e = none → lv2.levelGrid.getPosition e = none) ∧
    (∀ p, lv.levelGrid.getPosition e = some p →
      (lv2.fields e).lastTicked = tickCount ∧ (lv2.fields e).lastPosition = some p ∧
      (lv2.fields e).lastMoved = ((lv.fields e).observe (some p)).lastMoved ∧
      (∃ p2, lv2.levelGrid.getPosition e = some p2 ∧ (p2 = p ∨ p.ref < p2.ref)) ∧
      (tickCount - ((lv.fields e).observe (some p)).lastMoved < (lv.fields e).movePeriod →
        lv2.levelGrid.getPosition e = some p ∧
        mapGet (tickLoop tickCount keyPresses draws lv.levelGrid.entities
          lv).1.levelGrid.requests e = none)) := by
  unfold Level.tick at h
  cases hl : tickLoop tickCount keyPresses draws lv.levelGrid.entities lv with
  | mk lvd err =>
    rw [hl] at h
    cases err with
    | some err =>
      simp only at h
      cases h
    | none =>
      simp only at h
      cases hp : processAllRequests fuel lvd.levelGrid with
      | error err g2 =>
        rw [hp] at h
        simp only at h
        cases h
      | ok u g2 =>
        rw [hp] at h
        simp only at h
        cases h
        obtain ⟨hsame, hrib, hnd, hout, hin⟩ := tickLoop_spec tickCount keyPresses draws
          lv.levelGrid.entities lv lvd hc.keysNodup hl
        have hcd : lvd.levelGrid.Consistent := hsame.consistent hc
        have hribd : lvd.levelGrid.RequestsInBounds := by
          apply hrib
          intro f q hq
          rw [hreq] at hq
          simp [mapGet] at hq
        have hndd : (lvd.levelGrid.requests.map Prod.fst).Nodup := by
          apply hnd
          rw [hreq]
          exact List.nodup_nil
        obtain ⟨hc2, hf2, hr2⟩ := processAllRequests_frame fuel lvd.levelGrid g2 hcd hribd hndd hp
        have hnone0 : mapGet lv.levelGrid.requests e = none := by
          rw [hreq]
          rfl
        have hstay : mapGet lvd.levelGrid.requests e = none →
            g2.getPosition e = lv.levelGrid.getPosition e := by
          intro hn
          rcases hf2.2.2.2.2 e with h1 | ⟨q, _, hq, _⟩
          · rw [h1]
            exact hsame.getPosition e
          · rw [hn] at hq
            cases hq
        refine ⟨hc2, hr2, ?_, ?_, ?_⟩
        · by_cases hmem : e ∈ lv.levelGrid.entities
          · exact (hin e hmem hkind).1
          · rw [(hout e hmem).1]
        · intro hpos
          have hmem : e ∉ lv.levelGrid.entities := by
            intro hm
            have := getPosition_isSome_of_mem_entities lv.levelGrid e hm
            rw [hpos] at this
            cases this
          have := hstay (by rw [(hout e hmem).2]; exact hnone0)
          rw [hpos] at this
          exact this
        · intro p hpos
          have hmem := mem_entities_of_getPosition lv.levelGrid e p hpos
          obtain ⟨k1, k2, k3, k4, k5⟩ := hin e hmem hkind
          rw [hpos] at k3 k4
          refine ⟨k2, k3, k4, ?_, ?_⟩
          · rcases hf2.2.2.2.2 e with h1 | ⟨q, p2, _, _, hp2, _, _, hr⟩
            · refine ⟨p, ?_, Or.inl rfl⟩
              have h3 : g2.getPosition e = lvd.levelGrid.getPosition e := h1
              rw [h3, hsame.getPosition e]
              exact hpos
            · refine ⟨p2, hp2, Or.inr ?_⟩
              have h3 := hc.ref_lt e p hpos
              have h4 : lvd.levelGrid.alloc = lv.levelGrid.alloc := hsame.2.2
              omega
          · intro hlt
            have hn : mapGet lvd.levelGrid.requests e = none := by
              rw [k5 p hpos hlt]
              exact hnone0
            refine ⟨?_, hn⟩
            have := hstay hn
            rw [hpos] at this
            exact this

theorem Level.run_succ (lv : Level) (keys : Nat → String → Bool)
    (draws : Nat → LevelEntity → ℚ × ℚ) (fuel : Nat → Nat) (n : Nat)
    (h : (lv.run keys draws fuel (n + 1)).2 = none) :
    (lv.run keys draws fuel n).2 = none ∧
      (lv.run keys draws fuel n).1.tick n (keys n) (draws n) (fuel n) =
        ((lv.run keys draws fuel (n + 1)).1, none) := by
  have hdef : lv.run keys draws fuel (n + 1) =
      match lv.run keys draws fuel n with
      | (lv1, some err) => (lv1, some err)
      | (lv1, none) => lv1.tick n (keys n) (draws n) (fuel n) := rfl
  cases hr : lv.run keys draws fuel n with
  | mk lv1 err =>
    rw [hr] at hdef
    cases err with
    | some err =>
      simp only at hdef
      rw [hdef] at h
      cases h
    | none =>
      simp only at hdef
      refine ⟨rfl, ?_⟩
      rw [← hdef]
      rw [← h]

theorem Level.run_ok_le (lv : Level) (keys : Nat → String → Bool)
    (draws : Nat → LevelEntity → ℚ × ℚ) (fuel : Nat → Nat) (n : Nat)
    (h : (lv.run keys draws fuel n).2 = none) :
    ∀ k, k ≤ n → (lv.run keys draws fuel k).2 = none := by
  induction n with
  | zero =>
    intro k hk
    have : k = 0 := by omega
    subst this
    exact h
  | succ n ih =>
    intro k hk
    rcases Nat.lt_or_ge k (n + 1) with h1 | h1
    · exact ih (Level.run_succ lv keys draws fuel n h).1 k (by omega)
    · have : k = n + 1 := by omega
      subst this
      exact h

theorem Level.run_invariant (lv : Level) (keys : Nat → String → Bool)
    (draws : Nat → LevelEntity → ℚ × ℚ) (fuel : Nat → Nat) (e : LevelEntity)
    (hkind : e.kind = Kind.basicEnemy) (hc : lv.levelGrid.Consistent)
    (hreq : lv.levelGrid.requests = []) (n : Nat)
    (h : (lv.run keys draws fuel n).2 = none) :
    (lv.run keys draws fuel n).1.levelGrid.Consistent ∧
      (lv.run keys draws fuel n).1.levelGrid.requests = [] ∧
      ((lv.run keys draws fuel n).1.fields e).movePeriod = (lv.fields e).movePeriod := by
  induction n with
  | zero => exact ⟨hc, hreq, rfl⟩
  | succ n ih =>
    obtain ⟨h1, h2⟩ := Level.run_succ lv keys draws fuel n h
    obtain ⟨i1, i2, i3⟩ := ih h1
    obtain ⟨j1, j2, j3, -⟩ := Level.tick_spec _ _ n (keys n) (draws n) (fuel n) e hkind i1 i2 h2
    exact ⟨j1, j2, j3.trans i3⟩


theorem observe_changed (this : BasicEnemy) (p p2 : Position) (hlast : this.lastPosition = some p)
    (href : p.ref < p2.ref) : (this.observe (some p2)).lastMoved = this.lastTicked := by
  unfold BasicEnemy.observe
  have : strictNe (some p2) this.lastPosition = true := by
    rw [hlast]
    simp only [strictNe, decide_eq_true_eq]
    omega
  rw [if_pos this]

theorem observe_same (this : BasicEnemy) (p : Position) (hlast : this.lastPosition = some p) :
    (this.observe (some p)).lastMoved = this.lastMoved := by
  unfold BasicEnemy.observe
  have : strictNe (some p) this.lastPosition = false := by
    rw [hlast]
    simp [strictNe]
  rw [this]
  rfl

/-- C8: run a level with a consistent grid and no pending request, ticked with
the consecutive tick numbers 0, 1, 2, ..., and let `e` be a `BasicEnemy` with
`movePeriod` `p`. If the position object of `e` was replaced during tick `m` (as
it is when its recorded position changes), then at every tick `t` with
`m < t < m + p` that is reached, after all entities have decided no request of `e`
is pending, and the tick leaves `e` with the position object it had. -/
theorem pursuer_cooldown (lv : Level) (keys : Nat → String → Bool)
    (draws : Nat → LevelEntity → ℚ × ℚ) (fuel : Nat → Nat) (e : LevelEntity) (p : Int)
    (m t : Nat) (hc : lv.levelGrid.Consistent) (hreq : lv.levelGrid.requests = [])
    (hkind : e.kind = Kind.basicEnemy) (hperiod : (lv.fields e).movePeriod = p)
    (hmt : m < t) (htp : (t : Int) < m + p)
    (hok : (lv.run keys draws fuel (t + 1)).2 = none)
    (hmoved : (lv.run keys draws fuel (m + 1)).1.levelGrid.getPosition e ≠
      (lv.run keys draws fuel m).1.levelGrid.getPosition e) :
    mapGet (tickLoop t (keys t) (draws t) (lv.run keys draws fuel t).1.levelGrid.entities
        (lv.run keys draws fuel t).1).1.levelGrid.requests e = none ∧
      (lv.run keys draws fuel (t + 1)).1.levelGrid.getPosition e =
        (lv.run keys draws fuel t).1.levelGrid.getPosition e := by
  have hokk := Level.run_ok_le lv keys draws fuel (t + 1) hok
  have hinv : ∀ k, k ≤ t + 1 → _ := fun k hk =>
    Level.run_invariant lv keys draws fuel e hkind hc hreq k (hokk k hk)
  have hstep : ∀ k, k ≤ t → _ := fun k hk =>
    Level.tick_spec _ _ k (keys k) (draws k) (fuel k) e hkind (hinv k (by omega)).1
      (hinv k (by omega)).2.1 (Level.run_succ lv keys draws fuel k (hokk (k + 1) (by omega))).2
  -- tick m
  obtain ⟨-, -, -, hm4, hm5⟩ := hstep m (by omega)
  cases hpm : (lv.run keys draws fuel m).1.levelGrid.getPosition e with
  | none =>
    exact absurd ((hm4 hpm).trans hpm.symm) hmoved
  | some p0 =>
    obtain ⟨hm_ticked, hm_last, -, ⟨p2, hp2, hor⟩, -⟩ := hm5 p0 hpm
    have href : p0.ref < p2.ref := by
      rcases hor with h | h
      · exfalso
        apply hmoved
        rw [hp2, hpm, h]
      · exact h
    -- the ticks after m
    have hQ : ∀ d, m + 1 + d ≤ t →
        (lv.run keys draws fuel (m + 1 + d)).1.levelGrid.getPosition e = some p2 ∧
        (((lv.run keys draws fuel (m + 1 + d)).1.fields e).observe (some p2)).lastMoved = m := by
      intro d
      induction d with
      | zero =>
        intro _
        refine ⟨hp2, ?_⟩
        rw [observe_changed _ p0 p2 hm_last href]
        exact hm_ticked
      | succ d ih =>
        intro hd
        obtain ⟨ih1, ih2⟩ := ih (by omega)
        obtain ⟨-, -, -, -, hk5⟩ := hstep (m + 1 + d) (by omega)
        obtain ⟨-, hk_last, hk_moved, -, hk_idle⟩ := hk5 p2 ih1
        have hper := (hinv (m + 1 + d) (by omega)).2.2
        have hlt : ((m + 1 + d : Nat) : Int) -
            (((lv.run keys draws fuel (m + 1 + d)).1.fields e).observe (some p2)).lastMoved <
            ((lv.run keys draws fuel (m + 1 + d)).1.fields e).movePeriod := by
          rw [ih2, hper, hperiod]
          omega
        obtain ⟨hpos, -⟩ := hk_idle hlt
        refine ⟨hpos, ?_⟩
        have : m + 1 + (d + 1) = m + 1 + d + 1 := by omega
        rw [this, observe_same _ p2 hk_last, hk_moved]
        exact ih2
    obtain ⟨d, hd⟩ : ∃ d, t = m + 1 + d := ⟨t - (m + 1), by omega⟩
    subst hd
    obtain ⟨q1, q2⟩ := hQ d (le_refl _)
    obtain ⟨-, -, -, -, hk5⟩ := hstep (m + 1 + d) (le_refl _)
    obtain ⟨-, -, -, -, hk_idle⟩ := hk5 p2 q1
    have hper := (hinv (m + 1 + d) (by omega)).2.2
    have hlt : ((m + 1 + d : Nat) : Int) -
        (((lv.run keys draws fuel (m + 1 + d)).1.fields e).observe (some p2)).lastMoved <
        ((lv.run keys draws fuel (m + 1 + d)).1.fields e).movePeriod := by
      rw [q2, hper, hperiod]
      omega
    obtain ⟨hpos, hnone⟩ := hk_idle hlt
    exact ⟨hnone, hpos.trans q1.symm⟩

/-- Witness for C8: with `movePeriod` 2 the enemy moves during tick 5 (from
`(1, 2)` towards the Player at `(3, 3)`); on tick 6 it issues no request and it
keeps its position. -/
theorem pursuer_cooldown_witness :
    mapGet (tickLoop 6 (fun _ => false) (fun _ => (1 / 2, 1 / 2))
        (cooldownLevel.run (fun _ _ => false) (fun _ _ => (1 / 2, 1 / 2)) (fun _ => 5)
          6).1.levelGrid.entities
        (cooldownLevel.run (fun _ _ => false) (fun _ _ => (1 / 2, 1 / 2)) (fun _ => 5)
          6).1).1.levelGrid.requests ⟨1, Kind.basicEnemy⟩ = none ∧
      (cooldownLevel.run (fun _ _ => false) (fun _ _ => (1 / 2, 1 / 2)) (fun _ => 5)
          7).1.levelGrid.getPosition ⟨1, Kind.basicEnemy⟩ =
        (cooldownLevel.run (fun _ _ => false) (fun _ _ => (1 / 2, 1 / 2)) (fun _ => 5)
          6).1.levelGrid.getPosition ⟨1, Kind.basicEnemy⟩ :=
  pursuer_cooldown cooldownLevel (fun _ _ => false) (fun _ _ => (1 / 2, 1 / 2)) (fun _ => 5)
    ⟨1, Kind.basicEnemy⟩ 2 5 6 chaseScene_consistent rfl rfl rfl (by decide) (by decide)
    (by decide!) (by decide!)

/-! ## C11: a pursuer alternates the axis -/

theorem BasicEnemy.observe_lastDirection (this : BasicEnemy) (pos : Option Position) :
    (this.observe pos).lastDirection = this.lastDirection := by
  unfold BasicEnemy.observe
  split <;> rfl

theorem BasicEnemy.observe_targetFunction (this : BasicEnemy) (pos : Option Position) :
    (this.observe pos).targetFunction = this.targetFunction := by
  unfold BasicEnemy.observe
  split <;> rfl

theorem collapseDiagonal_components (lastDirection : Option Axis) (random : ℚ) (dx dy : Int) :
    ((collapseDiagonal lastDirection random dx dy).1 = dx ∨
        (collapseDiagonal lastDirection random dx dy).1 = 0) ∧
      ((collapseDiagonal lastDirection random dx dy).2 = dy ∨
        (collapseDiagonal lastDirection random dx dy).2 = 0) := by
  unfold collapseDiagonal
  split
  · cases lastDirection with
    | none =>
      simp only
      split
      · exact ⟨Or.inr rfl, Or.inl rfl⟩
      · exact ⟨Or.inl rfl, Or.inr rfl⟩
    | some a =>
      cases a
      · exact ⟨Or.inr rfl, Or.inl rfl⟩
      · exact ⟨Or.inl rfl, Or.inr rfl⟩
  · exact ⟨Or.inl rfl, Or.inl rfl⟩

theorem sign_step_between (a b n : Int) (ha : 0 ≤ a ∧ a < n) (hb : 0 ≤ b ∧ b < n) :
    0 ≤ a + Int.sign (b - a) ∧ a + Int.sign (b - a) < n := by
  rcases lt_trichotomy (b - a) 0 with h | h | h
  · rw [Int.sign_eq_neg_one_of_neg h]
    omega
  · rw [h, Int.sign_zero]
    omega
  · rw [Int.sign_eq_one_of_pos h]
    omega

/-- An eligible tick of an enemy on a consistent grid with at least one target:
the target chosen, the step and the outcome of the call. -/
theorem BasicEnemy.tick_eligible (self : LevelEntity) (this : BasicEnemy) (tickCount : Int)
    (g : LevelGrid) (random1 random2 : ℚ) (p : Position)
    (hc : g.Consistent) (hpos : g.getPosition self = some p)
    (helig : tickCount - (this.observe (some p)).lastMoved ≥ this.movePeriod)
    (htargets : BasicEnemy.targets self this g ≠ [])
    (h0 : 0 ≤ random1) (h1 : random1 < 1) :
    ∃ t tp delta, selectRandomMinimumElement (BasicEnemy.targets self this g)
        (distanceFunction g p) random1 = some t ∧
      g.getPosition t = some tp ∧
      delta = collapseDiagonal this.lastDirection random2 (Int.sign (tp.x - p.x))
        (Int.sign (tp.y - p.y)) ∧
      g.inBounds (p.x + delta.1) (p.y + delta.2) = true ∧
      BasicEnemy.tick self this tickCount g random1 random2 =
        (BasicEnemy.finish { this.observe (some p) with
            lastDirection := nextDirection this.lastDirection delta.1 delta.2 } (some p) tickCount,
          Result.ok () (g.addRequest self (p.x + delta.1) (p.y + delta.2))) := by
  have htg : BasicEnemy.targets self (this.observe (some p)) g = BasicEnemy.targets self this g := by
    unfold BasicEnemy.targets
    rw [BasicEnemy.observe_targetFunction]
  obtain ⟨t, hsel, htmem, -⟩ := select_some (BasicEnemy.targets self this g)
    (distanceFunction g p) htargets random1 h0 h1
  have hmem : ∀ u ∈ BasicEnemy.targets self this g, (g.getPosition u).isSome = true := by
    intro u hu
    unfold BasicEnemy.targets at hu
    exact getPosition_isSome_of_mem_entities g u (List.mem_filter.1 hu).1
  obtain ⟨tp, htp⟩ := Option.isSome_iff_exists.1 (hmem t htmem)
  have hbp := hc.posInBounds self p hpos
  have hbt := hc.posInBounds t tp htp
  unfold LevelGrid.inBounds at hbp hbt
  cases hr : g.rows with
  | none => simp [hr] at hbp
  | some rows =>
    simp only [hr, decide_eq_true_eq] at hbp hbt
    have hcomp := collapseDiagonal_components this.lastDirection random2
      (Int.sign (tp.x - p.x)) (Int.sign (tp.y - p.y))
    generalize hdelta : collapseDiagonal this.lastDirection random2
      (Int.sign (tp.x - p.x)) (Int.sign (tp.y - p.y)) = delta at hcomp
    have hsx := sign_step_between p.x tp.x g.columns ⟨hbp.1, hbp.2.1⟩ ⟨hbt.1, hbt.2.1⟩
    have hsy := sign_step_between p.y tp.y rows ⟨hbp.2.2.1, hbp.2.2.2⟩ ⟨hbt.2.2.1, hbt.2.2.2⟩
    have hbx : 0 ≤ p.x + delta.1 ∧ p.x + delta.1 < g.columns := by
      rcases hcomp.1 with h | h
      · rw [h]
        exact hsx
      · rw [h]
        omega
    have hby : 0 ≤ p.y + delta.2 ∧ p.y + delta.2 < rows := by
      rcases hcomp.2 with h | h
      · rw [h]
        exact hsy
      · rw [h]
        omega
    have hin : g.inBounds (p.x + delta.1) (p.y + delta.2) = true := by
      unfold LevelGrid.inBounds
      simp only [hr, decide_eq_true_eq]
      exact ⟨hbx.1, hbx.2, hby.1, hby.2⟩
    refine ⟨t, tp, delta, hsel, htp, hdelta.symm, hin, ?_⟩
    have hlen : (BasicEnemy.targets self this g).length > 0 := List.length_pos.2 htargets
    have hall : (BasicEnemy.targets self this g).all
        (fun target => (g.getPosition target).isSome) = true := by
      rw [List.all_eq_true]
      exact hmem
    have hc1 : p.x + delta.1 ≥ 0 ∧ p.y + delta.2 ≥ 0 ∧ p.x + delta.1 < g.columns :=
      ⟨hbx.1, hby.1, hbx.2⟩
    unfold BasicEnemy.tick
    simp only [hpos, htg, BasicEnemy.observe_movePeriod, BasicEnemy.observe_lastDirection,
      if_pos helig, if_pos hlen, hall, if_true, hsel,
      htp, hdelta, if_pos hc1, hr, if_pos hby.2, requestMove_inBounds g self _ _ hin]

/-- A tick that reaches no decision leaves `lastDirection` as it was. -/
theorem BasicEnemy.tick_idle (self : LevelEntity) (this : BasicEnemy) (tickCount : Int)
    (g : LevelGrid) (random1 random2 : ℚ)
    (h : BasicEnemy.decides self this tickCount g = false) :
    (BasicEnemy.tick self this tickCount g random1 random2).1.lastDirection =
      this.lastDirection := by
  unfold BasicEnemy.decides at h
  unfold BasicEnemy.tick
  cases hpos : g.getPosition self with
  | none =>
    simp only [BasicEnemy.finish]
    exact BasicEnemy.observe_lastDirection _ _
  | some p =>
    rw [hpos] at h
    simp only [Bool.and_eq_false_iff, decide_eq_false_iff_not] at h
    simp only [BasicEnemy.observe_movePeriod]
    rcases h with h | h
    · rw [if_neg h]
      simp only [BasicEnemy.finish]
      exact BasicEnemy.observe_lastDirection _ _
    · split
      · simp only [BasicEnemy.finish]
        exact BasicEnemy.observe_lastDirection _ _
      · simp only [BasicEnemy.finish]
        exact BasicEnemy.observe_lastDirection _ _

theorem BasicEnemy.after_idle (self : LevelEntity) (ticks : List EnemyTick) :
    ∀ this, BasicEnemy.idle self this ticks = true →
      (BasicEnemy.after self this ticks).lastDirection = this.lastDirection := by
  induction ticks with
  | nil =>
    intro this _
    rfl
  | cons hd rest ih =>
    obtain ⟨tickCount, g, random1, random2⟩ := hd
    intro this h
    simp only [BasicEnemy.idle, Bool.and_eq_true, Bool.not_eq_true'] at h
    simp only [BasicEnemy.after]
    rw [ih _ h.2]
    exact BasicEnemy.tick_idle self this tickCount g random1 random2 h.1

/-- A decision with diagonal intent issues one request, along one axis, which
becomes `lastDirection` and is not the axis `lastDirection` held before. -/
theorem diagonal_step (self : LevelEntity) (this : BasicEnemy) (tickCount : Int)
    (g : LevelGrid) (random1 random2 : ℚ) (p : Position)
    (h : DiagonalIntent self this tickCount g random1 p) :
    ∃ this2 x y a, BasicEnemy.tick self this tickCount g random1 random2 =
        (this2, Result.ok () (g.addRequest self x y)) ∧
      stepAxis p x y = some a ∧ this2.lastDirection = some a ∧
      ∀ b, this.lastDirection = some b → a ≠ b := by
  obtain ⟨hc, hpos, helig, htargets, h0, h1, hdiag⟩ := h
  obtain ⟨t, tp, delta, hsel, htp, hdelta, -, htick⟩ :=
    BasicEnemy.tick_eligible self this tickCount g random1 random2 p hc hpos helig htargets h0 h1
  obtain ⟨hx, hy⟩ := hdiag t tp hsel htp
  have hsx : Int.sign (tp.x - p.x) ≠ 0 := by
    rw [Ne, Int.sign_eq_zero_iff_zero]
    omega
  have hsy : Int.sign (tp.y - p.y) ≠ 0 := by
    rw [Ne, Int.sign_eq_zero_iff_zero]
    omega
  have halongx : ∀ dx : Int, dx ≠ 0 → stepAxis p (p.x + dx) (p.y + 0) = some Axis.x := by
    intro dx hdx
    unfold stepAxis
    rw [if_pos ⟨by omega, by omega⟩]
  have halongy : ∀ dy : Int, dy ≠ 0 → stepAxis p (p.x + 0) (p.y + dy) = some Axis.y := by
    intro dy hdy
    unfold stepAxis
    rw [if_neg (by omega), if_pos ⟨by omega, by omega⟩]
  have hcases : (delta = (Int.sign (tp.x - p.x), 0) ∧ this.lastDirection ≠ some Axis.x) ∨
      (delta = (0, Int.sign (tp.y - p.y)) ∧ this.lastDirection ≠ some Axis.y) := by
    rw [hdelta]
    unfold collapseDiagonal
    rw [if_pos ⟨hsx, hsy⟩]
    cases this.lastDirection with
    | none =>
      simp only
      split
      · exact Or.inr ⟨rfl, by simp⟩
      · exact Or.inl ⟨rfl, by simp⟩
    | some a =>
      cases a
      · exact Or.inr ⟨rfl, by simp⟩
      · exact Or.inl ⟨rfl, by simp⟩
  rcases hcases with ⟨hd, hne⟩ | ⟨hd, hne⟩
  · refine ⟨_, _, _, Axis.x, htick, ?_, ?_, ?_⟩
    · rw [hd]
      exact halongx _ hsx
    · rw [hd]
      simp only [BasicEnemy.finish, nextDirection, if_pos hsx]
    · intro b hb hab
      exact hne (hab ▸ hb)
  · refine ⟨_, _, _, Axis.y, htick, ?_, ?_, ?_⟩
    · rw [hd]
      exact halongy _ hsy
    · rw [hd]
      simp only [BasicEnemy.finish, nextDirection, ne_eq, not_true_eq_false, if_false, if_pos hsy]
    · intro b hb hab
      exact hne (hab ▸ hb)

/-- C11: two consecutive decisions of a `BasicEnemy` with diagonal intent (between
them only ticks that reach no decision: the enemy is cooling down or has no
target). Each issues one request along one axis and stores that axis in
`lastDirection`; when `lastDirection` is `'x'` before the first, its request is
along `y` and `lastDirection` becomes `'y'`; when it is `'y'`, the request is along
`x` and `lastDirection` becomes `'x'`; and the axis of the second request differs
from the axis of the first. -/
theorem axis_alternation (self : LevelEntity) (this : BasicEnemy) (tickCount : Int)
    (g : LevelGrid) (random1 random2 : ℚ) (p : Position) (between : List EnemyTick)
    (tickCount2 : Int) (g2 : LevelGrid) (random3 random4 : ℚ) (p2 : Position)
    (hfirst : DiagonalIntent self this tickCount g random1 p)
    (hidle : BasicEnemy.idle self (BasicEnemy.tick self this tickCount g random1 random2).1
      between = true)
    (hsecond : DiagonalIntent self
      (BasicEnemy.after self (BasicEnemy.tick self this tickCount g random1 random2).1 between)
      tickCount2 g2 random3 p2) :
    ∃ thisA x1 y1 a1 thisB x2 y2 a2,
      BasicEnemy.tick self this tickCount g random1 random2 =
        (thisA, Result.ok () (g.addRequest self x1 y1)) ∧
      BasicEnemy.tick self (BasicEnemy.after self thisA between) tickCount2 g2 random3 random4 =
        (thisB, Result.ok () (g2.addRequest self x2 y2)) ∧
      stepAxis p x1 y1 = some a1 ∧ thisA.lastDirection = some a1 ∧
      stepAxis p2 x2 y2 = some a2 ∧ thisB.lastDirection = some a2 ∧
      (this.lastDirection = some Axis.x → a1 = Axis.y) ∧
      (this.lastDirection = some Axis.y → a1 = Axis.x) ∧
      a2 ≠ a1 := by
  obtain ⟨thisA, x1, y1, a1, htick1, hax1, hlast1, hne1⟩ :=
    diagonal_step self this tickCount g random1 random2 p hfirst
  rw [htick1] at hidle hsecond
  obtain ⟨thisB, x2, y2, a2, htick2, hax2, hlast2, hne2⟩ :=
    diagonal_step self (BasicEnemy.after self thisA between) tickCount2 g2 random3 random4 p2
      hsecond
  refine ⟨thisA, x1, y1, a1, thisB, x2, y2, a2, htick1, htick2, hax1, hlast1, hax2, hlast2,
    ?_, ?_, ?_⟩
  · intro hx
    have := hne1 Axis.x hx
    cases a1
    · exact absurd rfl this
    · rfl
  · intro hy
    have := hne1 Axis.y hy
    cases a1
    · rfl
    · exact absurd rfl this
  · apply hne2
    rw [BasicEnemy.after_idle self between thisA hidle]
    exact hlast1

theorem chaseScene2_consistent : chaseScene2.Consistent :=
  consistent_of_applyOps [GridOp.place ⟨0, Kind.player⟩ 3 3,
    GridOp.place ⟨1, Kind.basicEnemy⟩ 1 2, GridOp.moveCommitted ⟨1, Kind.basicEnemy⟩ 2 2] 4 4 _ _
    (by decide) rfl

/-- Witness for C11: on `chaseScene` the enemy at `(1, 2)`, whose last step was
along `y`, decides on tick 2 for the Player at `(3, 3)`; it has moved to `(2, 2)`
when it is ticked on tick 3 (cooling down) and decides again on tick 4. -/
theorem axis_alternation_witness :
    ∃ thisA x1 y1 a1 thisB x2 y2 a2,
      BasicEnemy.tick ⟨1, Kind.basicEnemy⟩ alternationFields 2 chaseScene (1 / 2) (3 / 4) =
        (thisA, Result.ok () (chaseScene.addRequest ⟨1, Kind.basicEnemy⟩ x1 y1)) ∧
      BasicEnemy.tick ⟨1, Kind.basicEnemy⟩
          (BasicEnemy.after ⟨1, Kind.basicEnemy⟩ thisA [(3, chaseScene2, 0, 0)]) 4 chaseScene2
          (1 / 2) (1 / 4) =
        (thisB, Result.ok () (chaseScene2.addRequest ⟨1, Kind.basicEnemy⟩ x2 y2)) ∧
      stepAxis ⟨1, 1, 2⟩ x1 y1 = some a1 ∧ thisA.lastDirection = some a1 ∧
      stepAxis ⟨2, 2, 2⟩ x2 y2 = some a2 ∧ thisB.lastDirection = some a2 ∧
      (alternationFields.lastDirection = some Axis.x → a1 = Axis.y) ∧
      (alternationFields.lastDirection = some Axis.y → a1 = Axis.x) ∧
      a2 ≠ a1 :=
  axis_alternation ⟨1, Kind.basicEnemy⟩ alternationFields 2 chaseScene (1 / 2) (3 / 4) ⟨1, 1, 2⟩
    [(3, chaseScene2, 0, 0)] 4 chaseScene2 (1 / 2) (1 / 4) ⟨2, 2, 2⟩
    ⟨chaseScene_consistent, rfl, by decide, by decide, by norm_num, by norm_num, by
      intro t tp hs htp
      have h1 : selectRandomMinimumElement
          (BasicEnemy.targets ⟨1, Kind.basicEnemy⟩ alternationFields chaseScene)
          (distanceFunction chaseScene ⟨1, 1, 2⟩) (1 / 2) = some ⟨0, Kind.player⟩ := by decide!
      rw [h1] at hs
      cases hs
      have htp2 : some (⟨0, 3, 3⟩ : Position) = some tp := htp
      cases htp2
      decide⟩
    (by decide!)
    ⟨chaseScene2_consistent, rfl, by decide!, by decide!, by norm_num, by norm_num, by
      intro t tp hs htp
      have h1 : selectRandomMinimumElement
          (BasicEnemy.targets ⟨1, Kind.basicEnemy⟩
            (BasicEnemy.after ⟨1, Kind.basicEnemy⟩
              (BasicEnemy.tick ⟨1, Kind.basicEnemy⟩ alternationFields 2 chaseScene (1 / 2)
                (3 / 4)).1 [(3, chaseScene2, 0, 0)]) chaseScene2)
          (distanceFunction chaseScene2 ⟨2, 2, 2⟩) (1 / 2) = some ⟨0, Kind.player⟩ := by decide!
      rw [h1] at hs
      cases hs
      have htp2 : some (⟨0, 3, 3⟩ : Position) = some tp := htp
      cases htp2
      decide⟩

/-! ## C12: the precedence of the Player's keys -/

/-- What `Player.tick` does for a Player recorded inside the grid: it raises
nothing, and asks for the cell of its direction when that cell is inside the
grid. -/
theorem Player.tick_eq (self : LevelEntity) (keyPresses : String → Bool) (g : LevelGrid)
    (pos : Position) (hpos : g.getPosition self = some pos)
    (hin : g.inBounds pos.x pos.y = true) :
    Player.tick self keyPresses g = Result.ok ()
      (match Player.heading keyPresses with
       | none => g
       | some heading =>
         if g.inBounds (heading.cell pos).1 (heading.cell pos).2 then
           g.addRequest self (heading.cell pos).1 (heading.cell pos).2
         else g) := by
  unfold Player.tick
  cases hh : Player.heading keyPresses with
  | none => rfl
  | some heading =>
    simp only [hpos]
    have hin2 := hin
    unfold LevelGrid.inBounds at hin2
    cases hr : g.rows with
    | none => simp [hr] at hin2
    | some rows =>
      simp only [hr, decide_eq_true_eq] at hin2
      have hb : ∀ x y, g.inBounds x y = true ↔ (0 ≤ x ∧ x < g.columns ∧ 0 ≤ y ∧ y < rows) := by
        intro x y
        unfold LevelGrid.inBounds
        simp only [hr, decide_eq_true_eq]
      cases heading with
      | right =>
        simp only [Heading.cell]
        by_cases hc : pos.x < (g.columns : Int) - 1
        · have hi : g.inBounds (pos.x + 1) pos.y = true := (hb _ _).2 (by omega)
          rw [if_pos hc, if_pos hi, requestMove_inBounds g self _ _ hi]
        · have hi : ¬ g.inBounds (pos.x + 1) pos.y = true := by
            rw [hb]
            omega
          rw [if_neg hc, if_neg hi]
      | left =>
        simp only [Heading.cell]
        by_cases hc : pos.x > 0
        · have hi : g.inBounds (pos.x - 1) pos.y = true := (hb _ _).2 (by omega)
          rw [if_pos hc, if_pos hi, requestMove_inBounds g self _ _ hi]
        · have hi : ¬ g.inBounds (pos.x - 1) pos.y = true := by
            rw [hb]
            omega
          rw [if_neg hc, if_neg hi]
      | down =>
        simp only [Heading.cell]
        by_cases hc : pos.y < (rows : Int) - 1
        · have hi : g.inBounds pos.x (pos.y + 1) = true := (hb _ _).2 (by omega)
          rw [if_pos hc, if_pos hi, requestMove_inBounds g self _ _ hi]
        · have hi : ¬ g.inBounds pos.x (pos.y + 1) = true := by
            rw [hb]
            omega
          rw [if_neg hc, if_neg hi]
      | up =>
        simp only [Heading.cell]
        by_cases hc : pos.y > 0
        · have hi : g.inBounds pos.x (pos.y - 1) = true := (hb _ _).2 (by omega)
          rw [if_pos hc, if_pos hi, requestMove_inBounds g self _ _ hi]
        · have hi : ¬ g.inBounds pos.x (pos.y - 1) = true := by
            rw [hb]
            omega
          rw [if_neg hc, if_neg hi]

theorem playerScene_consistent : playerScene.Consistent :=
  consistent_of_applyOps [GridOp.place ⟨0, Kind.player⟩ 1 1] 3 3 _ _ (by decide) rfl

/-- C12, as stated, fails: with `'d'` and `'a'` both held a right key and a left key
are down, so the claimed precedence gives left; `Player.tick` takes the branch of
right and asks for the cell to the right. With both arrow keys held (and no
letter key) the claimed precedence gives left as well, and `Player.tick` asks for
nothing. -/
theorem player_precedence_counterexample :
    Player.claimedHeading (heldKeys ["d", "a"]) = some Heading.left ∧
    Player.heading (heldKeys ["d", "a"]) = some Heading.right ∧
    Player.tick ⟨0, Kind.player⟩ (heldKeys ["d", "a"]) playerScene =
      Result.ok () (playerScene.addRequest ⟨0, Kind.player⟩ 2 1) ∧
    Player.claimedHeading (heldKeys ["ArrowRight", "ArrowLeft"]) = some Heading.left ∧
    Player.heading (heldKeys ["ArrowRight", "ArrowLeft"]) = none ∧
    Player.tick ⟨0, Kind.player⟩ (heldKeys ["ArrowRight", "ArrowLeft"]) playerScene =
      Result.ok () playerScene := by
  refine ⟨by decide, by decide, by decide, by decide, by decide, by decide⟩

/-- C12, amended: for a Player recorded at a cell `pos` inside the grid,
`Player.tick` raises nothing and chooses the cell to the right if `'d'` is held, or
`ArrowRight` is held and no left key is; otherwise the cell to the left if `'a'` is
held, or `ArrowLeft` is held and no right key is; otherwise the cell below if `'s'`
is held, or `ArrowDown` is held and no up key is; otherwise the cell above if `'w'`
is held, or `ArrowUp` is held and no down key is; otherwise nothing (the cell chosen
is requested when it is inside the grid). In particular, when `ArrowRight` is held
together with a left key and `'d'` is not held, the branch of right is not taken. -/
theorem player_precedence (self : LevelEntity) (keyPresses : String → Bool) (g : LevelGrid)
    (pos : Position) (hpos : g.getPosition self = some pos)
    (hin : g.inBounds pos.x pos.y = true) :
    Player.tick self keyPresses g = Result.ok ()
      (if keyPresses "d" = true ∨ (keyPresses "ArrowRight" = true ∧
          ¬ (keyPresses "a" = true ∨ keyPresses "ArrowLeft" = true)) then
        g.attempt self (pos.x + 1) pos.y
      else if keyPresses "a" = true ∨ (keyPresses "ArrowLeft" = true ∧
          ¬ (keyPresses "d" = true ∨ keyPresses "ArrowRight" = true)) then
        g.attempt self (pos.x - 1) pos.y
      else if keyPresses "s" = true ∨ (keyPresses "ArrowDown" = true ∧
          ¬ (keyPresses "w" = true ∨ keyPresses "ArrowUp" = true)) then
        g.attempt self pos.x (pos.y + 1)
      else if keyPresses "w" = true ∨ (keyPresses "ArrowUp" = true ∧
          ¬ (keyPresses "s" = true ∨ keyPresses "ArrowDown" = true)) then
        g.attempt self pos.x (pos.y - 1)
      else g) ∧
    (keyPresses "ArrowRight" = true →
      (keyPresses "a" = true ∨ keyPresses "ArrowLeft" = true) → keyPresses "d" = false →
      Player.heading keyPresses ≠ some Heading.right) := by
  constructor
  · rw [Player.tick_eq self keyPresses g pos hpos hin]
    unfold Player.heading LevelGrid.attempt
    cases keyPresses "d" <;> cases keyPresses "ArrowRight" <;> cases keyPresses "a" <;>
      cases keyPresses "ArrowLeft" <;> cases keyPresses "s" <;> cases keyPresses "ArrowDown" <;>
      cases keyPresses "w" <;> cases keyPresses "ArrowUp" <;>
      simp [Heading.cell]
  · intro h1 h2 h3
    unfold Player.heading
    rw [h1, h3]
    revert h2
    generalize keyPresses "a" = ka
    generalize keyPresses "ArrowLeft" = kal
    generalize keyPresses "s" = ks
    generalize keyPresses "ArrowDown" = kad
    generalize keyPresses "w" = kw
    generalize keyPresses "ArrowUp" = kau
    revert ka kal ks kad kw kau
    decide

/-- Witness for C12: the Player in the middle of `playerScene` with `ArrowRight`
and `'a'` held asks for the cell to its left. -/
theorem player_precedence_witness :
    Player.tick ⟨0, Kind.player⟩ (heldKeys ["ArrowRight", "a"]) playerScene =
      Result.ok () (playerScene.addRequest ⟨0, Kind.player⟩ 0 1) ∧
    Player.heading (heldKeys ["ArrowRight", "a"]) ≠ some Heading.right := by
  have h := player_precedence ⟨0, Kind.player⟩ (heldKeys ["ArrowRight", "a"]) playerScene
    ⟨0, 1, 1⟩ rfl (by decide)
  refine ⟨?_, h.2 (by decide) (Or.inl (by decide)) (by decide)⟩
  rw [h.1]
  decide

/-! ## C13: the requests of the Player -/

theorem Heading.cell_unit (heading : Heading) (pos : Position) :
    (|(heading.cell pos).1 - pos.x| = 1 ∧ (heading.cell pos).2 = pos.y) ∨
      ((heading.cell pos).1 = pos.x ∧ |(heading.cell pos).2 - pos.y| = 1) := by
  cases heading
  · left
    simp [Heading.cell]
  · left
    simp [Heading.cell]
  · right
    simp [Heading.cell]
  · right
    simp [Heading.cell]

/-- C13: for a Player recorded at a cell `pos` inside the grid and every key
state, `Player.tick` raises nothing (so `requestMove` raises no
`MoveRequestError`) and either leaves the grid as it is or issues exactly one
request, for the Player itself, for a cell inside the grid that differs from `pos`
by 1 on exactly one axis; the request is for the cell of the direction chosen, and
none is issued when that cell is outside the grid. -/
theorem player_requests_bounded (self : LevelEntity) (keyPresses : String → Bool)
    (g : LevelGrid) (pos : Position) (hpos : g.getPosition self = some pos)
    (hin : g.inBounds pos.x pos.y = true) :
    ∃ g2, Player.tick self keyPresses g = Result.ok () g2 ∧
      (g2 = g ∨ ∃ x y, g2 = g.addRequest self x y ∧ g.inBounds x y = true ∧
        ((|x - pos.x| = 1 ∧ y = pos.y) ∨ (x = pos.x ∧ |y - pos.y| = 1))) ∧
      (Player.heading keyPresses = none → g2 = g) ∧
      (∀ heading, Player.heading keyPresses = some heading →
        g.inBounds (heading.cell pos).1 (heading.cell pos).2 = false → g2 = g) ∧
      (∀ heading, Player.heading keyPresses = some heading →
        g.inBounds (heading.cell pos).1 (heading.cell pos).2 = true →
        g2 = g.addRequest self (heading.cell pos).1 (heading.cell pos).2) ∧
      (∀ g1, Player.tick self keyPresses g ≠ Result.error Err.moveRequestError g1) := by
  have h := Player.tick_eq self keyPresses g pos hpos hin
  refine ⟨_, h, ?_, ?_, ?_, ?_, ?_⟩
  · cases hh : Player.heading keyPresses with
    | none => exact Or.inl rfl
    | some heading =>
      simp only
      by_cases hb : g.inBounds (heading.cell pos).1 (heading.cell pos).2 = true
      · rw [if_pos hb]
        exact Or.inr ⟨_, _, rfl, hb, heading.cell_unit pos⟩
      · rw [if_neg hb]
        exact Or.inl rfl
  · intro hh
    rw [hh]
  · intro heading hh hb
    rw [hh]
    simp only [hb]
    rfl
  · intro heading hh hb
    rw [hh]
    simp only [hb, if_true]
  · intro g1 hg1
    rw [h] at hg1
    cases hg1

/-- Witness for C13: the Player of `chaseScene` stands in the last column `(3, 3)`;
with `'d'` held it chooses right and issues no request. -/
theorem player_requests_bounded_witness :
    ∃ g2, Player.tick ⟨0, Kind.player⟩ (heldKeys ["d"]) chaseScene = Result.ok () g2 ∧
      (g2 = chaseScene ∨ ∃ x y, g2 = chaseScene.addRequest ⟨0, Kind.player⟩ x y ∧
        chaseScene.inBounds x y = true ∧
        ((|x - 3| = 1 ∧ y = 3) ∨ (x = 3 ∧ |y - 3| = 1))) ∧
      (Player.heading (heldKeys ["d"]) = none → g2 = chaseScene) ∧
      (∀ heading, Player.heading (heldKeys ["d"]) = some heading →
        chaseScene.inBounds (heading.cell ⟨0, 3, 3⟩).1 (heading.cell ⟨0, 3, 3⟩).2 = false →
        g2 = chaseScene) ∧
      (∀ heading, Player.heading (heldKeys ["d"]) = some heading →
        chaseScene.inBounds (heading.cell ⟨0, 3, 3⟩).1 (heading.cell ⟨0, 3, 3⟩).2 = true →
        g2 = chaseScene.addRequest ⟨0, Kind.player⟩ (heading.cell ⟨0, 3, 3⟩).1
          (heading.cell ⟨0, 3, 3⟩).2) ∧
      (∀ g1, Player.tick ⟨0, Kind.player⟩ (heldKeys ["d"]) chaseScene ≠
        Result.error Err.moveRequestError g1) :=
  player_requests_bounded ⟨0, Kind.player⟩ (heldKeys ["d"]) chaseScene ⟨0, 3, 3⟩ rfl (by decide)

/-! ## C17: the two axes of the Player's keys -/

theorem mirror_outcome (keyPresses : String → Bool) (h : onlyHorizontal keyPresses) :
    Heading.outcome (Player.heading keyPresses) =
      Heading.outcome (Player.heading (mirrorKeys keyPresses)) := by
  obtain ⟨h1, h2, h3, h4⟩ := h
  have e1 : mirrorKeys keyPresses "d" = keyPresses "s" := rfl
  have e2 : mirrorKeys keyPresses "s" = keyPresses "d" := rfl
  have e3 : mirrorKeys keyPresses "a" = keyPresses "w" := rfl
  have e4 : mirrorKeys keyPresses "w" = keyPresses "a" := rfl
  have e5 : mirrorKeys keyPresses "ArrowRight" = keyPresses "ArrowDown" := rfl
  have e6 : mirrorKeys keyPresses "ArrowDown" = keyPresses "ArrowRight" := rfl
  have e7 : mirrorKeys keyPresses "ArrowLeft" = keyPresses "ArrowUp" := rfl
  have e8 : mirrorKeys keyPresses "ArrowUp" = keyPresses "ArrowLeft" := rfl
  unfold Player.heading
  rw [e1, e2, e3, e4, e5, e6, e7, e8, h1, h2, h3, h4]
  cases keyPresses "d" <;> cases keyPresses "ArrowRight" <;> cases keyPresses "a" <;>
    cases keyPresses "ArrowLeft" <;> rfl

/-- C17, as stated, fails: no key state with only horizontal keys held has an
outcome that differs from the outcome of the mirrored key state. -/
theorem axis_asymmetry_counterexample :
    ¬ ∃ keyPresses : String → Bool, onlyHorizontal keyPresses ∧
      Heading.outcome (Player.heading keyPresses) ≠
        Heading.outcome (Player.heading (mirrorKeys keyPresses)) := by
  rintro ⟨keyPresses, h, hne⟩
  exact hne (mirror_outcome keyPresses h)

/-- C17, amended: the precedence test treats the right/left pair and the down/up
pair alike. For every key state in which only horizontal keys are held the outcome
equals the outcome of the mirrored key state, in which the corresponding vertical
keys are held; what the test treats differently is, within each pair, the letter
keys and the arrow keys: with both letter keys of a pair held the Player moves in
the positive direction, with both arrow keys held it does not move. -/
theorem axis_asymmetry (keyPresses : String → Bool) (h : onlyHorizontal keyPresses) :
    Heading.outcome (Player.heading keyPresses) =
      Heading.outcome (Player.heading (mirrorKeys keyPresses)) ∧
    Heading.outcome (Player.heading (heldKeys ["d", "a"])) = Outcome.positive ∧
    Heading.outcome (Player.heading (heldKeys ["ArrowRight", "ArrowLeft"])) = Outcome.noMove ∧
    Heading.outcome (Player.heading (heldKeys ["s", "w"])) = Outcome.positive ∧
    Heading.outcome (Player.heading (heldKeys ["ArrowDown", "ArrowUp"])) = Outcome.noMove :=
  ⟨mirror_outcome keyPresses h, by decide, by decide, by decide, by decide⟩

/-- Witness for C17: `ArrowRight` held together with `'a'` gives a move in the
negative direction, and so does the mirrored key state, `ArrowDown` with `'w'`. -/
theorem axis_asymmetry_witness :
    onlyHorizontal (heldKeys ["ArrowRight", "a"]) ∧
    mirrorKeys (heldKeys ["ArrowRight", "a"]) "ArrowDown" = true ∧
    mirrorKeys (heldKeys ["ArrowRight", "a"]) "w" = true ∧
    Heading.outcome (Player.heading (heldKeys ["ArrowRight", "a"])) = Outcome.negative ∧
    Heading.outcome (Player.heading (mirrorKeys (heldKeys ["ArrowRight", "a"]))) =
      Outcome.negative := by
  have hh : onlyHorizontal (heldKeys ["ArrowRight", "a"]) := by
    refine ⟨by decide, by decide, by decide, by decide⟩
  have h := (axis_asymmetry (heldKeys ["ArrowRight", "a"]) hh).1
  refine ⟨hh, by decide, by decide, by decide, ?_⟩
  rw [← h]
  decide

/-! ## C14: decisions do not mutate the grid -/

theorem OnlyRequests.keepsGrid {self : LevelEntity} {g g2 : LevelGrid}
    (h : OnlyRequests self g g2) : GridSame g g2 := by
  rcases h with rfl | ⟨x, y, rfl⟩
  · exact GridSame.self _
  · exact ⟨rfl, rfl, rfl⟩

theorem requestMove_state (g : LevelGrid) (e : LevelEntity) (x y : Int) :
    OnlyRequests e g (g.requestMove e x y).state := by
  unfold LevelGrid.requestMove
  split
  · exact Or.inl rfl
  · split
    · split
      · exact Or.inr ⟨x, y, rfl⟩
      · exact Or.inl rfl
    · exact Or.inl rfl

theorem Player.tick_onlyRequests (self : LevelEntity) (keyPresses : String → Bool) (g : LevelGrid) :
    OnlyRequests self g (Player.tick self keyPresses g).state := by
  unfold Player.tick
  split
  · exact Or.inl rfl
  · split
    · exact Or.inl rfl
    · split
      · split
        · exact requestMove_state g self _ _
        · exact Or.inl rfl
      · split
        · exact requestMove_state g self _ _
        · exact Or.inl rfl
      · split
        · exact Or.inl rfl
        · split
          · exact requestMove_state g self _ _
          · exact Or.inl rfl
      · split
        · exact requestMove_state g self _ _
        · exact Or.inl rfl

theorem BasicEnemy.tick_leavesGrid (self : LevelEntity) (this : BasicEnemy) (tickCount : Int)
    (g : LevelGrid) (random1 random2 : ℚ) :
    OnlyRequests self g (BasicEnemy.tick self this tickCount g random1 random2).2.state := by
  unfold BasicEnemy.tick
  simp only []
  cases hpos : g.getPosition self with
  | none => exact Or.inl rfl
  | some p =>
    simp only []
    repeat' split
    all_goals try exact Or.inl rfl
    all_goals
      rename_i heq
      exact heq ▸ requestMove_state g self _ _

/-- The call `levelEntity.tick(...)` of any entity, whether it returns or raises:
the grid keeps its cells and its position index, at most one request of the
entity itself is stored, and the fields of the other entities are untouched. -/
theorem LevelEntity.tick_keeps (self : LevelEntity) (tickCount : Int)
    (keyPresses : String → Bool) (dr : ℚ × ℚ) (lv : Level) :
    OnlyRequests self lv.levelGrid (self.tick tickCount keyPresses dr lv).1.levelGrid ∧
      ∀ f, f ≠ self → (self.tick tickCount keyPresses dr lv).1.fields f = lv.fields f := by
  unfold LevelEntity.tick
  split
  · exact ⟨Or.inl rfl, fun _ _ => rfl⟩
  · have h := Player.tick_onlyRequests self keyPresses lv.levelGrid
    split
    · rename_i heq
      rw [heq] at h
      exact ⟨h, fun _ _ => rfl⟩
    · rename_i heq
      rw [heq] at h
      exact ⟨h, fun _ _ => rfl⟩
  · have h := BasicEnemy.tick_leavesGrid self (lv.fields self) tickCount lv.levelGrid dr.1 dr.2
    split
    · rename_i heq
      rw [heq] at h
      exact ⟨h, fun f hf => Function.update_noteq hf _ _⟩
    · rename_i heq
      rw [heq] at h
      exact ⟨h, fun f hf => Function.update_noteq hf _ _⟩

theorem tickLoop_gridSame (tickCount : Int) (keyPresses : String → Bool)
    (draws : LevelEntity → ℚ × ℚ) (es : List LevelEntity) :
    ∀ lv, GridSame lv.levelGrid (tickLoop tickCount keyPresses draws es lv).1.levelGrid := by
  induction es with
  | nil =>
    intro lv
    exact GridSame.self _
  | cons a rest ih =>
    intro lv
    have h := (LevelEntity.tick_keeps a tickCount keyPresses (draws a) lv).1.keepsGrid
    simp only [tickLoop]
    split
    · rename_i lv1 err heq
      rw [heq] at h
      exact h
    · rename_i lv1 heq
      rw [heq] at h
      exact h.chain (ih lv1)

theorem tickLoop_append (tickCount : Int) (keyPresses : String → Bool)
    (draws : LevelEntity → ℚ × ℚ) (pre post : List LevelEntity) :
    ∀ lv lvm, tickLoop tickCount keyPresses draws pre lv = (lvm, none) →
      tickLoop tickCount keyPresses draws (pre ++ post) lv =
        tickLoop tickCount keyPresses draws post lvm := by
  induction pre with
  | nil =>
    intro lv lvm h
    simp only [tickLoop] at h
    cases h
    rfl
  | cons a rest ih =>
    intro lv lvm h
    simp only [tickLoop, List.cons_append] at h ⊢
    split at h
    · cases h
    · rename_i lv1 heq
      exact ih lv1 lvm h

/-- C14: in the decision phase of `LevelGrid.tick`, when the loop has reached the
entity `e` (the entities `pre` before it have decided without an exception,
leaving the level `lvm`): the grid that `e` observes has the cells and the position
index that the grid had when the tick began; the loop calls `e.tick` on it; and
that call, for an entity of any class, whether it returns or raises, leaves every
cell and the whole position index as they are, stores at most one request, for `e`
itself, and leaves the fields of every other entity untouched. -/
theorem decision_frame (tickCount : Int) (keyPresses : String → Bool)
    (draws : LevelEntity → ℚ × ℚ) (pre : List LevelEntity) (e : LevelEntity)
    (post : List LevelEntity) (lv lvm : Level)
    (hpre : tickLoop tickCount keyPresses draws pre lv = (lvm, none)) :
    GridSame lv.levelGrid lvm.levelGrid ∧
    tickLoop tickCount keyPresses draws (pre ++ e :: post) lv =
      (match e.tick tickCount keyPresses (draws e) lvm with
       | (lv1, some err) => (lv1, some err)
       | (lv1, none) => tickLoop tickCount keyPresses draws post lv1) ∧
    GridSame lvm.levelGrid (e.tick tickCount keyPresses (draws e) lvm).1.levelGrid ∧
    ((e.tick tickCount keyPresses (draws e) lvm).1.levelGrid.requests = lvm.levelGrid.requests ∨
      ∃ x y, (e.tick tickCount keyPresses (draws e) lvm).1.levelGrid.requests =
        mapSet lvm.levelGrid.requests e ⟨x, y⟩) ∧
    (∀ f, f ≠ e → (e.tick tickCount keyPresses (draws e) lvm).1.fields f = lvm.fields f) ∧
    GridSame lv.levelGrid
      (tickLoop tickCount keyPresses draws (pre ++ e :: post) lv).1.levelGrid := by
  have h1 := tickLoop_gridSame tickCount keyPresses draws pre lv
  rw [hpre] at h1
  obtain ⟨h2, h3⟩ := LevelEntity.tick_keeps e tickCount keyPresses (draws e) lvm
  refine ⟨h1, ?_, h2.keepsGrid, ?_, h3, tickLoop_gridSame tickCount keyPresses draws _ lv⟩
  · rw [tickLoop_append tickCount keyPresses draws pre (e :: post) lv lvm hpre]
    rfl
  · rcases h2 with h | ⟨x, y, h⟩
    · rw [h]
      exact Or.inl rfl
    · rw [h]
      exact Or.inr ⟨x, y, rfl⟩

/-- Witness for C14: on tick 5 of `cooldownLevel` with `'a'` held the Player decides
first and asks for `(2, 3)`; the enemy then observes the cells and the position
index of the start of the tick, and its own `tick` leaves them as they are. -/
theorem decision_frame_witness :
    tickLoop 5 (heldKeys ["a"]) (fun _ => (1 / 2, 1 / 2)) [⟨0, Kind.player⟩] cooldownLevel =
      (decidedLevel, none) ∧
    GridSame cooldownLevel.levelGrid decidedLevel.levelGrid ∧
    GridSame decidedLevel.levelGrid
      (LevelEntity.tick ⟨1, Kind.basicEnemy⟩ 5 (heldKeys ["a"]) (1 / 2, 1 / 2)
        decidedLevel).1.levelGrid ∧
    GridSame cooldownLevel.levelGrid
      (tickLoop 5 (heldKeys ["a"]) (fun _ => (1 / 2, 1 / 2))
        ([⟨0, Kind.player⟩] ++ [⟨1, Kind.basicEnemy⟩]) cooldownLevel).1.levelGrid :=
  have h := decision_frame 5 (heldKeys ["a"]) (fun _ => (1 / 2, 1 / 2)) [⟨0, Kind.player⟩]
    ⟨1, Kind.basicEnemy⟩ [] cooldownLevel decidedLevel rfl
  ⟨rfl, h.1, h.2.2.1, h.2.2.2.2.2⟩

/-! ## C15: building a level -/

theorem mapSet_fresh {α β : Type} [DecidableEq α] (m : List (α × β)) (k : α) (v : β)
    (h : mapGet m k = none) : mapSet m k v = m ++ [(k, v)] := by
  induction m with
  | nil => rfl
  | cons hd tl ih =>
    obtain ⟨k', v'⟩ := hd
    by_cases hk : k' = k
    · simp [mapGet, hk] at h
    · simp only [mapGet, hk, if_false] at h
      simp only [mapSet, hk, if_false, List.cons_append, ih h]

theorem addLevelEntity_map (g g2 : LevelGrid) (e : LevelEntity) (x y : Int)
    (h : g.addLevelEntity e x y = Result.ok () g2) :
    g2.levelEntityPositionMap = mapSet g.levelEntityPositionMap e ⟨g.alloc, x, y⟩ := by
  unfold LevelGrid.addLevelEntity at h
  split at h
  · cases h
  · split at h
    · cases h
    · split at h
      · cases h
      · cases h
        rfl

theorem addLevelEntity_error (g : LevelGrid) (e : LevelEntity) (x y : Int)
    (h : g.inBounds x y = false) : ∃ err, g.addLevelEntity e x y = Result.error err g := by
  unfold LevelGrid.inBounds at h
  unfold LevelGrid.addLevelEntity
  cases hr : g.rows with
  | none => exact ⟨_, rfl⟩
  | some rows =>
    simp only [hr, decide_eq_false_iff_not] at h
    have hcond : x < 0 ∨ y < 0 ∨ x ≥ g.columns ∨ y ≥ rows := by omega
    simp only [if_pos hcond]
    exact ⟨_, rfl⟩

theorem buildLevelObject_cases (id : Nat) (blueprint : Blueprint) :
    (∃ kind fields, blueprint.kind = some kind ∧
        buildLevelObject id blueprint = Except.ok (⟨id, kind⟩, fields)) ∨
      (blueprint.kind = none ∧ ∃ err, buildLevelObject id blueprint = Except.error err) := by
  unfold Blueprint.kind stringEntityMap buildLevelObject
  by_cases h1 : blueprint.type.toLower = "player"
  · rw [if_pos h1, if_pos h1]
    exact Or.inl ⟨_, _, rfl, rfl⟩
  · by_cases h2 : blueprint.type.toLower = "basicenemy"
    · rw [if_neg h1, if_neg h1, if_pos h2, if_pos h2]
      exact Or.inl ⟨_, _, rfl, rfl⟩
    · by_cases h3 : blueprint.type.toLower = "wall"
      · rw [if_neg h1, if_neg h1, if_neg h2, if_neg h2, if_pos h3, if_pos h3]
        exact Or.inl ⟨_, _, rfl, rfl⟩
      · rw [if_neg h1, if_neg h1, if_neg h2, if_neg h2, if_neg h3, if_neg h3]
        exact Or.inr ⟨rfl, _, rfl⟩

theorem Blueprint.valid_congr (g g2 : LevelGrid) (hc : g2.columns = g.columns)
    (hr : g2.rows = g.rows) : Blueprint.valid g2 = Blueprint.valid g := by
  funext b
  unfold Blueprint.valid
  rw [inBounds_congr g g2 _ _ hc hr]

/-- The loop of `buildLevel`, run from a consistent grid whose entities were
created before `nextId`. -/
theorem buildLoop_spec (l : List Blueprint) :
    ∀ (level : Level) (nextId : Nat), level.levelGrid.Consistent →
      (∀ e ∈ level.levelGrid.entities, e.id < nextId) →
      (buildLoop l level nextId).levelGrid.Consistent ∧
      (buildLoop l level nextId).levelGrid.census = level.levelGrid.census ++
        (l.filter (Blueprint.valid level.levelGrid)).map (fun b => (b.kind, b.x, b.y)) ∧
      (buildLoop l level nextId).levelGrid.columns = level.levelGrid.columns ∧
      (buildLoop l level nextId).levelGrid.rows = level.levelGrid.rows ∧
      (buildLoop l level nextId).levelGrid.requests = level.levelGrid.requests := by
  induction l with
  | nil =>
    intro level nextId hc _
    exact ⟨hc, by simp [buildLoop], rfl, rfl, rfl⟩
  | cons b rest ih =>
    intro level nextId hc hid
    rcases buildLevelObject_cases nextId b with ⟨kind, fields, hk, hobj⟩ | ⟨hk, err, hobj⟩
    · by_cases hin : level.levelGrid.inBounds b.x b.y = true
      · have hfresh : level.levelGrid.getPosition ⟨nextId, kind⟩ = none := by
          cases hp : level.levelGrid.getPosition ⟨nextId, kind⟩ with
          | none => rfl
          | some p =>
            have := hid _ (mem_entities_of_getPosition _ _ p hp)
            simp at this
        obtain ⟨g2, hadd, hc2, hreq, -, hpe, hpf, hcol, hrow⟩ :=
          addLevelEntity_spec level.levelGrid ⟨nextId, kind⟩ b.x b.y hc hfresh hin
        have hmap := addLevelEntity_map _ _ _ _ _ hadd
        rw [getPosition_eq] at hfresh
        rw [mapSet_fresh _ _ _ hfresh] at hmap
        have hid2 : ∀ e ∈ g2.entities, e.id < nextId + 1 := by
          intro e he
          by_cases hee : e = ⟨nextId, kind⟩
          · rw [hee]
            exact Nat.lt_succ_self _
          · have h1 := getPosition_isSome_of_mem_entities g2 e he
            rw [hpf e hee] at h1
            obtain ⟨p, hp⟩ := Option.isSome_iff_exists.1 h1
            exact Nat.lt_succ_of_lt (hid e (mem_entities_of_getPosition _ _ p hp))
        have hvalid : Blueprint.valid level.levelGrid b = true := by
          unfold Blueprint.valid
          rw [hk, hin]
          rfl
        simp only [buildLoop, hobj, hadd]
        obtain ⟨i1, i2, i3, i4, i5⟩ := ih
          { levelGrid := g2, fields := installFields fields ⟨nextId, kind⟩ level.fields }
          (nextId + 1) hc2 hid2
        refine ⟨i1, ?_, i3.trans hcol, i4.trans hrow, i5.trans hreq⟩
        rw [i2, List.filter_cons_of_pos hvalid, List.map_cons,
          Blueprint.valid_congr level.levelGrid g2 hcol hrow]
        simp only [LevelGrid.census, hmap, List.map_append, List.map_cons, List.map_nil,
          List.append_assoc, List.singleton_append, hk]
      · have hin2 : level.levelGrid.inBounds b.x b.y = false := by
          simpa using hin
        obtain ⟨err, hadd⟩ := addLevelEntity_error level.levelGrid ⟨nextId, kind⟩ b.x b.y hin2
        have hvalid : ¬ Blueprint.valid level.levelGrid b = true := by
          unfold Blueprint.valid
          rw [hin2]
          simp
        simp only [buildLoop, hobj, hadd]
        obtain ⟨i1, i2, i3, i4, i5⟩ := ih level (nextId + 1) hc
          (fun e he => Nat.lt_succ_of_lt (hid e he))
        refine ⟨i1, ?_, i3, i4, i5⟩
        rw [i2, List.filter_cons_of_neg hvalid]
    · have hvalid : ¬ Blueprint.valid level.levelGrid b = true := by
        unfold Blueprint.valid
        rw [hk]
        simp
      simp only [buildLoop, hobj]
      obtain ⟨i1, i2, i3, i4, i5⟩ := ih level nextId hc hid
      refine ⟨i1, ?_, i3, i4, i5⟩
      rw [i2, List.filter_cons_of_neg hvalid]

/-- C15: for a stage with at least one column (and any number of rows) and every
list of blueprints, `buildLevel` returns a level (every exception is caught in its
loop) whose grid has the dimensions of the stage, is consistent (its entities are
pairwise distinct objects, each a member of exactly the cell of its recorded
position), and whose entities are, in order, one for each blueprint whose type
names a class without regard to case and whose cell is inside the grid, of that
class and recorded at that cell; a blueprint with another type or a cell outside
the grid yields no entity. -/
theorem build_recovery (levelData : LevelData) (hcolumns : 1 ≤ levelData.stageData.columns) :
    (buildLevel levelData).levelGrid.Consistent ∧
    (buildLevel levelData).levelGrid.census =
      (levelData.levelEntities.filter (Blueprint.valid
        (LevelGrid.new levelData.stageData.columns levelData.stageData.rows))).map
        (fun b => (b.kind, b.x, b.y)) ∧
    (buildLevel levelData).levelGrid.columns = levelData.stageData.columns ∧
    (buildLevel levelData).levelGrid.rows = some levelData.stageData.rows ∧
    (buildLevel levelData).levelGrid.requests = [] := by
  obtain ⟨h1, h2, h3, h4, h5⟩ := buildLoop_spec levelData.levelEntities
    { levelGrid := LevelGrid.new levelData.stageData.columns levelData.stageData.rows
      fields := fun _ => BasicEnemy.new BASIC_ENEMY_MOVE_PERIOD isPlayer }
    0 (consistent_new _ _) (fun e he => absurd he (List.not_mem_nil e))
  refine ⟨h1, ?_, ?_, ?_, h5⟩
  · unfold buildLevel
    rw [h2]
    rfl
  · unfold buildLevel
    rw [h3]
    simp [LevelGrid.columns, LevelGrid.new, buildLevelGridArray]
  · unfold buildLevel
    rw [h4]
    unfold LevelGrid.rows LevelGrid.new buildLevelGridArray
    obtain ⟨c, hc⟩ : ∃ c, levelData.stageData.columns = c + 1 :=
      ⟨levelData.stageData.columns - 1, by omega⟩
    rw [hc]
    simp [List.replicate_succ]

/-- Witness for C15: of the four blueprints of `sampleLevelData` the Player and the
enemy are built; the entity of unknown type and the wall outside the grid are
left out. -/
theorem build_recovery_witness :
    (buildLevel sampleLevelData).levelGrid.Consistent ∧
    (buildLevel sampleLevelData).levelGrid.census =
      [(some Kind.player, 0, 0), (some Kind.basicEnemy, 2, 1)] ∧
    (buildLevel sampleLevelData).levelGrid.columns = 3 ∧
    (buildLevel sampleLevelData).levelGrid.rows = some 2 :=
  have h := build_recovery sampleLevelData (by decide)
  ⟨h.1, h.2.1.trans (by decide!), h.2.2.1, h.2.2.2.1⟩

/-! ## C16: a request for the entity's own cell -/

theorem caughtScene_consistent : caughtScene.Consistent :=
  consistent_of_applyOps [GridOp.place ⟨0, Kind.basicEnemy⟩ 0 0,
    GridOp.place ⟨1, Kind.player⟩ 0 0] 2 2 _ _ (by decide) rfl

/-- C16 fails on the code. On `caughtScene`, a consistent grid, the enemy is in the
cell `(0, 0)` of its target. `requestMove(enemy, 0, 0)` stores the request instead
of ignoring it, the eligible `tick` of the enemy issues exactly this request, and
`processAllRequests` does not skip it: it calls `move`, after which the enemy has a
new position object and has changed its place in the cell set and in the position
index; at its next `tick` the enemy therefore takes itself to have moved and
restarts its cooldown. -/
theorem own_cell_request :
    caughtScene.Consistent ∧
    caughtScene.getPosition ⟨0, Kind.basicEnemy⟩ = some ⟨0, 0, 0⟩ ∧
    caughtScene.requestMove ⟨0, Kind.basicEnemy⟩ 0 0 =
      Result.ok () (caughtScene.addRequest ⟨0, Kind.basicEnemy⟩ 0 0) ∧
    (caughtScene.addRequest ⟨0, Kind.basicEnemy⟩ 0 0).requests =
      [(⟨0, Kind.basicEnemy⟩, ⟨0, 0⟩)] ∧
    (BasicEnemy.tick ⟨0, Kind.basicEnemy⟩ (BasicEnemy.new 2 isPlayer) 2 caughtScene (1 / 2)
        (1 / 2)).2 = Result.ok () (caughtScene.addRequest ⟨0, Kind.basicEnemy⟩ 0 0) ∧
    processSingleRequest 2 (caughtScene.addRequest ⟨0, Kind.basicEnemy⟩ 0 0)
        ⟨0, Kind.basicEnemy⟩ (some ⟨0, 0⟩) [] =
      Result.ok [] caughtSceneMoved ∧
    processAllRequests 2 (caughtScene.addRequest ⟨0, Kind.basicEnemy⟩ 0 0) =
      Result.ok () caughtSceneMoved ∧
    caughtSceneMoved.getPosition ⟨0, Kind.basicEnemy⟩ = some ⟨2, 0, 0⟩ ∧
    ((BasicEnemy.tick ⟨0, Kind.basicEnemy⟩ (BasicEnemy.new 2 isPlayer) 2 caughtScene (1 / 2)
        (1 / 2)).1.observe (caughtScene.getPosition ⟨0, Kind.basicEnemy⟩)).lastMoved = 0 ∧
    ((BasicEnemy.tick ⟨0, Kind.basicEnemy⟩ (BasicEnemy.new 2 isPlayer) 2 caughtScene (1 / 2)
        (1 / 2)).1.observe (caughtSceneMoved.getPosition ⟨0, Kind.basicEnemy⟩)).lastMoved = 2 := by
  refine ⟨caughtScene_consistent, rfl, rfl, rfl, by decide!, rfl, rfl, rfl, by decide!,
    by decide!⟩

/-! ## Grids with at most one blocker in a cell -/

theorem SinglePos.except {g : LevelGrid} (h : SinglePos g) (c : LevelEntity) :
    SingleExcept g c :=
  fun e1 e2 p1 p2 h1 h2 hx hy n1 n2 => Or.inl (h e1 e2 p1 p2 h1 h2 hx hy n1 n2)

theorem mem_nonPlayers_iff (g : LevelGrid) (hc : g.Consistent) (x y : Int)
    (cell : List LevelEntity) (hcell : getCell g.grid x y = some cell) (f : LevelEntity) :
    f ∈ nonPlayers cell ↔
      isPlayer f = false ∧ ∃ p, g.getPosition f = some p ∧ p.x = x ∧ p.y = y := by
  rw [mem_nonPlayers, hc.mem_iff f x y cell hcell]
  exact And.comm

theorem singlePos_of_occupancy (g : LevelGrid) (hc : g.Consistent) (h : SingleOccupancy g) :
    SinglePos g := by
  intro e1 e2 p1 p2 h1 h2 hx hy n1 n2
  obtain ⟨cell, hcell⟩ := getCell_some_of_inBounds g p1.x p1.y hc.rect (hc.posInBounds e1 p1 h1)
  have m1 : e1 ∈ nonPlayers cell :=
    (mem_nonPlayers_iff g hc _ _ cell hcell e1).2 ⟨n1, p1, h1, rfl, rfl⟩
  have m2 : e2 ∈ nonPlayers cell :=
    (mem_nonPlayers_iff g hc _ _ cell hcell e2).2 ⟨n2, p2, h2, hx.symm, hy.symm⟩
  have hlen := h _ _ cell hcell
  cases hL : nonPlayers cell with
  | nil =>
    rw [hL] at m1
    cases m1
  | cons a t =>
    rw [hL] at m1 m2 hlen
    cases t with
    | nil =>
      rw [List.mem_singleton] at m1 m2
      rw [m1, m2]
    | cons b t2 =>
      simp only [List.length_cons] at hlen
      omega

theorem occupancy_of_singlePos (g : LevelGrid) (hc : g.Consistent) (h : SinglePos g) :
    SingleOccupancy g := by
  intro x y cell hcell
  have hnd := nodup_nonPlayers cell (hc.nodup _ _ _ hcell)
  cases hL : nonPlayers cell with
  | nil => simp
  | cons a t =>
    cases t with
    | nil => simp
    | cons b t2 =>
      exfalso
      have ma : a ∈ nonPlayers cell := by
        rw [hL]
        exact List.mem_cons_self _ _
      have mb : b ∈ nonPlayers cell := by
        rw [hL]
        exact List.mem_cons_of_mem _ (List.mem_cons_self _ _)
      obtain ⟨na, pa, hpa, hxa, hya⟩ := (mem_nonPlayers_iff g hc _ _ cell hcell a).1 ma
      obtain ⟨nb, pb, hpb, hxb, hyb⟩ := (mem_nonPlayers_iff g hc _ _ cell hcell b).1 mb
      have hab : a = b := h a b pa pb hpa hpb (hxa.trans hxb.symm) (hya.trans hyb.symm) na nb
      rw [hL, List.nodup_cons] at hnd
      exact hnd.1 (hab ▸ List.mem_cons_self _ _)

/-- With single occupancy a cell holds no blocker, or exactly one. -/
theorem SinglePos.oneBlocker {g : LevelGrid} (h : SinglePos g) (hc : g.Consistent) (x y : Int)
    (cell : List LevelEntity) (hcell : getCell g.grid x y = some cell) :
    nonPlayers cell = [] ∨ ∃ b, nonPlayers cell = [b] := by
  have hlen := occupancy_of_singlePos g hc h x y cell hcell
  cases hL : nonPlayers cell with
  | nil => exact Or.inl rfl
  | cons a t =>
    cases t with
    | nil => exact Or.inr ⟨a, rfl⟩
    | cons b t2 =>
      rw [hL] at hlen
      simp only [List.length_cons] at hlen
      omega

theorem nonPlayers_eq_nil (g : LevelGrid) (hc : g.Consistent) (x y : Int)
    (cell : List LevelEntity) (hcell : getCell g.grid x y = some cell)
    (h : ∀ f p, g.getPosition f = some p → p.x = x → p.y = y → isPlayer f = true) :
    nonPlayers cell = [] := by
  rw [List.eq_nil_iff_forall_not_mem]
  intro f hf
  obtain ⟨nf, p, hp, hx, hy⟩ := (mem_nonPlayers_iff g hc _ _ cell hcell f).1 hf
  rw [h f p hp hx hy] at nf
  cases nf

/-- Granting a request of `e` on a consistent grid: the two statements succeed; only
`e` changes, it is recorded at the requested cell and its request is gone. -/
theorem moveAndDelete_progress (g : LevelGrid) (e : LevelEntity) (q : Request)
    (visited : List LevelEntity) (hc : g.Consistent) (hb : g.inBounds q.x q.y = true)
    (hq : mapGet g.requests e = some q) :
    ∃ g2, moveAndDelete g e q visited = Result.ok visited g2 ∧ g2.Consistent ∧
      Progress g g2 ∧ mapGet g2.requests e = none ∧
      (∀ f, f ≠ e → mapGet g2.requests f = mapGet g.requests f) ∧
      (∀ f, f ≠ e → g2.getPosition f = g.getPosition f) ∧
      (∃ p, g2.getPosition e = some p ∧ p.x = q.x ∧ p.y = q.y) := by
  obtain ⟨g2, h2, hc2, hreq2, -, hpe2, hpf2, hcol2, hrow2⟩ :=
    moveAndDelete_spec g e q visited hc hb
  have hne : mapGet g2.requests e = none := by
    rw [hreq2]
    exact mapGet_mapDelete_self _ _
  have hsame : ∀ f, f ≠ e → mapGet g2.requests f = mapGet g.requests f := by
    intro f hf
    rw [hreq2]
    exact mapGet_mapDelete_ne _ _ _ hf
  refine ⟨g2, h2, hc2, ⟨hcol2, hrow2, ?_, ?_⟩, hne, hsame, hpf2, ⟨_, hpe2, rfl, rfl⟩⟩
  · rw [hreq2]
    unfold mapDelete
    exact List.length_filter_le _ _
  · intro f
    by_cases hfe : f = e
    · subst hfe
      exact Or.inr ⟨q, _, hq, hne, hpe2, rfl, rfl⟩
    · exact Or.inl ⟨hpf2 f hfe, hsame f hfe⟩

/-- Moving `e` to a cell where every other entity that is not a Player is `c`. -/
theorem SingleExcept.move {g g2 : LevelGrid} {c : LevelEntity} (h : SingleExcept g c)
    (e : LevelEntity) (q : Request)
    (hpe : ∃ p, g2.getPosition e = some p ∧ p.x = q.x ∧ p.y = q.y)
    (hpf : ∀ f, f ≠ e → g2.getPosition f = g.getPosition f)
    (hfree : ∀ f p, g.getPosition f = some p → p.x = q.x → p.y = q.y → isPlayer f = false →
      f = e ∨ f = c) :
    SingleExcept g2 c := by
  obtain ⟨pe, hpe, hex, hey⟩ := hpe
  intro e1 e2 p1 p2 h1 h2 hx hy n1 n2
  by_cases he1 : e1 = e
  · by_cases he2 : e2 = e
    · exact Or.inl (he1.trans he2.symm)
    · rw [he1, hpe] at h1
      cases h1
      rw [hpf e2 he2] at h2
      rcases hfree e2 p2 h2 (hx.symm.trans hex) (hy.symm.trans hey) n2 with h | h
      · exact absurd h he2
      · exact Or.inr (Or.inr h)
  · by_cases he2 : e2 = e
    · rw [he2, hpe] at h2
      cases h2
      rw [hpf e1 he1] at h1
      rcases hfree e1 p1 h1 (hx.trans hex) (hy.trans hey) n1 with h | h
      · exact absurd h he1
      · exact Or.inr (Or.inl h)
    · rw [hpf e1 he1] at h1
      rw [hpf e2 he2] at h2
      exact h e1 e2 p1 p2 h1 h2 hx hy n1 n2

/-- Moving `e`, the only entity with a surplus, to a cell without other entities
that are not Players restores single occupancy. -/
theorem SingleExcept.settle {g g2 : LevelGrid} {e : LevelEntity} (h : SingleExcept g e)
    (q : Request) (hpe : ∃ p, g2.getPosition e = some p ∧ p.x = q.x ∧ p.y = q.y)
    (hpf : ∀ f, f ≠ e → g2.getPosition f = g.getPosition f)
    (hfree : ∀ f p, g.getPosition f = some p → p.x = q.x → p.y = q.y → isPlayer f = false →
      f = e) :
    SinglePos g2 := by
  have h2 := h.move e q hpe hpf (fun f p hp hx hy n => Or.inl (hfree f p hp hx hy n))
  obtain ⟨pe, hpe, hex, hey⟩ := hpe
  intro e1 e2 p1 p2 h1 h3 hx hy n1 n2
  rcases h2 e1 e2 p1 p2 h1 h3 hx hy n1 n2 with hh | hh | hh
  · exact hh
  · by_cases he2 : e2 = e
    · exact hh.trans he2.symm
    · exfalso
      rw [hh, hpe] at h1
      cases h1
      rw [hpf e2 he2] at h3
      exact he2 (hfree e2 p2 h3 (hx.symm.trans hex) (hy.symm.trans hey) n2)
  · by_cases he1 : e1 = e
    · exact he1.trans hh.symm
    · exfalso
      rw [hh, hpe] at h3
      cases h3
      rw [hpf e1 he1] at h1
      exact he1 (hfree e1 p1 h1 (hx.trans hex) (hy.trans hey) n1)

/-! ## C18 and C19: the resolver under single occupancy -/

theorem pendingCount_pos (s : LevelGrid) (visited : List LevelEntity) (e : LevelEntity)
    (q : Request) (hq : mapGet s.requests e = some q) (he : e ∉ visited) :
    0 < pendingCount s visited :=
  lt_of_le_of_lt (Nat.zero_le _) (pendingCount_setAdd_lt s visited e q hq he)

/-- A call of `processSingleRequest` on a consistent grid with single occupancy,
for the pending request of an entity outside the visited set: with a budget above
the number of pending requests outside the visited set it returns; the grid stays
consistent, the entities of the visited set are untouched, every other entity is
untouched or has been moved to the cell it requested. -/
theorem processSingleRequest_single (fuel : Nat) :
    ∀ g e q visited, g.Consistent → g.RequestsInBounds → SinglePos g →
      mapGet g.requests e = some q → e ∉ visited → pendingCount g visited < fuel →
      ∃ g2, processSingleRequest fuel g e (some q) visited = Result.ok visited g2 ∧
        g2.Consistent ∧ Progress g g2 ∧
        (∀ f ∈ visited, g2.getPosition f = g.getPosition f ∧
          mapGet g2.requests f = mapGet g.requests f) ∧
        Settled g g2 e visited := by
  induction fuel with
  | zero =>
    intro g e q visited _ _ _ _ _ h
    exact absurd h (Nat.not_lt_zero _)
  | succ fuel ih =>
    intro g e q visited hc hrb hs hq he hcount
    have hqin := hrb e q hq
    obtain ⟨cell, hcell⟩ := getCell_some_of_inBounds g q.x q.y hc.rect hqin
    -- a grant straight away, with the visited set `v2`
    have hgrant : ∀ v2, ∃ g2, moveAndDelete g e q v2 = Result.ok v2 g2 ∧ g2.Consistent ∧
        Progress g g2 ∧ (∀ f, f ≠ e → g2.getPosition f = g.getPosition f ∧
          mapGet g2.requests f = mapGet g.requests f) ∧
        (∃ p, g2.getPosition e = some p ∧ p.x = q.x ∧ p.y = q.y) := by
      intro v2
      obtain ⟨g2, h1, h2, h3, -, h5, h6, h7⟩ := moveAndDelete_progress g e q v2 hc hqin hq
      exact ⟨g2, h1, h2, h3, fun f hf => ⟨h6 f hf, h5 f hf⟩, h7⟩
    have hvis : ∀ (g2 : LevelGrid), (∀ f, f ≠ e → g2.getPosition f = g.getPosition f ∧
          mapGet g2.requests f = mapGet g.requests f) →
        ∀ f ∈ visited, g2.getPosition f = g.getPosition f ∧
          mapGet g2.requests f = mapGet g.requests f := by
      intro g2 h f hf
      exact h f (fun hfe => he (hfe ▸ hf))
    rcases hs.oneBlocker hc q.x q.y cell hcell with hL | ⟨b, hL⟩
    · -- the requested cell holds no blocker
      have hfree : ∀ f ∈ cell, isPlayer f = false → f ∈ visited := by
        intro f hf hnp
        have : f ∈ nonPlayers cell := (mem_nonPlayers cell f).2 ⟨hf, hnp⟩
        rw [hL] at this
        cases this
      rw [processSingleRequest_grant fuel g e q visited cell hcell hfree]
      obtain ⟨g2, h1, h2, h3, h4, h5⟩ := hgrant visited
      refine ⟨g2, h1, h2, h3, hvis g2 h4, Or.inl ?_⟩
      refine (hs.except e).settle q h5 (fun f hf => (h4 f hf).1) ?_
      intro f p hp hx hy hn
      exfalso
      have : f ∈ nonPlayers cell :=
        (mem_nonPlayers_iff g hc _ _ cell hcell f).2 ⟨hn, p, hp, hx, hy⟩
      rw [hL] at this
      cases this
    · have hbmem : isPlayer b = false ∧ ∃ p, g.getPosition b = some p ∧ p.x = q.x ∧ p.y = q.y := by
        rw [← mem_nonPlayers_iff g hc _ _ cell hcell b, hL]
        exact List.mem_singleton_self b
      obtain ⟨hbn, pb, hpb, hbx, hby⟩ := hbmem
      have honly : ∀ f p, g.getPosition f = some p → p.x = q.x → p.y = q.y →
          isPlayer f = false → f = b := by
        intro f p hp hx hy hn
        have : f ∈ nonPlayers cell :=
          (mem_nonPlayers_iff g hc _ _ cell hcell f).2 ⟨hn, p, hp, hx, hy⟩
        rw [hL, List.mem_singleton] at this
        exact this
      by_cases hbv : b ∈ visited
      · -- the blocker is upstream in the chain: the chain closes on it
        have hfree : ∀ f ∈ cell, isPlayer f = false → f ∈ visited := by
          intro f hf hnp
          have : f ∈ nonPlayers cell := (mem_nonPlayers cell f).2 ⟨hf, hnp⟩
          rw [hL, List.mem_singleton] at this
          rw [this]
          exact hbv
        rw [processSingleRequest_grant fuel g e q visited cell hcell hfree]
        obtain ⟨g2, h1, h2, h3, h4, h5⟩ := hgrant visited
        have hbe : b ≠ e := fun h => he (h ▸ hbv)
        refine ⟨g2, h1, h2, h3, hvis g2 h4, Or.inr ⟨b, hbv, hbn, ?_, ?_⟩⟩
        · exact (hs.except b).move e q h5 (fun f hf => (h4 f hf).1)
            (fun f p hp hx hy hn => Or.inr (honly f p hp hx hy hn))
        · intro hen p hp f p2 hp2 hx hy
          by_contra hfn
          have hfn : isPlayer f = false := by simpa using hfn
          by_cases hfe : f = e
          · subst hfe
            obtain ⟨p3, hp3, h3x, h3y⟩ := h5
            rw [hp3] at hp2
            cases hp2
            exact hbe (hs b f pb p hpb hp (hbx.trans (h3x.symm.trans hx))
              (hby.trans (h3y.symm.trans hy)) hbn hen)
          · rw [(h4 f hfe).1] at hp2
            exact hfe (hs f e p2 p hp2 hp hx hy hfn hen)
      · have hc1 : ¬ ((nonPlayers cell).length = 0 ∨
            (nonPlayers cell).all (fun ent => setHas visited ent) = true) := by
          rw [hL]
          simp [setHas, hbv]
        cases hbreq : mapHas g.requests b with
        | false =>
          -- the blocker has no request: the request is left pending
          have hc2 : ¬ (nonPlayers cell).all (fun ent => mapHas g.requests ent) = true := by
            rw [hL]
            simp [hbreq]
          rw [processSingleRequest_succ fuel g e q visited cell hcell, if_neg hc1, if_neg hc2]
          exact ⟨g, rfl, hc, Progress.start g, fun _ _ => ⟨rfl, rfl⟩, Or.inl hs⟩
        | true =>
          have hc2 : (nonPlayers cell).all (fun ent => mapHas g.requests ent) = true := by
            rw [hL]
            simp [hbreq]
          rw [processSingleRequest_succ fuel g e q visited cell hcell, if_neg hc1, if_pos hc2,
            handleAnyMovementConflicts_eq _ g e q visited cell hcell, hL]
          obtain ⟨qb, hqb⟩ : ∃ qb, mapGet g.requests b = some qb := by
            unfold mapHas at hbreq
            exact Option.isSome_iff_exists.1 hbreq
          have hlt := pendingCount_setAdd_lt g visited e q hq he
          have hdel : setDelete (setAdd visited e) e = visited := setDelete_setAdd visited e he
          by_cases hbe : b = e
          · -- the entity requests its own cell
            subst hbe
            obtain ⟨m, rfl⟩ : ∃ m, fuel = m + 1 := ⟨fuel - 1, by omega⟩
            have hfree : ∀ f ∈ cell, isPlayer f = false → f ∈ setAdd visited b := by
              intro f hf hnp
              have : f ∈ nonPlayers cell := (mem_nonPlayers cell f).2 ⟨hf, hnp⟩
              rw [hL, List.mem_singleton] at this
              exact (mem_setAdd _ _ _).2 (Or.inr this)
            obtain ⟨g1, h1, hcs1, hp1, h4, h5⟩ := hgrant (setAdd visited b)
            simp only [handleLoop, hqb]
            rw [hq] at hqb
            cases hqb
            rw [processSingleRequest_grant m g b q (setAdd visited b) cell hcell hfree, h1]
            simp only [handleLoop, hdel]
            have hb1 : g1.inBounds q.x q.y = true := by
              rw [inBounds_congr g g1 _ _ hp1.1 hp1.2.1]
              exact hqin
            obtain ⟨cell1, hcell1⟩ := getCell_some_of_inBounds g1 q.x q.y hcs1.rect hb1
            have hmem1 : b ∈ nonPlayers cell1 :=
              (mem_nonPlayers_iff g1 hcs1 _ _ cell1 hcell1 b).2 ⟨hbn, h5⟩
            have hlen : ¬ (nonPlayers cell1).length = 0 := by
              intro h0
              rw [List.length_eq_zero] at h0
              rw [h0] at hmem1
              cases hmem1
            simp only [hcell1, if_neg hlen]
            refine ⟨g1, rfl, hcs1, hp1, hvis g1 h4, Or.inl ?_⟩
            exact (hs.except b).settle q h5 (fun f hf => (h4 f hf).1) honly
          · -- the blocker is resolved first
            have hbv1 : b ∉ setAdd visited e := by
              rw [mem_setAdd]
              rintro (h | h)
              · exact hbv h
              · exact hbe h
            obtain ⟨g1, h1, hcs1, hp1, hun1, hset1⟩ :=
              ih g b qb (setAdd visited e) hc hrb hs hqb hbv1 (by omega)
            simp only [handleLoop, hqb, h1, hdel]
            obtain ⟨hpe1, hqe1⟩ := hun1 e ((mem_setAdd _ _ _).2 (Or.inr rfl))
            have hq1 : mapGet g1.requests e = some q := hqe1.trans hq
            have hb1 : g1.inBounds q.x q.y = true := by
              rw [inBounds_congr g g1 _ _ hp1.1 hp1.2.1]
              exact hqin
            obtain ⟨cell1, hcell1⟩ := getCell_some_of_inBounds g1 q.x q.y hcs1.rect hb1
            by_cases hfree1 : nonPlayers cell1 = []
            · -- the blocker has left: the move is granted
              have hlen : (nonPlayers cell1).length = 0 := by
                rw [hfree1]
                rfl
              simp only [hcell1, if_pos hlen]
              obtain ⟨g2, h2, hcs2, hp2, -, hr2, hf2, hpe2⟩ :=
                moveAndDelete_progress g1 e q visited hcs1 hb1 hq1
              have hnone : ∀ f p, g1.getPosition f = some p → p.x = q.x → p.y = q.y →
                  isPlayer f = false → False := by
                intro f p hp hx hy hn
                have : f ∈ nonPlayers cell1 :=
                  (mem_nonPlayers_iff g1 hcs1 _ _ cell1 hcell1 f).2 ⟨hn, p, hp, hx, hy⟩
                rw [hfree1] at this
                cases this
              refine ⟨g2, h2, hcs2, hp1.andThen hp2, ?_, ?_⟩
              · intro f hf
                have hfe : f ≠ e := fun h => he (h ▸ hf)
                obtain ⟨a1, a2⟩ := hun1 f ((mem_setAdd _ _ _).2 (Or.inl hf))
                exact ⟨(hf2 f hfe).trans a1, (hr2 f hfe).trans a2⟩
              · rcases hset1 with hs1 | ⟨c, hcv, hcn, hex, -⟩
                · exact Or.inl ((hs1.except e).settle q hpe2 hf2
                    (fun f p hp hx hy hn => (hnone f p hp hx hy hn).elim))
                · rcases (mem_setAdd _ _ _).1 hcv with hcv | hce
                  · right
                    refine ⟨c, hcv, hcn, hex.move e q hpe2 hf2
                      (fun f p hp hx hy hn => (hnone f p hp hx hy hn).elim), ?_⟩
                    intro hen p hp f p2 hp2f hx hy
                    by_contra hfn
                    have hfn : isPlayer f = false := by simpa using hfn
                    by_cases hfe : f = e
                    · subst hfe
                      obtain ⟨p3, hp3, h3x, h3y⟩ := hpe2
                      rw [hp3] at hp2f
                      cases hp2f
                      exact hbe (hs b f pb p hpb hp (hbx.trans (h3x.symm.trans hx))
                        (hby.trans (h3y.symm.trans hy)) hbn hen)
                    · rw [hf2 f hfe] at hp2f
                      have hpe1' : g1.getPosition e = some p := hpe1.trans hp
                      rcases hex f e p2 p hp2f hpe1' hx hy hfn hen with h | h | h
                      · exact hfe h
                      · have hcpos := (hun1 c ((mem_setAdd _ _ _).2 (Or.inl hcv))).1
                        rw [← h, hp2f] at hcpos
                        have hce : f = e := hs f e p2 p hcpos.symm hp hx hy hfn hen
                        exact hfe hce
                      · exact he (h ▸ hcv)
                  · subst hce
                    exact Or.inl (hex.settle q hpe2 hf2
                      (fun f p hp hx hy hn => (hnone f p hp hx hy hn).elim))
            · -- the requested cell is still held: the request is left pending
              have hlen : ¬ (nonPlayers cell1).length = 0 := by
                intro h0
                exact hfree1 (List.length_eq_zero.1 h0)
              simp only [hcell1, if_neg hlen]
              refine ⟨g1, rfl, hcs1, hp1, ?_, ?_⟩
              · intro f hf
                exact hun1 f ((mem_setAdd _ _ _).2 (Or.inl hf))
              · rcases hset1 with hs1 | ⟨c, -, -, -, hvac⟩
                · exact Or.inl hs1
                · exfalso
                  apply hfree1
                  apply nonPlayers_eq_nil g1 hcs1 _ _ cell1 hcell1
                  intro f p hp hx hy
                  exact hvac hbn pb hpb f p hp (hx.trans hbx.symm) (hy.trans hby.symm)

theorem Progress.inBounds_requests {g s : LevelGrid} (h : Progress g s)
    (hb : g.RequestsInBounds) : s.RequestsInBounds := by
  intro e q hq
  rw [inBounds_congr g s _ _ h.1 h.2.1]
  exact hb e q (h.request_eq e q hq)

/-- The loop of `processAllRequests` on a consistent grid with single occupancy:
with a budget above the number of requests it returns, and leaves a consistent
grid with single occupancy. -/
theorem processLoop_single (fuel : Nat) (l : List (LevelEntity × Request)) :
    ∀ s, s.Consistent → s.RequestsInBounds → SinglePos s →
      (∀ e q, (e, q) ∈ l → ∀ q2, mapGet s.requests e = some q2 → q2 = q) →
      s.requests.length < fuel →
      ∃ s2, processLoop fuel l s = Result.ok () s2 ∧ s2.Consistent ∧ SinglePos s2 ∧
        Progress s s2 := by
  induction l with
  | nil =>
    intro s hc _ hs _ _
    exact ⟨s, rfl, hc, hs, Progress.start s⟩
  | cons hd rest ih =>
    obtain ⟨e, q⟩ := hd
    intro s hc hb hs hagree hfuel
    have hrest : ∀ s1, Progress s s1 →
        ∀ e2 q2, (e2, q2) ∈ rest → ∀ q3, mapGet s1.requests e2 = some q3 → q3 = q2 := by
      intro s1 hp e2 q2 hmem q3 hq3
      exact hagree e2 q2 (List.mem_cons_of_mem _ hmem) q3 (hp.request_eq e2 q3 hq3)
    simp only [processLoop]
    cases hg : mapGet s.requests e with
    | none =>
      have hhas : mapHas s.requests e = false := by
        unfold mapHas
        rw [hg]
        rfl
      rw [hhas]
      obtain ⟨s2, h2, hc2, hs2, hp2⟩ := ih s hc hb hs (hrest s (Progress.start s)) hfuel
      exact ⟨s2, by simpa using h2, hc2, hs2, hp2⟩
    | some q2 =>
      have hhas : mapHas s.requests e = true := by
        unfold mapHas
        rw [hg]
        rfl
      have hq : mapGet s.requests e = some q := by
        rw [hg, hagree e q (List.mem_cons_self _ _) q2 hg]
      rw [hhas]
      obtain ⟨s1, h1, hc1, hp1, -, hset1⟩ := processSingleRequest_single fuel s e q [] hc hb hs hq
        (List.not_mem_nil e) (lt_of_le_of_lt (pendingCount_le s []) hfuel)
      have hs1 : SinglePos s1 := by
        rcases hset1 with h | ⟨c, hcv, -⟩
        · exact h
        · cases hcv
      obtain ⟨s2, h2, hc2, hs2, hp2⟩ := ih s1 hc1 (hp1.inBounds_requests hb) hs1 (hrest s1 hp1)
        (lt_of_le_of_lt hp1.2.2.1 hfuel)
      refine ⟨s2, ?_, hc2, hs2, hp1.andThen hp2⟩
      simp only [if_true, h1]
      exact h2

/-- On a consistent grid with at most one blocker in a cell `processAllRequests`
returns, with a budget above the number of requests, and leaves such a grid. -/
theorem processAllRequests_single (fuel : Nat) (g : LevelGrid) (hc : g.Consistent)
    (hs : SingleOccupancy g) (hb : g.RequestsInBounds)
    (hnd : (g.requests.map Prod.fst).Nodup) (hfuel : g.requests.length < fuel) :
    ∃ g2, processAllRequests fuel g = Result.ok () g2 ∧ g2.Consistent ∧
      SingleOccupancy g2 ∧ g2.requests = [] := by
  obtain ⟨s2, h2, hc2, hs2, -⟩ := processLoop_single fuel g.requests g hc hb
    (singlePos_of_occupancy g hc hs) (requests_agree g hnd) hfuel
  have hc3 : LevelGrid.Consistent { s2 with requests := [] } := Consistent.withRequests s2 hc2 _
  refine ⟨{ s2 with requests := [] }, ?_, hc3, ?_, rfl⟩
  · unfold processAllRequests
    rw [h2]
  · exact occupancy_of_singlePos _ hc3 hs2

/-- A batch with one request for an entity at most, all of entities of the grid,
has no more requests than the grid has entities. -/
theorem requests_le_entities (g : LevelGrid) (hnd : (g.requests.map Prod.fst).Nodup)
    (hon : g.RequestersPresent) : g.requests.length ≤ g.entities.length := by
  have hsub : g.requests.map Prod.fst ⊆ g.entities := by
    intro e he
    obtain ⟨⟨e2, q⟩, hmem, rfl⟩ := List.mem_map.1 he
    have hq := mapGet_eq_some_of_mem g.requests e2 q hnd hmem
    obtain ⟨p, hp⟩ := Option.isSome_iff_exists.1 (hon e2 q hq)
    exact mem_entities_of_getPosition g e2 p hp
  have := (List.Nodup.subperm hnd hsub).length_le
  simpa using this

theorem singleOccupancy_of_all (g : LevelGrid)
    (h : (g.grid.all fun column => column.all fun cell =>
      decide ((nonPlayers cell).length ≤ 1)) = true) : SingleOccupancy g := by
  intro x y cell hcell
  unfold getCell at hcell
  split at hcell
  · cases hcol : g.grid[x.toNat]? with
    | none =>
      rw [hcol] at hcell
      cases hcell
    | some column =>
      rw [hcol] at hcell
      simp only at hcell
      rw [List.all_eq_true] at h
      have h1 := h column (List.getElem?_mem hcol)
      rw [List.all_eq_true] at h1
      have h2 := h1 cell (List.getElem?_mem hcell)
      simpa using h2
  · cases hcell

theorem requestersPresent_of_all (g : LevelGrid)
    (h : (g.requests.all fun p => (g.getPosition p.1).isSome) = true) :
    g.RequestersPresent := by
  intro e q hq
  rw [List.all_eq_true] at h
  exact h (e, q) (mem_of_mapGet_eq_some _ _ _ hq)

/-- C18: on a consistent grid in which every cell holds at most one entity that is
not a Player, with a batch of in-bounds requests of entities of the grid (one
request for an entity at most; a request may be for the own cell of its entity),
`processAllRequests` returns without an exception as soon as the budget for nested
calls of `processSingleRequest` is the number of entities plus one: the recursion
of `processSingleRequest` and `_handleAnyMovementConflicts` never goes deeper. The
number of requests plus one is enough as well. -/
theorem resolver_terminates (g : LevelGrid) (fuel : Nat) (hc : g.Consistent)
    (hs : SingleOccupancy g) (hb : g.RequestsInBounds)
    (hnd : (g.requests.map Prod.fst).Nodup) (hon : g.RequestersPresent)
    (hfuel : g.entities.length + 1 ≤ fuel ∨ g.requests.length + 1 ≤ fuel) :
    ∃ g2, processAllRequests fuel g = Result.ok () g2 := by
  have hle := requests_le_entities g hnd hon
  obtain ⟨g2, h2, -⟩ := processAllRequests_single fuel g hc hs hb hnd (by omega)
  exact ⟨g2, h2⟩

/-- Witness for C18: on `caughtScene` the enemy requests its own cell; the grid has
two entities and a budget of three nested calls is enough. -/
theorem resolver_terminates_witness :
    ∃ g2, processAllRequests 3 (caughtScene.addRequest ⟨0, Kind.basicEnemy⟩ 0 0) =
      Result.ok () g2 :=
  resolver_terminates (caughtScene.addRequest ⟨0, Kind.basicEnemy⟩ 0 0) 3
    (Consistent.withRequests caughtScene caughtScene_consistent _)
    (singleOccupancy_of_all _ (by decide)) (requestsInBounds_of_all _ (by decide)) (by decide)
    (requestersPresent_of_all _ (by decide)) (Or.inl (by decide))

/-- C19: on a consistent grid in which every cell holds at most one entity that is
not a Player, with a batch of in-bounds requests (one request for an entity at
most), `processAllRequests` returns, given a budget above the number of requests,
and afterwards every cell again holds at most one entity that is not a Player;
the grid is consistent and no request is pending. -/
theorem occupancy_preserved (g : LevelGrid) (fuel : Nat) (hc : g.Consistent)
    (hs : SingleOccupancy g) (hb : g.RequestsInBounds)
    (hnd : (g.requests.map Prod.fst).Nodup) (hfuel : g.requests.length < fuel) :
    ∃ g2, processAllRequests fuel g = Result.ok () g2 ∧ SingleOccupancy g2 ∧
      g2.Consistent ∧ g2.requests = [] := by
  obtain ⟨g2, h2, hc2, hs2, hr2⟩ := processAllRequests_single fuel g hc hs hb hnd hfuel
  exact ⟨g2, h2, hs2, hc2, hr2⟩

theorem swapScene_consistent : swapScene.Consistent :=
  consistent_of_applyOps [GridOp.place ⟨0, Kind.basicEnemy⟩ 0 0,
    GridOp.place ⟨1, Kind.basicEnemy⟩ 1 0, GridOp.place ⟨2, Kind.basicEnemy⟩ 2 0] 3 1 _ _
    (by decide) rfl

/-- Witness for C19: on `swapScene` the third enemy is moved into the cell of the
second while that one is in the visited set; the second then leaves, and every
cell holds one enemy again. -/
theorem occupancy_preserved_witness :
    ∃ g2, processAllRequests 4 swapScene = Result.ok () g2 ∧ SingleOccupancy g2 ∧
      g2.Consistent ∧ g2.requests = [] :=
  occupancy_preserved swapScene 4 swapScene_consistent (singleOccupancy_of_all _ (by decide))
    (requestsInBounds_of_all _ (by decide)) (by decide) (by decide)

/-! ## C20: what a resolution may change -/

theorem mem_entities_iff (g : LevelGrid) (e : LevelEntity) :
    e ∈ g.entities ↔ (g.getPosition e).isSome = true := by
  constructor
  · exact getPosition_isSome_of_mem_entities g e
  · intro h
    obtain ⟨p, hp⟩ := Option.isSome_iff_exists.1 h
    exact mem_entities_of_getPosition g e p hp

/-- C20: on a consistent grid with a batch of in-bounds requests of entities of
the grid (one request for an entity at most), when `processAllRequests` returns:
the grid has the same entities, it is consistent (each entity is a member of
exactly the cell of its recorded position), an entity without a request has the
position object it had, an entity with a request is recorded at the cell it was
at or at the cell it requested, and no request is pending. -/
theorem resolution_frame (fuel : Nat) (g g2 : LevelGrid) (hc : g.Consistent)
    (hb : g.RequestsInBounds) (hnd : (g.requests.map Prod.fst).Nodup)
    (hon : g.RequestersPresent) (h : processAllRequests fuel g = Result.ok () g2) :
    (∀ e, e ∈ g2.entities ↔ e ∈ g.entities) ∧
    g2.Consistent ∧
    (∀ e, mapGet g.requests e = none → g2.getPosition e = g.getPosition e) ∧
    (∀ e q, mapGet g.requests e = some q → g2.coords e = g.coords e ∨ g2.coords e = some q) ∧
    g2.requests = [] := by
  obtain ⟨hc2, hf, hr2⟩ := processAllRequests_frame fuel g g2 hc hb hnd h
  obtain ⟨-, -, -, -, hpos⟩ := hf
  refine ⟨?_, hc2, ?_, ?_, hr2⟩
  · intro e
    rw [mem_entities_iff, mem_entities_iff]
    rcases hpos e with h1 | ⟨q, p, hq, -, hp, -⟩
    · rw [h1]
    · rw [hp, hon e q hq]
      rfl
  · intro e he
    rcases hpos e with h1 | ⟨q, p, hq, -⟩
    · exact h1
    · rw [he] at hq
      cases hq
  · intro e q hq
    rcases hpos e with h1 | ⟨q2, p, hq2, -, hp, hx, hy, -⟩
    · left
      unfold LevelGrid.coords
      rw [h1]
    · right
      rw [hq] at hq2
      cases hq2
      unfold LevelGrid.coords
      rw [hp]
      simp only [Option.map_some', Option.some.injEq]
      exact Request.eq_of_coords _ _ hx hy

/-- Witness for C20: `processAllRequests` turns `swapScene` into
`swapSceneResolved`. -/
theorem resolution_frame_witness :
    processAllRequests 4 swapScene = Result.ok () swapSceneResolved ∧
    (∀ e, e ∈ swapSceneResolved.entities ↔ e ∈ swapScene.entities) ∧
    swapSceneResolved.Consistent ∧
    (∀ e, mapGet swapScene.requests e = none →
      swapSceneResolved.getPosition e = swapScene.getPosition e) ∧
    (∀ e q, mapGet swapScene.requests e = some q →
      swapSceneResolved.coords e = swapScene.coords e ∨ swapSceneResolved.coords e = some q) ∧
    swapSceneResolved.requests = [] :=
  ⟨rfl, resolution_frame 4 swapScene swapSceneResolved swapScene_consistent
    (requestsInBounds_of_all _ (by decide)) (by decide) (requestersPresent_of_all _ (by decide))
    rfl⟩

end IdkGame
